import Mathlib

/-!
# GoAgent: command protocol, repository context and orchestration

A shallow embedding of these parts of the GoAgent sources:

* `internal/agent/commands/commands.go` : `NewCommand`, `convertToStringArray`
  and the `Process` methods of the commands;
* `internal/agent/context/local_agent_context.go` : the staging overlay
  `LocalProgrammingAgentContext` with its operations;
* `internal/utils/utils.go` : `ExtractCodeBlock`;
* `internal/agent/assistants/instruction_assistant.go` : `Instruct`;
* `internal/agent/service/llm_programming_service.go` : `processRequest` and
  the functions it calls;
* `internal/agent/local_programming_agent.go` : `resetAndWrapError`,
  `promptForCommit` and `handleCommit`.

Definitions come first, the theorems about them follow.

Conventions of the embedding.

* A Go `map[string]interface{}` decoded from JSON is an association list of
  keys and `Value`s; a lookup returns the first binding of the key.
* A Go slice is a `List`; the nil slice and the empty slice are both `[]`.
* A Go `error` built with `fmt.Errorf` is the `String` of its message.
* A Go `string` holding file data is a `GoString`: the sequence obtained by
  decoding its bytes as UTF-8, each item a code point or a byte that belongs
  to no well-formed encoding. Paths, keys and messages of the protocol are
  Lean `String`s.
* The file system is a `Disk`: the root directory of the context and a tree
  of regular files and directories, each recorded under its cleaned name.
  Every access goes through `filepath.Join(rootDir, path)`, so two spellings
  of one name reach one file. `os.ReadFile`, `os.Stat`, `os.Remove`,
  `os.MkdirAll`, `os.Rename` and `os.WriteFile` succeed or fail as the tree
  tells: a name that is absent, a file where a directory is needed, a
  directory where a file is needed, a directory that is not empty.
  Permissions, links and input/output errors are not modelled.
-/

namespace GoAgent

/-! ## Command protocol (`commands.go`) -/

/-- Dynamic values held by an `interface{}` after generic JSON decoding. No
operation inspects the payload of a number, a boolean or an object. -/
inductive Value where
  | null : Value
  | bool (b : Bool) : Value
  | num (n : Int) : Value
  | str (s : String) : Value
  | arr (xs : List Value) : Value
  | obj (kvs : List (String × Value)) : Value

/-- The Go type `map[string]interface{}`. -/
abbrev CommandMap := List (String × Value)

/-- Map index `m[key]` in its two-result form: `some v` when `ok`. -/
def CommandMap.get (m : CommandMap) (key : String) : Option Value :=
  m.lookup key

/-- The closed set of command variants (the structs implementing `Command`). -/
inductive Command where
  | ReadCommand (Files : List String) : Command
  | CheckStructureCommand : Command
  | SearchCommand (Query : String) : Command
  | UpdateFileCommand (FilePath ImplementationPlan : String) (ContextFiles : List String) : Command
  | MoveFileCommand (OldPath NewPath : String) : Command
  | DeleteFileCommand (FilePath : String) : Command
  | CommitCommand (Message : String) : Command
  | RespondCommand (Message : String) : Command
  deriving DecidableEq, Repr

deriving instance DecidableEq for Except

/-- Type assertion `v.(string)`. -/
def Value.asString : Value → Option String
  | .str s => some s
  | _ => none

/-- Type assertion `v.([]interface{})`. -/
def Value.asSlice : Value → Option (List Value)
  | .arr xs => some xs
  | _ => none

/-- The loop of the `read` case: every element must assert to `string`;
the first element that does not makes the whole loop fail. -/
def readFilePaths : List Value → Option (List String)
  | [] => some []
  | f :: rest =>
    match f.asString with
    | none => none
    | some filePath =>
      match readFilePaths rest with
      | none => none
      | some filePaths => some (filePath :: filePaths)

/-- The loop of `convertToStringArray` over the asserted slice: the result
so far is dropped and nil returned at the first element that is not a string. -/
def convertLoop : List Value → List String → List String
  | [], stringSlice => stringSlice
  | v :: rest, stringSlice =>
    match v.asString with
    | none => []
    | some str => convertLoop rest (stringSlice ++ [str])

/-- `convertToStringArray`: nil input, a non-slice and a slice with a
non-string element all give nil (an error is only logged). -/
def convertToStringArray (input : Value) : List String :=
  match input with
  | .null => []
  | _ =>
    match input.asSlice with
    | none => []
    | some slice => convertLoop slice []

/-- The text `fmt` prints for the verb `%s`: a string is printed verbatim, any
other dynamic value through `render` (the `%!s(...)` forms of package `fmt`,
which the embedding leaves abstract). -/
def sprintS (render : Value → String) : Value → String
  | .str s => s
  | v => render v

/-- `NewCommand`: builds a command from the decoded mapping. `render` is the
`fmt` rendering of non-string values, used only by the default case. -/
def NewCommand (render : Value → String) (commandMap : CommandMap) : Except String Command :=
  let command := (commandMap.get "command").getD Value.null
  match command.asString with
  | some "read" =>
    match commandMap.get "files" with
    | none => .error "missing 'files' parameter for read command"
    | some filesRaw =>
      match filesRaw.asSlice with
      | none => .error "invalid 'files' parameter type for read command"
      | some files =>
        match readFilePaths files with
        | none => .error "invalid file path type in 'files' parameter for read command"
        | some filePaths => .ok (.ReadCommand filePaths)
  | some "check_structure" => .ok .CheckStructureCommand
  | some "search" =>
    match commandMap.get "query" with
    | none => .error "missing 'query' parameter for search command"
    | some queryRaw =>
      match queryRaw.asString with
      | none => .error "invalid 'query' parameter type for search command"
      | some query => .ok (.SearchCommand query)
  | some "update_file" =>
    match commandMap.get "file_path" with
    | none => .error "missing 'file_path' parameter for update_file command"
    | some filePathRaw =>
      match filePathRaw.asString with
      | none => .error "invalid 'file_path' parameter type for update_file command"
      | some filePath =>
        match commandMap.get "implementation_plan" with
        | none => .error "missing 'implementation_plan' parameter for update_file command"
        | some implementationPlanRaw =>
          match implementationPlanRaw.asString with
          | none => .error "invalid 'implementation_plan' parameter type for update_file command"
          | some implementationPlan =>
            match commandMap.get "context_files" with
            | none => .ok (.UpdateFileCommand filePath implementationPlan [])
            | some contextFilesRaw =>
              match contextFilesRaw.asSlice with
              | none => .error "invalid 'context_files' parameter type for update_file command"
              | some contextFilesSlice =>
                .ok (.UpdateFileCommand filePath implementationPlan
                  (convertToStringArray (.arr contextFilesSlice)))
  | some "move_file" =>
    match commandMap.get "old_path" with
    | none => .error "missing 'old_path' parameter for move_file command"
    | some oldPathRaw =>
      match oldPathRaw.asString with
      | none => .error "invalid 'old_path' parameter type for move_file command"
      | some oldPath =>
        match commandMap.get "new_path" with
        | none => .error "missing 'new_path' parameter for move_file command"
        | some newPathRaw =>
          match newPathRaw.asString with
          | none => .error "invalid 'new_path' parameter type for move_file command"
          | some newPath => .ok (.MoveFileCommand oldPath newPath)
  | some "delete_file" =>
    match commandMap.get "file_path" with
    | none => .error "missing 'file_path' parameter for delete_file command"
    | some filePathRaw =>
      match filePathRaw.asString with
      | none => .error "invalid 'file_path' parameter type for delete_file command"
      | some filePath => .ok (.DeleteFileCommand filePath)
  | some "commit" =>
    match commandMap.get "message" with
    | none => .error "missing 'message' parameter for commit command"
    | some messageRaw =>
      match messageRaw.asString with
      | none => .error "invalid 'message' parameter type for commit command"
      | some message => .ok (.CommitCommand message)
  | some "respond" =>
    match commandMap.get "answer" with
    | none => .error "missing 'message' parameter for respond command"
    | some messageRaw =>
      match messageRaw.asString with
      | none => .error "invalid 'message' parameter type for respond command"
      | some message => .ok (.RespondCommand message)
  | _ => .error ("unknown command: " ++ sprintS render command)

/-- The eight discriminant values recognised by `NewCommand`. -/
def commandNames : List String :=
  ["read", "check_structure", "search", "update_file", "move_file", "delete_file",
   "commit", "respond"]

/-! ## Repository context (`local_agent_context.go`) -/

/-- One item of a Go string decoded as UTF-8. -/
inductive GoChar where
  | rune (c : Char) : GoChar
  | invalid (byte : Nat) : GoChar
  deriving DecidableEq, Repr

/-- A Go `string` used as file data or as the text returned by a read. -/
abbrev GoString := List GoChar

/-- A Go string literal (always well-formed UTF-8). -/
def GoString.ofString (s : String) : GoString :=
  s.data.map GoChar.rune

/-- Whether the Go string is valid UTF-8 (`utf8.ValidString`). -/
def GoString.valid (s : GoString) : Bool :=
  s.all fun ch => match ch with
    | .rune _ => true
    | .invalid _ => false

/-- Worker of `toValidUTF8`; `inRun` tells that the previous item was an
invalid byte, whose run has already been replaced. -/
def toValidUTF8Aux (replacement : GoString) : Bool → GoString → GoString
  | _, [] => []
  | _, .rune c :: rest => .rune c :: toValidUTF8Aux replacement false rest
  | inRun, .invalid _ :: rest =>
    (if inRun then [] else replacement) ++ toValidUTF8Aux replacement true rest

/-- `strings.ToValidUTF8(s, replacement)`: each run of invalid bytes is
replaced by one copy of `replacement`. -/
def toValidUTF8 (s replacement : GoString) : GoString :=
  toValidUTF8Aux replacement false s

/-- A Go `map[string]T` that is only indexed, assigned and deleted from. -/
abbrev GoMap (β : Type) := String → Option β

/-- The map `make(map[string]T)`. -/
def GoMap.empty {β : Type} : GoMap β := fun _ => none

/-- Assignment `m[key] = value`. -/
def GoMap.set {β : Type} (m : GoMap β) (key : String) (value : β) : GoMap β :=
  fun k => if k = key then some value else m k

/-- Builtin `delete(m, key)`. -/
def GoMap.delete {β : Type} (m : GoMap β) (key : String) : GoMap β :=
  fun k => if k = key then none else m k

/-! ### File names (`path/filepath`) and the file system (`os`) -/

/-- The elements of a name between its separators, the element read so far
being the second argument. -/
def splitSlash : List Char → List Char → List (List Char)
  | [], element => [element]
  | ch :: rest, element =>
    if ch = '/' then element :: splitSlash rest [] else splitSlash rest (element ++ [ch])

/-- The loop of `filepath.Clean` over the elements, `out` being the elements
kept so far: empty elements and `.` are dropped, `..` takes back the last
element kept when there is one that is not `..`, is dropped at the root of a
rooted name, and is kept otherwise. -/
def cleanElements (rooted : Bool) : List (List Char) → List (List Char) → List (List Char)
  | [], out => out
  | element :: rest, out =>
    if element = [] ∨ element = ['.'] then cleanElements rooted rest out
    else if element = ['.', '.'] then
      match out.getLast? with
      | some last =>
        if last = ['.', '.'] then cleanElements rooted rest (out ++ [element])
        else cleanElements rooted rest out.dropLast
      | none =>
        if rooted then cleanElements rooted rest out
        else cleanElements rooted rest (out ++ [element])
    else cleanElements rooted rest (out ++ [element])

/-- The elements joined by separators. -/
def joinSlash : List (List Char) → List Char
  | [] => []
  | [element] => element
  | element :: rest => element ++ '/' :: joinSlash rest

/-- `filepath.Clean` (Unix). -/
def filepathClean (path : String) : String :=
  if path = "" then "."
  else if path.data.head? = some '/' then
    String.mk ('/' :: joinSlash (cleanElements true (splitSlash path.data []) []))
  else if cleanElements false (splitSlash path.data []) [] = [] then "."
  else String.mk (joinSlash (cleanElements false (splitSlash path.data []) []))

/-- `filepath.Join(dir, path)`: empty arguments are ignored, the rest is
joined by a separator and cleaned; two empty arguments give the empty name. -/
def filepathJoin (dir path : String) : String :=
  if dir ≠ "" then filepathClean (dir ++ "/" ++ path)
  else if path ≠ "" then filepathClean path
  else ""

/-- `filepath.Dir`: the name up to its last separator, cleaned. -/
def filepathDir (path : String) : String :=
  filepathClean (String.mk (path.data.reverse.dropWhile (· ≠ '/')).reverse)


/-- The names of the directories a name passes through, outermost first: the
part of the name before each separator (the part before a leading separator,
which is empty, left out). The part seen so far is the second argument. -/
def namePrefixes : List Char → List Char → List String
  | [], _ => []
  | ch :: rest, seen =>
    if ch = '/' then
      (if seen = [] then [] else [String.mk seen]) ++ namePrefixes rest (seen ++ [ch])
    else namePrefixes rest (seen ++ [ch])

/-- The directories above a name. -/
def ancestors (name : String) : List String :=
  namePrefixes name.data []

/-- Names of directories that exist in every file system: the current
directory, the root, and the directories above the current one. -/
def isRootLike (name : String) : Bool :=
  name = "." || name = "/" || (splitSlash name.data []).all (· = ['.', '.'])

/-- What a name of the file system holds: a regular file with its data, or a
directory. -/
inductive Node where
  | file (data : GoString) : Node
  | dir : Node
  deriving DecidableEq, Repr

/-- The file system the context works on: the field `rootDir` of the context
(it never changes) and the files and directories, each under its cleaned
name. Permissions, links and input/output errors are outside the model: a call
fails only for what the tree holds. -/
structure Disk where
  rootDir : String
  entries : List (String × Node)
  deriving DecidableEq, Repr

/-- The name `filepath.Join(c.rootDir, path)`. -/
def Disk.fullPath (d : Disk) (path : String) : String :=
  filepathJoin d.rootDir path

/-- What is recorded under a name. -/
def Disk.entry (d : Disk) (name : String) : Option Node :=
  if isRootLike name then some .dir else d.entries.lookup name

/-- The outcome of looking a name up: the node found; `absent`, nothing under
this name in a directory that exists (`ENOENT`); `missing`, a directory on the
way does not exist (`ENOENT`); `notDir`, a file stands where a directory is
needed (`ENOTDIR`). -/
inductive Found where
  | node (n : Node) : Found
  | absent : Found
  | missing : Found
  | notDir : Found
  deriving DecidableEq, Repr

/-- The walk through the directories above a name: `none` when all of them
are directories. -/
def Disk.walk (d : Disk) : List String → Option Found
  | [] => none
  | name :: rest =>
    match d.entry name with
    | some .dir => d.walk rest
    | some (.file _) => some .notDir
    | none => some .missing

/-- The lookup of a name by the system calls. -/
def Disk.find (d : Disk) (name : String) : Found :=
  if name = "" then .missing
  else
    match d.walk (ancestors name) with
    | some failure => failure
    | none =>
      match d.entry name with
      | some n => .node n
      | none => .absent

/-- The entries with the one under `name` replaced. -/
def Disk.put (d : Disk) (name : String) (n : Node) : Disk :=
  { d with entries := (name, n) :: d.entries.filter fun e => e.1 ≠ name }

/-- The entries without the one under `name`. -/
def Disk.drop (d : Disk) (name : String) : Disk :=
  { d with entries := d.entries.filter fun e => e.1 ≠ name }

/-- `os.ReadFile(name)`: `none` is an error. -/
def Disk.readFile (d : Disk) (name : String) : Option GoString :=
  match d.find name with
  | .node (.file data) => some data
  | _ => none

instance : CoeFun Disk (fun _ => String → Option GoString) where
  coe d := fun path => d.readFile (d.fullPath path)

/-- The outcome of `os.Stat` as `MoveFile` tells it apart: no error, an error
that is `os.ErrNotExist`, another error. -/
inductive StatResult where
  | found : StatResult
  | notExist : StatResult
  | failed : StatResult
  deriving DecidableEq, Repr

/-- `os.Stat(name)`. -/
def Disk.stat (d : Disk) (name : String) : StatResult :=
  match d.find name with
  | .node _ => .found
  | .absent => .notExist
  | .missing => .notExist
  | .notDir => .failed

/-- Whether a directory holds an entry. -/
def Disk.hasChildren (d : Disk) (name : String) : Bool :=
  d.entries.any fun e => !isRootLike e.1 && e.1 ≠ "" && filepathDir e.1 = name

/-- The outcome of `os.Remove` as `FlushChanges` tells it apart. -/
inductive RemoveResult where
  | removed (d : Disk) : RemoveResult
  | notExist : RemoveResult
  | failed : RemoveResult
  deriving DecidableEq, Repr

/-- `os.Remove(name)`: a file or an empty directory is removed; a directory
that is not empty or exists in every file system, and a name below a file,
give an error that is not `os.ErrNotExist`. -/
def Disk.remove (d : Disk) (name : String) : RemoveResult :=
  match d.find name with
  | .node (.file _) => .removed (d.drop name)
  | .node .dir =>
    if isRootLike name || d.hasChildren name then .failed else .removed (d.drop name)
  | .absent => .notExist
  | .missing => .notExist
  | .notDir => .failed

/-- The loop of `os.MkdirAll` from the outermost directory down: a directory
is passed, a file is an error, and what does not exist is made a directory. -/
def Disk.mkdirs : Disk → List String → Option Disk
  | d, [] => some d
  | d, name :: rest =>
    match d.entry name with
    | some .dir => d.mkdirs rest
    | some (.file _) => none
    | none => if name = "" then none else (d.put name .dir).mkdirs rest

/-- `os.MkdirAll(name, 0755)`: `none` is an error. -/
def Disk.mkdirAll (d : Disk) (name : String) : Option Disk :=
  d.mkdirs (ancestors name ++ [name])

/-- `os.WriteFile(name, data, 0644)`: an existing file is overwritten and a
new one is created in a directory that exists; `none` is an error (the name
is a directory, or the directory does not exist). -/
def Disk.writeFile (d : Disk) (name : String) (data : GoString) : Option Disk :=
  match d.find name with
  | .node (.file _) => some (d.put name (.file data))
  | .absent => some (d.put name (.file data))
  | _ => none

/-- The entries of a directory moved to a new name with all that is below. -/
def Disk.moveTree (d : Disk) (oldName newName : String) : Disk :=
  { d with entries := d.entries.map fun e =>
      if e.1 = oldName then (newName, e.2)
      else if (oldName.data ++ ['/']).isPrefixOf e.1.data then
        (String.mk (newName.data ++ e.1.data.drop oldName.data.length), e.2)
      else e }

/-- `os.Rename(oldName, newName)`: `none` is an error. A new name that is a
directory is refused; a file replaces a file or takes a name that is absent;
a directory takes a name that is absent and not below itself. -/
def Disk.rename (d : Disk) (oldName newName : String) : Option Disk :=
  if d.find newName = .node .dir then none
  else
    match d.find oldName with
    | .node (.file data) =>
      match d.find newName with
      | .node (.file _) =>
        some (if oldName = newName then d else (d.drop oldName).put newName (.file data))
      | .absent => some ((d.drop oldName).put newName (.file data))
      | _ => none
    | .node .dir =>
      if isRootLike oldName then none
      else
        match d.find newName with
        | .absent =>
          if (oldName.data ++ ['/']).isPrefixOf newName.data then none
          else some (d.moveTree oldName newName)
        | _ => none
    | _ => none

/-- The disk with root directory `.` that holds the listed files, each in
the directories its name needs. -/
def Disk.ofList (files : List (String × GoString)) : Disk :=
  files.foldl (fun d file =>
    match d.mkdirAll (filepathDir (d.fullPath file.1)) with
    | none => d
    | some d =>
      match d.writeFile (d.fullPath file.1) file.2 with
      | none => d
      | some d => d) { rootDir := ".", entries := [] }

/-- Assignment `movedFiles[old] = new` on a map that is also ranged over:
an existing entry of the key is overwritten, a new key gets a new entry. -/
def movedSet : List (String × String) → String → String → List (String × String)
  | [], oldPath, newPath => [(oldPath, newPath)]
  | (k, v) :: rest, oldPath, newPath =>
    if k = oldPath then (k, newPath) :: rest else (k, v) :: movedSet rest oldPath newPath

/-- The loop `for i, path := range xs { if path == old { xs[i] = new; break } }`:
only the first occurrence is rewritten. -/
def replaceFirst : List String → String → String → List String
  | [], _, _ => []
  | path :: rest, oldPath, newPath =>
    if path = oldPath then newPath :: rest else path :: replaceFirst rest oldPath newPath

/-- The fields of `LocalProgrammingAgentContext` that the operations read or
write (`rootDir`, which never changes, is kept with the `Disk`; the mutex and
`gitUtil` carry no state of their own). -/
structure LocalProgrammingAgentContext where
  currentFileContents : GoMap GoString
  CurrentRepoStructure : List String
  changeRequest : String
  updatedFiles : List String
  newFiles : List String
  deletedFiles : List String
  movedFiles : List (String × String)
  fileAliases : GoMap String

/-- `NewLocalProgrammingAgentContext`, given the listing that
`gitUtil.LsTree(rootDir)` returned. -/
def NewLocalProgrammingAgentContext (files : List String) (changeRequest : String) :
    LocalProgrammingAgentContext :=
  { currentFileContents := GoMap.empty
    CurrentRepoStructure := files
    changeRequest := changeRequest
    updatedFiles := []
    newFiles := []
    deletedFiles := []
    movedFiles := []
    fileAliases := GoMap.empty }

/-- `resolveAlias`: one step through `fileAliases`. -/
def resolveAlias (c : LocalProgrammingAgentContext) (filePath : String) : String :=
  match c.fileAliases filePath with
  | some actualPath => actualPath
  | none => filePath

/-- Text returned for a path staged for deletion. -/
def deletedMessage : GoString := GoString.ofString "The file has been deleted."

/-- Text returned for a path that cannot be read. -/
def missingMessage : GoString :=
  GoString.ofString "The file does not exist or could not be read."

/-- `GetFileContent`: the returned `(text, found)` and the context after the
call (a read from disk fills the cache). -/
def GetFileContent (c : LocalProgrammingAgentContext) (d : Disk) (filePath : String) :
    (GoString × Bool) × LocalProgrammingAgentContext :=
  let filePath := resolveAlias c filePath
  if filePath ∈ c.deletedFiles then ((deletedMessage, false), c)
  else
    match c.currentFileContents filePath with
    | some contents => ((contents, true), c)
    | none =>
      match d.readFile (d.fullPath filePath) with
      | none => ((missingMessage, false), c)
      | some content =>
        ((toValidUTF8 content (GoString.ofString " "), true),
          { c with currentFileContents := c.currentFileContents.set filePath content })

/-- `UpdateFileContent`. -/
def UpdateFileContent (c : LocalProgrammingAgentContext) (filePath : String)
    (newContents : GoString) : LocalProgrammingAgentContext :=
  let filePath := resolveAlias c filePath
  let c :=
    match c.currentFileContents filePath with
    | none =>
      { c with newFiles := c.newFiles ++ [filePath]
               CurrentRepoStructure := c.CurrentRepoStructure ++ [filePath] }
    | some _ => { c with updatedFiles := c.updatedFiles ++ [filePath] }
  { c with currentFileContents := c.currentFileContents.set filePath newContents }

/-- `GetRepoStructure`. -/
def GetRepoStructure (c : LocalProgrammingAgentContext) : List String :=
  c.CurrentRepoStructure

/-- `removeFileFromContext`: the first occurrence in the structure and the
cache entry are removed. -/
def removeFileFromContext (c : LocalProgrammingAgentContext) (filePath : String) :
    LocalProgrammingAgentContext :=
  { c with CurrentRepoStructure := c.CurrentRepoStructure.erase filePath
           currentFileContents := c.currentFileContents.delete filePath }

/-- `updateFilePathsInContext`. -/
def updateFilePathsInContext (c : LocalProgrammingAgentContext) (oldPath newPath : String) :
    LocalProgrammingAgentContext :=
  { c with
    CurrentRepoStructure := replaceFirst c.CurrentRepoStructure oldPath newPath
    currentFileContents :=
      match c.currentFileContents oldPath with
      | some content => (c.currentFileContents.set newPath content).delete oldPath
      | none => c.currentFileContents
    updatedFiles := replaceFirst c.updatedFiles oldPath newPath
    newFiles := replaceFirst c.newFiles oldPath newPath }

/-- `Delete`: the returned error (always nil) and the context after the call. -/
def Delete (c : LocalProgrammingAgentContext) (filePath : String) :
    Option String × LocalProgrammingAgentContext :=
  (none, removeFileFromContext { c with deletedFiles := c.deletedFiles ++ [filePath] } filePath)

/-- `MoveFile`: the returned error and the context after the call. The move
is refused only when the error of `os.Stat` is `os.ErrNotExist`. -/
def MoveFile (c : LocalProgrammingAgentContext) (d : Disk) (oldPath newPath : String) :
    Option String × LocalProgrammingAgentContext :=
  match d.stat (d.fullPath oldPath) with
  | .notExist => (some ("file " ++ oldPath ++ " does not exist"), c)
  | _ =>
    let c := { c with movedFiles := movedSet c.movedFiles oldPath newPath }
    let c := updateFilePathsInContext c oldPath newPath
    (none, { c with fileAliases := c.fileAliases.set newPath oldPath })

/-- The errors `FlushChanges` returns, by the loop and the call that failed:
"error deleting file", "error creating directory for new file", "error moving
file", "error creating directory for", "error creating file" and "error
updating file". -/
inductive FlushError where
  | deleteFailed (filePath : String) : FlushError
  | moveDirFailed : FlushError
  | moveFailed (oldPath newPath : String) : FlushError
  | createDirFailed (path : String) : FlushError
  | createFailed (path : String) : FlushError
  | updateFailed (path : String) : FlushError
  deriving DecidableEq, Repr

/-- First loop of `FlushChanges`, over `deletedFiles`: a file that does not
exist is skipped, any other error of `os.Remove` ends the flush, and what was
removed from disk is removed from the context. -/
def flushDeletes : List String → LocalProgrammingAgentContext → Disk →
    Option FlushError × LocalProgrammingAgentContext × Disk
  | [], c, d => (none, c, d)
  | filePath :: rest, c, d =>
    match d.remove (d.fullPath filePath) with
    | .notExist => flushDeletes rest c d
    | .failed => (some (.deleteFailed filePath), c, d)
    | .removed d => flushDeletes rest (removeFileFromContext c filePath) d

/-- Second loop of `FlushChanges`, over the entries of `movedFiles` in the
order the map iteration visits them: an entry whose old path is in
`deletedFiles` is skipped; a failed `os.MkdirAll` or `os.Rename` ends the
flush. -/
def flushMoves : List (String × String) → LocalProgrammingAgentContext → Disk →
    Option FlushError × LocalProgrammingAgentContext × Disk
  | [], c, d => (none, c, d)
  | (oldPath, newPath) :: rest, c, d =>
    if oldPath ∈ c.deletedFiles then flushMoves rest c d
    else
      match d.mkdirAll (filepathDir (d.fullPath newPath)) with
      | none => (some .moveDirFailed, c, d)
      | some d =>
        match d.rename (d.fullPath oldPath) (d.fullPath newPath) with
        | none => (some (.moveFailed oldPath newPath), c, d)
        | some d => flushMoves rest (updateFilePathsInContext c oldPath newPath) d

/-- Third loop of `FlushChanges`, over `newFiles`: the directory is made and
the cached content written; a path without cache entry is written empty (the
zero value of the map index). -/
def flushCreates (cache : GoMap GoString) : List String → Disk → Option FlushError × Disk
  | [], d => (none, d)
  | path :: rest, d =>
    match d.mkdirAll (filepathDir (d.fullPath path)) with
    | none => (some (.createDirFailed path), d)
    | some d =>
      match d.writeFile (d.fullPath path) ((cache path).getD []) with
      | none => (some (.createFailed path), d)
      | some d => flushCreates cache rest d

/-- Fourth loop of `FlushChanges`, over `updatedFiles`. -/
def flushUpdates (cache : GoMap GoString) : List String → Disk → Option FlushError × Disk
  | [], d => (none, d)
  | path :: rest, d =>
    match d.writeFile (d.fullPath path) ((cache path).getD []) with
    | none => (some (.updateFailed path), d)
    | some d => flushUpdates cache rest d

/-- `FlushChanges` when the iteration over `movedFiles` visits the entries in
the order `order`: the returned error, the context and the disk after the call. -/
def FlushChangesIn (order : List (String × String)) (c : LocalProgrammingAgentContext)
    (d : Disk) : Option FlushError × LocalProgrammingAgentContext × Disk :=
  match flushDeletes c.deletedFiles c d with
  | (some err, c, d) => (some err, c, d)
  | (none, c, d) =>
    match flushMoves order c d with
    | (some err, c, d) => (some err, c, d)
    | (none, c, d) =>
      match flushCreates c.currentFileContents c.newFiles d with
      | (some err, d) => (some err, c, d)
      | (none, d) =>
        match flushUpdates c.currentFileContents c.updatedFiles d with
        | (some err, d) => (some err, c, d)
        | (none, d) =>
          (none,
            { c with updatedFiles := []
                     newFiles := []
                     deletedFiles := []
                     movedFiles := []
                     fileAliases := GoMap.empty },
            d)

/-- `FlushChanges`, with the entries of `movedFiles` visited in the order they
are stored. Go leaves the order of a map iteration unspecified: a property of
every run is one of `FlushChangesIn order` for every permutation `order` of
`movedFiles`. -/
def FlushChanges (c : LocalProgrammingAgentContext) (d : Disk) :
    Option FlushError × LocalProgrammingAgentContext × Disk :=
  FlushChangesIn c.movedFiles c d

/-! ### `SearchCode` -/

/-- Number of bytes of one item of a Go string. -/
def GoChar.size : GoChar → Nat
  | .rune c => c.utf8Size
  | .invalid _ => 1

/-- The constant `bufio.MaxScanTokenSize`. -/
def maxScanTokenSize : Nat := 64 * 1024

/-- The helper `dropCR` of `bufio.ScanLines`: one trailing carriage return is
removed. -/
def dropCR (line : GoString) : GoString :=
  if line.getLast? = some (.rune '\r') then line.dropLast else line

/-- Worker of `scanLines`: the input left, the line read so far and its
number of bytes. -/
def scanLinesAux : GoString → GoString → Nat → List GoString
  | [], line, n =>
    if line = [] then [] else if maxScanTokenSize ≤ n then [] else [dropCR line]
  | ch :: rest, line, n =>
    if ch = .rune '\n' then
      if maxScanTokenSize < n + 1 then [] else dropCR line :: scanLinesAux rest [] 0
    else scanLinesAux rest (line ++ [ch]) (n + ch.size)

/-- The lines a `bufio.Scanner` with the default split function and buffer
delivers for the text, in order: lines end at a newline, the last one may
end at the end of the text, and scanning stops (with `ErrTooLong`) at the
first line that does not fit the buffer of `maxScanTokenSize` bytes. -/
def scanLines (content : GoString) : List GoString :=
  scanLinesAux content [] 0

/-- The inner loop of `SearchCode`: the numbers, counted from `lineNumber`, of
the lines for which `strings.Contains(line, query)` holds. -/
def matchingLines (query : GoString) : List GoString → Nat → List Nat
  | [], _ => []
  | line :: rest, lineNumber =>
    (if query <:+: line then [lineNumber] else []) ++ matchingLines query rest (lineNumber + 1)

/-- The statement `searchResults[file] = append(searchResults[file], n)` done
for each of `numbers` in turn: no number, no entry. -/
def appendResults : List (String × List Nat) → String → List Nat → List (String × List Nat)
  | results, _, [] => results
  | [], file, numbers => [(file, numbers)]
  | (k, v) :: rest, file, numbers =>
    if k = file then (k, v ++ numbers) :: rest else (k, v) :: appendResults rest file numbers

/-- The outer loop of `SearchCode` over the structure. -/
def searchFiles (query : GoString) : List String → LocalProgrammingAgentContext → Disk →
    List (String × List Nat) → List (String × List Nat) × LocalProgrammingAgentContext
  | [], c, _, searchResults => (searchResults, c)
  | file :: rest, c, d, searchResults =>
    let file := resolveAlias c file
    match GetFileContent c d file with
    | ((content, found), c) =>
      if found then
        searchFiles query rest c d
          (appendResults searchResults file (matchingLines query (scanLines content) 1))
      else searchFiles query rest c d searchResults

/-- `SearchCode`: the returned map (its entries) and the context after the
call (the reads fill the cache). -/
def SearchCode (c : LocalProgrammingAgentContext) (d : Disk) (query : String) :
    List (String × List Nat) × LocalProgrammingAgentContext :=
  searchFiles (GoString.ofString query) c.CurrentRepoStructure c d []

/-! ### `Process` of the commands (`commands.go`) -/

/-- The two uses of `json.MarshalIndent(v, "", "  ")` in `Process`, on a
`[]string` and on a `map[string][]int`; neither can fail. -/
structure JsonIndent where
  ofStructure : List String → String
  ofSearchResults : List (String × List Nat) → String

/-- `formatFileContent`. -/
def formatFileContent (file : String) (content : GoString) : GoString :=
  GoString.ofString ("Content of " ++ file ++ ":\n") ++ content ++ GoString.ofString "\n\n"

/-- The loop of `ReadCommand.Process` over the files, `sb` being the text
built so far. -/
def readFiles : List String → LocalProgrammingAgentContext → Disk → GoString →
    GoString × LocalProgrammingAgentContext
  | [], c, _, sb => (sb, c)
  | file :: rest, c, d, sb =>
    match GetFileContent c d file with
    | ((content, _), c) => readFiles rest c d (sb ++ formatFileContent file content)

/-- The method `Process` of the eight command types: the returned text and
error, and the context after the call. -/
def Command.Process (json : JsonIndent) (cmd : Command) (c : LocalProgrammingAgentContext)
    (d : Disk) : (GoString × Option String) × LocalProgrammingAgentContext :=
  match cmd with
  | .ReadCommand files =>
    match readFiles files c d [] with
    | (sb, c) => ((sb, none), c)
  | .CheckStructureCommand =>
    ((GoString.ofString ("The current project structure is as follows:\n" ++
        json.ofStructure (GetRepoStructure c)), none), c)
  | .SearchCommand query =>
    match SearchCode c d query with
    | (searchResults, c) =>
      ((GoString.ofString ("Files containing " ++ query ++ ":\n" ++
          json.ofSearchResults searchResults), none), c)
  | .UpdateFileCommand filePath _ _ =>
    ((GoString.ofString ("The file " ++ filePath ++
        " was updated, please carry on with the change request."), none), c)
  | .MoveFileCommand oldPath newPath =>
    match MoveFile c d oldPath newPath with
    | (some err, c) => ((GoString.ofString ("error moving file: " ++ err), none), c)
    | (none, c) =>
      ((GoString.ofString ("File moved from " ++ oldPath ++ " to " ++ newPath), none), c)
  | .DeleteFileCommand filePath =>
    match Delete c filePath with
    | (some err, c) => (([], some ("error deleting file: " ++ err)), c)
    | (none, c) => ((GoString.ofString ("File deleted: " ++ filePath), none), c)
  | .CommitCommand message => ((GoString.ofString message, none), c)
  | .RespondCommand message => ((GoString.ofString message, none), c)

/-! ## Situations named by the construction contract -/

/-- The mapping is well formed for the command `cmd`: its `command` value is
one of the eight names, every required field is present with the expected
type, and `context_files` of `update_file` is a list of strings or absent. -/
inductive WellFormed (m : CommandMap) : Command → Prop where
  | read (files : List String) :
      m.get "command" = some (.str "read") →
      m.get "files" = some (.arr (files.map Value.str)) →
      WellFormed m (.ReadCommand files)
  | checkStructure :
      m.get "command" = some (.str "check_structure") →
      WellFormed m .CheckStructureCommand
  | search (query : String) :
      m.get "command" = some (.str "search") →
      m.get "query" = some (.str query) →
      WellFormed m (.SearchCommand query)
  | updateFile (filePath plan : String) (contextFiles : List String) :
      m.get "command" = some (.str "update_file") →
      m.get "file_path" = some (.str filePath) →
      m.get "implementation_plan" = some (.str plan) →
      m.get "context_files" = some (.arr (contextFiles.map Value.str)) →
      WellFormed m (.UpdateFileCommand filePath plan contextFiles)
  | updateFileNoContext (filePath plan : String) :
      m.get "command" = some (.str "update_file") →
      m.get "file_path" = some (.str filePath) →
      m.get "implementation_plan" = some (.str plan) →
      m.get "context_files" = none →
      WellFormed m (.UpdateFileCommand filePath plan [])
  | moveFile (oldPath newPath : String) :
      m.get "command" = some (.str "move_file") →
      m.get "old_path" = some (.str oldPath) →
      m.get "new_path" = some (.str newPath) →
      WellFormed m (.MoveFileCommand oldPath newPath)
  | deleteFile (filePath : String) :
      m.get "command" = some (.str "delete_file") →
      m.get "file_path" = some (.str filePath) →
      WellFormed m (.DeleteFileCommand filePath)
  | commit (message : String) :
      m.get "command" = some (.str "commit") →
      m.get "message" = some (.str message) →
      WellFormed m (.CommitCommand message)
  | respond (message : String) :
      m.get "command" = some (.str "respond") →
      m.get "answer" = some (.str message) →
      WellFormed m (.RespondCommand message)

/-- The value is not a string. -/
def Value.NotString (v : Value) : Prop := ∀ s, v ≠ .str s

/-- The value is not a list. -/
def Value.NotList (v : Value) : Prop := ∀ xs, v ≠ .arr xs

/-- A required key of the selected variant is absent, every field validated
before it being well formed. -/
inductive MissingField (m : CommandMap) : Prop where
  | readFiles :
      m.get "command" = some (.str "read") → m.get "files" = none → MissingField m
  | searchQuery :
      m.get "command" = some (.str "search") → m.get "query" = none → MissingField m
  | updateFilePath :
      m.get "command" = some (.str "update_file") → m.get "file_path" = none → MissingField m
  | updatePlan (filePath : String) :
      m.get "command" = some (.str "update_file") →
      m.get "file_path" = some (.str filePath) →
      m.get "implementation_plan" = none → MissingField m
  | moveOldPath :
      m.get "command" = some (.str "move_file") → m.get "old_path" = none → MissingField m
  | moveNewPath (oldPath : String) :
      m.get "command" = some (.str "move_file") →
      m.get "old_path" = some (.str oldPath) →
      m.get "new_path" = none → MissingField m
  | deleteFilePath :
      m.get "command" = some (.str "delete_file") → m.get "file_path" = none → MissingField m
  | commitMessage :
      m.get "command" = some (.str "commit") → m.get "message" = none → MissingField m
  | respondAnswer :
      m.get "command" = some (.str "respond") → m.get "answer" = none → MissingField m

/-- A required field of the selected variant is present with a value of the
wrong primitive type, every field validated before it being well formed. -/
inductive WrongFieldType (m : CommandMap) : Prop where
  | readFilesNotList (v : Value) :
      m.get "command" = some (.str "read") → m.get "files" = some v → v.NotList →
      WrongFieldType m
  | readFilesElement (xs : List Value) (x : Value) :
      m.get "command" = some (.str "read") → m.get "files" = some (.arr xs) →
      x ∈ xs → x.NotString → WrongFieldType m
  | searchQuery (v : Value) :
      m.get "command" = some (.str "search") → m.get "query" = some v → v.NotString →
      WrongFieldType m
  | updateFilePath (v : Value) :
      m.get "command" = some (.str "update_file") → m.get "file_path" = some v →
      v.NotString → WrongFieldType m
  | updatePlan (filePath : String) (v : Value) :
      m.get "command" = some (.str "update_file") →
      m.get "file_path" = some (.str filePath) →
      m.get "implementation_plan" = some v → v.NotString → WrongFieldType m
  | moveOldPath (v : Value) :
      m.get "command" = some (.str "move_file") → m.get "old_path" = some v →
      v.NotString → WrongFieldType m
  | moveNewPath (oldPath : String) (v : Value) :
      m.get "command" = some (.str "move_file") →
      m.get "old_path" = some (.str oldPath) →
      m.get "new_path" = some v → v.NotString → WrongFieldType m
  | deleteFilePath (v : Value) :
      m.get "command" = some (.str "delete_file") → m.get "file_path" = some v →
      v.NotString → WrongFieldType m
  | commitMessage (v : Value) :
      m.get "command" = some (.str "commit") → m.get "message" = some v →
      v.NotString → WrongFieldType m
  | respondAnswer (v : Value) :
      m.get "command" = some (.str "respond") → m.get "answer" = some v →
      v.NotString → WrongFieldType m

/-- The discriminant is none of the eight command names (it may be any other
string, a value that is not a string, or absent). -/
def UnknownCommand (m : CommandMap) : Prop :=
  ∀ name ∈ commandNames, m.get "command" ≠ some (.str name)

/-! ## Sequences of calls -/

/-- One call on the context by its user. -/
inductive Op where
  | getFileContent (filePath : String) : Op
  | updateFileContent (filePath : String) (newContents : GoString) : Op
  | searchCode (query : String) : Op
  | getRepoStructure : Op
  | delete (filePath : String) : Op
  | moveFile (oldPath newPath : String) : Op
  | flushChanges : Op
  deriving DecidableEq

/-- A context together with the disk it shadows. -/
structure World where
  ctx : LocalProgrammingAgentContext
  disk : Disk

/-- The world after one call (whatever the call returned). -/
def World.step (w : World) : Op → World
  | .getFileContent filePath => { w with ctx := (GetFileContent w.ctx w.disk filePath).2 }
  | .updateFileContent filePath newContents =>
    { w with ctx := UpdateFileContent w.ctx filePath newContents }
  | .searchCode query => { w with ctx := (SearchCode w.ctx w.disk query).2 }
  | .getRepoStructure => w
  | .delete filePath => { w with ctx := (Delete w.ctx filePath).2 }
  | .moveFile oldPath newPath => { w with ctx := (MoveFile w.ctx w.disk oldPath newPath).2 }
  | .flushChanges =>
    { ctx := (FlushChanges w.ctx w.disk).2.1, disk := (FlushChanges w.ctx w.disk).2.2 }

/-- The world after a sequence of calls. -/
def World.run (w : World) (ops : List Op) : World :=
  ops.foldl World.step w

/-- A command processed in a world: what `Process` returned and the world
after the call. -/
def World.process (json : JsonIndent) (w : World) (cmd : Command) :
    (GoString × Option String) × World :=
  ((cmd.Process json w.ctx w.disk).1, { w with ctx := (cmd.Process json w.ctx w.disk).2 })

/-- The two contexts agree on everything but the content cache. -/
def SameStaging (c1 c2 : LocalProgrammingAgentContext) : Prop :=
  c1.CurrentRepoStructure = c2.CurrentRepoStructure ∧ c1.updatedFiles = c2.updatedFiles ∧
  c1.newFiles = c2.newFiles ∧ c1.deletedFiles = c2.deletedFiles ∧
  c1.movedFiles = c2.movedFiles ∧ c1.fileAliases = c2.fileAliases

/-- A further call that leaves the file moved from `a` to `b` alone, judged
in the context `c` and on the disk `d` of the call: any read, search or
listing; a write, unless its path resolves to `a` or `b` while that resolved
path is not cached (such a write appends the resolved path to the structure);
a delete of a path other than `b`; a move that is refused, or a staged move
that gives `a` no other target than `b` and, when its old name is listed, has
an old name other than `b` and a new name other than `a` and `b`; no flush. -/
def Op.leavesMoveAlone (c : LocalProgrammingAgentContext) (d : Disk) (a b : String) : Op → Prop
  | .getFileContent _ => True
  | .updateFileContent filePath _ =>
    c.currentFileContents (resolveAlias c filePath) = none →
      resolveAlias c filePath ≠ a ∧ resolveAlias c filePath ≠ b
  | .searchCode _ => True
  | .getRepoStructure => True
  | .delete filePath => filePath ≠ b
  | .moveFile oldPath newPath =>
    (MoveFile c d oldPath newPath).1 ≠ none ∨
    ((oldPath = a → newPath = b) ∧
      (oldPath ∈ c.CurrentRepoStructure → oldPath ≠ b ∧ newPath ≠ a ∧ newPath ≠ b))
  | .flushChanges => False

/-- A sequence of further calls each of which, in the world it is made in,
leaves the file moved from `a` to `b` alone. -/
def World.leavesMoveAlone (a b : String) : World → List Op → Prop
  | _, [] => True
  | w, op :: rest =>
    op.leavesMoveAlone w.ctx w.disk a b ∧ World.leavesMoveAlone a b (w.step op) rest

/-- A disk with the single file `a.txt`, whose data is "old". -/
def oneFileDisk : Disk :=
  Disk.ofList [("a.txt", GoString.ofString "old")]

/-- The context newly created over `oneFileDisk`: `LsTree` lists `a.txt`. -/
def freshWorld : World :=
  { ctx := NewLocalProgrammingAgentContext ["a.txt"] "change request"
    disk := oneFileDisk }

/-- A world with the file `a.bin`, whose data holds two bytes that are not
UTF-8 between the letters `a` and `b`. -/
def binaryWorld : World :=
  { ctx := NewLocalProgrammingAgentContext ["a.bin"] "change request"
    disk := Disk.ofList [("a.bin", [.rune 'a', .invalid 255, .invalid 254, .rune 'b'])] }

/-- A world with the files `z.txt` (data "Z") and `a.txt` (data "A"), both
listed by `LsTree`. -/
def twoFileWorld : World :=
  { ctx := NewLocalProgrammingAgentContext ["z.txt", "a.txt"] "change request"
    disk := Disk.ofList [("z.txt", GoString.ofString "Z"), ("a.txt", GoString.ofString "A")] }

/-- A world whose disk holds `a.txt`, a file `LsTree` does not list (it is
not tracked). -/
def untrackedWorld : World :=
  { ctx := NewLocalProgrammingAgentContext [] "change request"
    disk := oneFileDisk }

/-- Four successive writes of `a.txt`. -/
def fourUpdates : List Op :=
  [.updateFileContent "a.txt" (GoString.ofString "v1"),
   .updateFileContent "a.txt" (GoString.ofString "v2"),
   .updateFileContent "a.txt" (GoString.ofString "v3"),
   .updateFileContent "a.txt" (GoString.ofString "v4")]

/-! ## `ExtractCodeBlock` (`utils.go`) -/

/-- The predicate `unicode.IsSpace` on an item of a Go string; a byte that is
not UTF-8 decodes to the replacement character, which is no space. -/
def GoChar.isSpace : GoChar → Bool
  | .rune c =>
    c.toNat = 9 || c.toNat = 10 || c.toNat = 11 || c.toNat = 12 || c.toNat = 13 ||
    c.toNat = 32 || c.toNat = 0x85 || c.toNat = 0xA0 || c.toNat = 0x1680 ||
    (0x2000 ≤ c.toNat && c.toNat ≤ 0x200A) || c.toNat = 0x2028 || c.toNat = 0x2029 ||
    c.toNat = 0x202F || c.toNat = 0x205F || c.toNat = 0x3000
  | .invalid _ => false

/-- `strings.TrimSpace`. -/
def trimSpace (s : GoString) : GoString :=
  ((s.dropWhile GoChar.isSpace).reverse.dropWhile GoChar.isSpace).reverse

/-- `strings.Index(s, substr)`: `none` stands for -1. -/
def index : GoString → GoString → Option Nat
  | [], substr => if substr = [] then some 0 else none
  | c :: rest, substr =>
    if substr <+: c :: rest then some 0 else (index rest substr).map (· + 1)

/-- `strings.LastIndex(s, substr)`: `none` stands for -1. -/
def lastIndex : GoString → GoString → Option Nat
  | [], substr => if substr = [] then some 0 else none
  | c :: rest, substr =>
    match lastIndex rest substr with
    | some i => some (i + 1)
    | none => if substr <+: c :: rest then some 0 else none

/-- The fence of a markdown code block: three backquotes. -/
def fence : GoString := [.rune (Char.ofNat 96), .rune (Char.ofNat 96), .rune (Char.ofNat 96)]

/-- The string "\n". -/
def newline : GoString := [.rune (Char.ofNat 10)]

/-- `ExtractCodeBlock`: the returned text and error. -/
def ExtractCodeBlock (markdown : GoString) : GoString × Option String :=
  let markdown := trimSpace markdown
  match index markdown fence with
  | none => (markdown, none)
  | some firstStart =>
    match index (markdown.drop firstStart) newline with
    | none => (markdown, none)
    | some firstLineEnd =>
      let firstStart := firstStart + firstLineEnd
      match lastIndex markdown fence with
      | none => (markdown, none)
      | some lastEnd =>
        if lastEnd ≤ firstStart then (markdown, none)
        else
          let content := (markdown.drop firstStart).take (lastEnd - firstStart)
          let content := trimSpace content
          (content ++ newline, none)

/-- What lies inside the fenced code block that wraps the text, when there is
one: the text has an opening fence, the line of that fence ends (at a
newline), and the last fence of the text comes after that line end; the inner
content runs from the line end to the last fence. -/
def fencedInner (text : GoString) : Option GoString :=
  match index text fence with
  | none => none
  | some opening =>
    match index (text.drop opening) newline with
    | none => none
    | some lineEnd =>
      match lastIndex text fence with
      | none => none
      | some closing =>
        if opening + lineEnd < closing then
          some ((text.drop (opening + lineEnd)).take (closing - (opening + lineEnd)))
        else none

/-- The reference of the specification for `ExtractCodeBlock`: the trimmed
inner content with one trailing newline for a wrapped text, the text verbatim
otherwise. -/
def extractReference (text : GoString) : GoString :=
  match fencedInner text with
  | some inner => trimSpace inner ++ newline
  | none => text

/-- The reference with the other case amended: a text that is not wrapped is
returned trimmed. -/
def extractReferenceTrimmed (text : GoString) : GoString :=
  match fencedInner text with
  | some inner => trimSpace inner ++ newline
  | none => trimSpace text

/-! ## Instruct (assistants/instruction_assistant.go) -/

/-- The error one execution of the closure passed to `retry.Do` returns:
`sendErr` of `SendMessage`, or `unmarshalErr` of `json.Unmarshal`. -/
inductive AttemptError where
  | send (err : String)
  | decode (err : String)
deriving DecidableEq, Repr

/-- The instruction session as `Instruct` uses it: the outcome
`(response, sendErr)` of the call of `SendMessage` number `k` (counted from
zero) with the given message. -/
abbrev LLMSession := Nat → String → String × Option String

/-- The variables the closure of `Instruct` captures, and the number of
`SendMessage` calls made so far. The nil `commandMap` is the empty list. -/
structure InstructState where
  calls : Nat
  response : String
  commandMap : CommandMap

/-- The closure `Instruct` passes to `retry.Do`: one `SendMessage` call, then
`json.Unmarshal` of the response into `commandMap`. `unmarshal` is
`json.Unmarshal` into a `map[string]interface{}`, which leaves the map as it
was when it fails. -/
def instructAttempt (session : LLMSession) (unmarshal : String → Except String CommandMap)
    (message : String) (st : InstructState) : Option AttemptError × InstructState :=
  let r := session st.calls message
  let st := { st with calls := st.calls + 1, response := r.1 }
  match r.2 with
  | some sendErr => (some (.send sendErr), st)
  | none =>
    match unmarshal r.1 with
    | .ok m => (none, { st with commandMap := m })
    | .error unmarshalErr => (some (.decode unmarshalErr), st)

/-- The loop of `retry.Do` (package avast/retry-go, a dependency whose source
is not among the repository's files) as `Instruct` configures it: the function
is run until it returns nil, at most `attempts` times; no retry condition is
passed, so every error it returns is retried, as the comments at both returns
of the closure say. The result is nil, or the errors of the failed runs in
order. Delays between runs are not modelled. -/
def retryDo {σ ε : Type} (f : σ → Option ε × σ) : Nat → σ → List ε → Option (List ε) × σ
  | 0, st, log => (some log, st)
  | attempts + 1, st, log =>
    match f st with
    | (none, st) => (none, st)
    | (some err, st) => retryDo f attempts st (log ++ [err])

/-- The errors `Instruct` returns: the two messages after the retry loop (with
the raw response, and with the errors of the attempts they wrap) and the
wrapped error of `NewCommand`. -/
inductive InstructError where
  | unmarshalFailed (response : String) (attempts : List AttemptError)
  | noValidResponse (attempts : List AttemptError)
  | createCommand (err : String)
deriving DecidableEq, Repr

/-- The outcome of the two `errors.As` tests on what `retry.Do` returns under
the import path `github.com/avast/retry-go`: the value has the type
`retry.Error`, a slice of the errors of the attempts, which in the versions
under this path has no method `Unwrap`, `Is` or `As`; `errors.As` cannot look
inside it and finds neither target type. -/
def retryErrorAs : List AttemptError → Bool := fun _ => false

/-- `Instruct`. `errorsAs` is the outcome of the two `errors.As` tests on the
error `retry.Do` returned (whether a `*json.SyntaxError` or
`*json.UnmarshalTypeError` is found inside it), which is decided by the
dependency. The second component is the final state, with the number of
`SendMessage` calls. -/
def Instruct (errorsAs : List AttemptError → Bool) (render : Value → String)
    (session : LLMSession) (unmarshal : String → Except String CommandMap)
    (message : String) : Except InstructError Command × InstructState :=
  match retryDo (instructAttempt session unmarshal message) 3 ⟨0, "", []⟩ [] with
  | (some err, st) =>
    if errorsAs err then (.error (.unmarshalFailed st.response err), st)
    else (.error (.noValidResponse err), st)
  | (none, st) =>
    match NewCommand render st.commandMap with
    | .error err => (.error (.createCommand err), st)
    | .ok cmd => (.ok cmd, st)

/-- A response text that decodes to a `check_structure` command, for the
examples. -/
def structureResponse : String := "\x7b\"command\": \"check_structure\"\x7d"

/-- A decoder for the examples: it accepts `structureResponse` and rejects
every other text. -/
def exampleUnmarshal (response : String) : Except String CommandMap :=
  if response = structureResponse then .ok [("command", .str "check_structure")]
  else .error "invalid character"

/-- A session whose every response is text that does not decode. -/
def garbledSession : LLMSession := fun _ _ => ("not json", none)

/-- A session whose every call fails. -/
def failingSession : LLMSession := fun _ _ => ("", some "connection refused")

/-- A session whose first call fails and whose later calls answer with
`structureResponse`. -/
def recoveringSession : LLMSession := fun k _ =>
  if k = 0 then ("", some "connection refused") else (structureResponse, none)

/-! ## The orchestration loop (service/llm_programming_service.go) -/

/-- A call the service makes on one of its collaborators: `Execute` of the
code (`implement = true`) or ask analysis assistant, `Instruct` of the code or
ask instruction assistant, `GenerateCode` of the code generation assistant or
of the patch assistant, and `input.UserInputGetter`. -/
inductive Call where
  | execute (implement : Bool) (message : GoString)
  | instruct (implement : Bool) (message : GoString)
  | generateCode (message : GoString)
  | patchCode (message : GoString)
  | userInput (prompt : String)
deriving DecidableEq, Repr

/-- Whether the call is one of `input.UserInputGetter`. -/
def Call.isUserInput : Call → Bool
  | .userInput _ => true
  | _ => false

/-- The collaborators of the service, which it knows as interfaces (and, for
the input, as a function variable): each answers a call given the log of all
calls made so far, the call to answer last, so an answer may depend on the
whole history. -/
structure Assistants where
  execute : List Call → Except String GoString
  instruct : List Call → Except String Command
  generateCode : List Call → Except String GoString
  patchCode : List Call → Except String GoString
  userInput : List Call → Except String GoString

/-- What a run of the service changes: the repository context and the log of
the calls made on the collaborators. -/
structure ServiceState where
  ctx : LocalProgrammingAgentContext
  log : List Call

/-- The constant `promptAnalysis` filled in. -/
def promptAnalysis (filePath : String) : GoString :=
  GoString.ofString ("Which context files, if any, (besides '" ++ filePath ++
    "' itself) should be provided to the instruction session to correctly generate the code for this update?\nKeep in mind that the llm that generates the code does not have access to the analysis history and will need the content of the files to generate the code even if the file to be generated doesn't reference them directly, the llm will still need to know their content for generation.")

/-- The constant `promptInstruction` filled in. -/
def promptInstruction (filePath implementationPlan : String) (analysisResponse : GoString) :
    GoString :=
  GoString.ofString ("Please construct the final update_file command JSON. Use the following details:\nFile Path: " ++
    filePath ++ "\nImplementation Plan: " ++ implementationPlan ++
    "\nContext file analysis session response: ") ++ analysisResponse ++
  GoString.ofString "\nRespond only with the complete JSON object for the command."

/-- The constant `promptGenerateFileContentExisting` filled in. -/
def promptGenerateFileContentExisting (existingFileContent : GoString)
    (implementationPlan changeRequest : String) (contextFilePromptComponent : GoString) :
    GoString :=
  GoString.ofString "Make the following changes to this file:\n" ++ existingFileContent ++
  GoString.ofString ("\n\nbased on this implementation plan:\n" ++ implementationPlan ++
    "\n\nin the context of this change request:\n" ++ changeRequest ++
    "\n\nUsing the following file contents as context:\n") ++ contextFilePromptComponent

/-- The constant `promptGenerateFileContentNew` filled in. -/
def promptGenerateFileContentNew (file implementationPlan changeRequest : String)
    (contextFilePromptComponent : GoString) : GoString :=
  GoString.ofString ("Create the following file: " ++ file ++
    "\n\nwith the following implementation plan:\n" ++ implementationPlan ++
    "\n\nin the context of this change request:\n" ++ changeRequest ++
    "\n\nUsing the following file contents as context:\n") ++ contextFilePromptComponent

/-- The prompt `applyPatch` builds for the patch assistant. -/
def patchPrompt (existingFileContent extractedContent : GoString) : GoString :=
  GoString.ofString "Apply the following git patch to the file content:\n\nFile Content:\n" ++
  fence ++ newline ++ existingFileContent ++ newline ++ fence ++
  GoString.ofString "\n\nGit Patch:\n" ++ fence ++ GoString.ofString "diff\n" ++
  extractedContent ++ newline ++ fence ++
  GoString.ofString "\n\nProvide only the resulting file content."

/-- The marker `applyPatch` looks for at the start of the generated text. -/
def patchMarker : GoString := GoString.ofString "--- a/"

/-- `executeLLMAssistant` as `sendMessage` calls it: the analysis assistant of
the chosen pair, then its instruction assistant on the analysis response. -/
def sendMessage (a : Assistants) (processedResponse : GoString) (useImplementSessions : Bool)
    (log : List Call) : Except String Command × List Call :=
  let log := log ++ [.execute useImplementSessions processedResponse]
  match a.execute log with
  | .error err =>
    (.error ("error during analysis agent execution in executeLLMAssistant: " ++ err), log)
  | .ok analysisResponse =>
    let log := log ++ [.instruct useImplementSessions analysisResponse]
    match a.instruct log with
    | .error err =>
      (.error ("error during instruction agent execution in executeLLMAssistant: " ++ err), log)
    | .ok instructionResponseCommand => (.ok instructionResponseCommand, log)

/-- `buildContextFilePromptComponent`, the component built so far being the
last argument. -/
def buildContextFilePromptComponent (d : Disk) (file : String) :
    List String → LocalProgrammingAgentContext → GoString →
      GoString × LocalProgrammingAgentContext
  | [], c, component => (component, c)
  | contextFile :: rest, c, component =>
    if contextFile = file then buildContextFilePromptComponent d file rest c component
    else
      match GetFileContent c d contextFile with
      | ((content, found), c) =>
        if found then
          buildContextFilePromptComponent d file rest c
            (component ++ GoString.ofString ("File: " ++ contextFile ++ "\n") ++ content ++
              newline)
        else buildContextFilePromptComponent d file rest c component

/-- `applyPatch`: the returned `(appliedPatch, patchErr)` and the state after
the call. -/
def applyPatch (a : Assistants) (existingFileContent extractedContent : GoString)
    (file : String) (st : ServiceState) : (Bool × Option String) × ServiceState :=
  if ¬ patchMarker <+: extractedContent then ((false, none), st)
  else if existingFileContent = [] then ((false, none), st)
  else
    let log := st.log ++ [.patchCode (patchPrompt existingFileContent extractedContent)]
    match a.patchCode log with
    | .error patchErr => ((false, some patchErr), { st with log := log })
    | .ok patchedContent =>
      ((true, none), { ctx := UpdateFileContent st.ctx file patchedContent, log := log })

/-- The first half of `generateFileContent`, up to and including the call of
`GenerateCode`: the existing content read for the target and the state, whose
log ends with that call. -/
def generationRequest (d : Disk) (implementationPlan file : String)
    (contextFiles : List String) (st : ServiceState) : GoString × ServiceState :=
  match buildContextFilePromptComponent d file contextFiles st.ctx [] with
  | (contextFilePromptComponent, c) =>
    match GetFileContent c d file with
    | ((existingFileContent, found), c) =>
      let prompt :=
        if found then
          promptGenerateFileContentExisting existingFileContent implementationPlan
            c.changeRequest contextFilePromptComponent
        else
          promptGenerateFileContentNew file implementationPlan c.changeRequest
            contextFilePromptComponent
      (existingFileContent, { ctx := c, log := st.log ++ [.generateCode prompt] })

/-- `generateFileContent`: the returned error and the state after the call. -/
def generateFileContent (a : Assistants) (d : Disk) (implementationPlan file : String)
    (contextFiles : List String) (st : ServiceState) : Option String × ServiceState :=
  match generationRequest d implementationPlan file contextFiles st with
  | (existingFileContent, st) =>
    match a.generateCode st.log with
    | .error err => (some err, st)
    | .ok codeGenerated =>
      match applyPatch a existingFileContent codeGenerated file st with
      | ((true, _), st) => (none, st)
      | ((false, _), st) =>
        (none, { st with ctx := UpdateFileContent st.ctx file codeGenerated })

/-- `handleFileUpdate`; it always uses the code assistants. The last error
wraps the nil `err`, which `fmt` prints as shown. -/
def handleFileUpdate (a : Assistants) (d : Disk) (filePath implementationPlan : String)
    (st : ServiceState) : Except String Command × ServiceState :=
  let log := st.log ++ [.execute true (promptAnalysis filePath)]
  match a.execute log with
  | .error err =>
    (.error ("error prompting analysis LLM for context files in handleFileUpdate: " ++ err),
      { st with log := log })
  | .ok analysisResponse =>
    let log := log ++
      [.instruct true (promptInstruction filePath implementationPlan analysisResponse)]
    match a.instruct log with
    | .error err =>
      (.error ("error prompting instruction LLM to construct final update_file command in handleFileUpdate: " ++ err),
        { st with log := log })
    | .ok (.UpdateFileCommand finalFilePath finalPlan finalContextFiles) =>
      match generateFileContent a d finalPlan finalFilePath finalContextFiles
          { st with log := log } with
      | (some err, st) =>
        (.error ("error generating file content in handleFileUpdate: " ++ err), st)
      | (none, st) =>
        (.ok (.UpdateFileCommand finalFilePath finalPlan finalContextFiles), st)
    | .ok _ =>
      (.error "error creating final update_file command in handleFileUpdate: %!w(<nil>)",
        { st with log := log })

/-- `executeCommand`. `renderCommand` is the text `fmt` prints for a command
under the verb `%s`. -/
def executeCommand (a : Assistants) (json : JsonIndent) (renderCommand : Command → String)
    (d : Disk) (command : Command) (st : ServiceState) :
    (GoString × Option String) × ServiceState :=
  let handled : Except String Command × ServiceState :=
    match command with
    | .UpdateFileCommand filePath implementationPlan _ =>
      handleFileUpdate a d filePath implementationPlan st
    | _ => (.ok command, st)
  match handled with
  | (.error err, st) =>
    ((GoString.ofString "File update failed, please retry.",
      some ("error handling file update in executeCommand: " ++ err)), st)
  | (.ok command, st) =>
    match command.Process json st.ctx d with
    | ((_, some err), c) =>
      let wrappedErr := "commandError processing command " ++ renderCommand command ++ ": " ++ err
      ((GoString.ofString wrappedErr, some wrappedErr), { st with ctx := c })
    | ((processedResponse, none), c) => ((processedResponse, none), { st with ctx := c })

/-- Whether the command is a `CommitCommand` or a `RespondCommand`. -/
def Command.isFinal : Command → Bool
  | .CommitCommand _ => true
  | .RespondCommand _ => true
  | _ => false

/-- `processCommand`: the returned `(processedResponse, isCommand,
isFinalCommand, err)` and the state after the call. -/
def processCommand (a : Assistants) (json : JsonIndent) (renderCommand : Command → String)
    (d : Disk) (command : Command) (st : ServiceState) :
    (GoString × Bool × Bool × Option String) × ServiceState :=
  match executeCommand a json renderCommand d command st with
  | ((processedResponse, err), st) =>
    if command.isFinal then ((processedResponse, true, true, none), st)
    else
      match err with
      | some err =>
        ((processedResponse, true, false,
          some ("error executing command in processCommand: " ++ err)), st)
      | none => ((processedResponse, true, false, none), st)

/-- `strings.ToLower` on the letters A to Z; other items are kept. The
result is only compared with the words yes, y, no and n, into whose letters no
other character is lowered. -/
def toLower (s : GoString) : GoString :=
  s.map fun ch =>
    match ch with
    | .rune c => .rune c.toLower
    | .invalid b => .invalid b

/-- The question asked when the loop bound is passed. -/
def loopLimitPrompt (maxLoops : Int) : String :=
  "The process has run for " ++ toString maxLoops ++
    " loops. Do you want to continue? [Y]es/[N]o "

/-- The result text when the operator does not continue. -/
def stoppedMessage : GoString := GoString.ofString "Process stopped by user after loop limit."

/-- The `for` loop of `processRequest`, entered with the value of
`loopCounter` and the pending command `resp`. Each pass of the loop, the one
that only resets the counter included, takes one unit of `fuel`; `none` means
the fuel ran out. The result is the returned `(text, err)` and the state. -/
def processLoop (a : Assistants) (json : JsonIndent) (renderCommand : Command → String)
    (maxLoops : Int) (useImplementSessions : Bool) (d : Disk) :
    Nat → Int → Command → ServiceState → Option ((GoString × Option String) × ServiceState)
  | 0, _, _, _ => none
  | fuel + 1, loopCounter, resp, st =>
    let loopCounter := loopCounter + 1
    if loopCounter > maxLoops then
      let log := st.log ++ [.userInput (loopLimitPrompt maxLoops)]
      match a.userInput log with
      | .error _ => some ((stoppedMessage, none), { st with log := log })
      | .ok userInput =>
        let userInput := toLower (trimSpace userInput)
        if userInput = GoString.ofString "yes" ∨ userInput = GoString.ofString "y" then
          processLoop a json renderCommand maxLoops useImplementSessions d fuel 0 resp
            { st with log := log }
        else if userInput = GoString.ofString "no" ∨ userInput = GoString.ofString "n" then
          some ((stoppedMessage, none), { st with log := log })
        else some ((stoppedMessage, none), { st with log := log })
    else
      match processCommand a json renderCommand d resp st with
      | ((processedResponse, isCommand, isFinalCommand, _), st) =>
        if isFinalCommand then some ((processedResponse, none), st)
        else if isCommand then
          match sendMessage a processedResponse useImplementSessions st.log with
          | (.error err, log) =>
            some (([], some ("error sending message in processRequest: " ++ err)),
              { st with log := log })
          | (.ok resp, log) =>
            processLoop a json renderCommand maxLoops useImplementSessions d fuel loopCounter
              resp { st with log := log }
        else
          match sendMessage a processedResponse useImplementSessions st.log with
          | (.error err, log) =>
            some (([], some
              ("error sending message in processRequest for non-command response: " ++ err)),
              { st with log := log })
          | (.ok resp, log) =>
            processLoop a json renderCommand maxLoops useImplementSessions d fuel loopCounter
              resp { st with log := log }

/-- `processRequest`: the first round trip, then the loop with the counter at
zero. -/
def processRequest (a : Assistants) (json : JsonIndent) (renderCommand : Command → String)
    (maxLoops : Int) (d : Disk) (fuel : Nat) (initialPrompt : GoString) (st : ServiceState)
    (useImplementSessions : Bool) : Option ((GoString × Option String) × ServiceState) :=
  match sendMessage a initialPrompt useImplementSessions st.log with
  | (.error err, log) =>
    some (([], some ("error sending initial message in processRequest: " ++ err)),
      { st with log := log })
  | (.ok resp, log) =>
    processLoop a json renderCommand maxLoops useImplementSessions d fuel 0 resp
      { st with log := log }

/-- A run of `steps` non-terminal commands as the loop is meant to make it:
each command is not final, it is executed, and its output `out` is submitted
by `sendMessage`, which succeeds and returns the next command. The run leads
from the pending command `resp` in state `st` to the pending command and
state given last; `outs` are the outputs in order. -/
inductive Rounds (a : Assistants) (json : JsonIndent) (renderCommand : Command → String)
    (useImplementSessions : Bool) (d : Disk) :
    Nat → Command → ServiceState → List GoString → Command → ServiceState → Prop
  | done (resp : Command) (st : ServiceState) :
    Rounds a json renderCommand useImplementSessions d 0 resp st [] resp st
  | round (steps : Nat) (resp next last : Command) (st stLast : ServiceState)
      (outs : List GoString) (log : List Call)
      (hfinal : resp.isFinal = false)
      (hsend : sendMessage a (executeCommand a json renderCommand d resp st).1.1
        useImplementSessions (executeCommand a json renderCommand d resp st).2.log =
          (.ok next, log))
      (hrest : Rounds a json renderCommand useImplementSessions d steps next
        { ctx := (executeCommand a json renderCommand d resp st).2.ctx, log := log }
        outs last stLast) :
    Rounds a json renderCommand useImplementSessions d (steps + 1) resp st
      ((executeCommand a json renderCommand d resp st).1.1 :: outs) last stLast

/-- A stand-in for `json.MarshalIndent` in the examples. -/
def exampleJson : JsonIndent :=
  { ofStructure := fun files => String.intercalate "," files
    ofSearchResults := fun results => String.intercalate "," (results.map Prod.fst) }

/-- The number of `Instruct` calls in a log. -/
def instructCalls (log : List Call) : Nat :=
  (log.filter fun c => match c with
    | .instruct _ _ => true
    | _ => false).length

/-- The number of `input.UserInputGetter` calls in a log. -/
def userInputCalls (log : List Call) : Nat :=
  (log.filter Call.isUserInput).length

/-- Assistants for the examples: the analysis always answers "analysis"; the
first `Instruct` returns a `check_structure` command and the second a commit
with the message "done"; no code is generated and no input can be read. -/
def scriptedAssistants : Assistants :=
  { execute := fun _ => .ok (GoString.ofString "analysis")
    instruct := fun log =>
      if instructCalls log = 1 then .ok .CheckStructureCommand
      else .ok (.CommitCommand "done")
    generateCode := fun _ => .error "no code"
    patchCode := fun _ => .error "no patch"
    userInput := fun _ => .error "EOF" }

/-- Assistants for the examples that never finish: every `Instruct` returns a
`check_structure` command; the operator answers "y" to the first question and
"no" to the later ones. -/
def loopingAssistants : Assistants :=
  { execute := fun _ => .ok (GoString.ofString "analysis")
    instruct := fun _ => .ok .CheckStructureCommand
    generateCode := fun _ => .error "no code"
    patchCode := fun _ => .error "no patch"
    userInput := fun log =>
      if userInputCalls log = 1 then .ok (GoString.ofString "y")
      else .ok (GoString.ofString "no") }

/-- Assistants for the examples whose generated text is a diff and whose
patch assistant fails. -/
def patchingAssistants : Assistants :=
  { execute := fun _ => .ok (GoString.ofString "analysis")
    instruct := fun _ => .ok (.CommitCommand "done")
    generateCode := fun _ => .ok (GoString.ofString "--- a/f.txt\n+++ b/f.txt\n")
    patchCode := fun _ => .error "no patch"
    userInput := fun _ => .error "EOF" }

/-- The state of the service at the start of a run in the one-file scene. -/
def freshService : ServiceState :=
  { ctx := freshWorld.ctx, log := [] }

/-- A world with the one file `empty.txt`, which holds no data. -/
def emptyFileWorld : World :=
  { ctx := NewLocalProgrammingAgentContext ["empty.txt"] "change request"
    disk := Disk.ofList [("empty.txt", [])] }

/-! ## Questions of the agent (agent/local_programming_agent.go) -/

/-- A call the agent makes on its collaborators while it handles an error or
a commit: `input.UserInputGetter`, the methods `ResetToHead`, `Add` and
`Commit` of `gitUtil`, and `utils.EditCommitMessage`. -/
inductive AgentCall where
  | userInput (prompt : String)
  | resetToHead (dir : String)
  | add (dir : String)
  | commit (dir message : String)
  | editCommitMessage (message : String)
deriving DecidableEq, Repr

/-- The collaborators of the agent: each answers a call given the log of the
calls made so far, the call to answer last. For the methods of `gitUtil` the
answer is the returned error. -/
structure AgentEnv where
  userInput : List AgentCall → Except String GoString
  resetToHead : List AgentCall → Option String
  add : List AgentCall → Option String
  commit : List AgentCall → Option String
  editCommitMessage : List AgentCall → Except String String

/-- `strings.ToUpper` on the letters a to z; other items are kept. The result
is only compared with the letters Y, A, E and N, into which no other character
is raised. -/
def toUpper (s : GoString) : GoString :=
  s.map fun ch =>
    match ch with
    | .rune c => .rune c.toUpper
    | .invalid b => .invalid b

/-- The question of `resetAndWrapError` after an implementation error. -/
def skipFlushPrompt : String :=
  "Would you like to skip flushing changes and proceed without saving the changes to disk? [Y]es/[N]o."

/-- The question of `resetAndWrapError` after a flush error. -/
def resetPrompt : String :=
  "Do you want to reset to the last commit and discard the changes made by the agent? [Y]es/[N]o."

/-- The question of `promptForCommit`. -/
def commitPrompt : String :=
  "Do you want to commit the changes? [Y]es/[N]o/[A]llways/[E]dit "

/-- The question of `handleCommit` after a failed edit. -/
def editRetryPrompt : String :=
  "Error editing message. Commit with original message? [Y]es/[N]o "

/-- `resetAndWrapError`: the returned error and the log after the call. The
argument `message` is only logged. A result that is not nil makes `Implement`
return it at once: after an implementation error, before any flush. -/
def resetAndWrapError (env : AgentEnv) (dir baseError : String) (isFlushError : Bool)
    (log : List AgentCall) : Option String × List AgentCall :=
  if ¬ isFlushError then
    let log := log ++ [.userInput skipFlushPrompt]
    match env.userInput log with
    | .error err => (some err, log)
    | .ok skipFlushChoice =>
      if toLower skipFlushChoice = GoString.ofString "yes" ∨
          toLower skipFlushChoice = GoString.ofString "y" then
        (some ("error occurred during implementation, user skipped flushing changes: " ++
          baseError), log)
      else (none, log)
  else
    let log := log ++ [.userInput resetPrompt]
    let resetChoice :=
      match env.userInput log with
      | .error _ => GoString.ofString "yes"
      | .ok resetChoice => resetChoice
    if toLower resetChoice = GoString.ofString "yes" ∨
        toLower resetChoice = GoString.ofString "y" then
      let log := log ++ [.resetToHead dir]
      match env.resetToHead log with
      | some resetErr =>
        (some ("error resetting repository after user confirmed reset: " ++ resetErr ++
          ", original flush error: " ++ baseError), log)
      | none =>
        (some ("error occurred during flushing changes, user chose to reset repository: " ++
          baseError), log)
    else (none, log)

/-- `promptForCommit`: the choice and the log after the call. -/
def promptForCommit (env : AgentEnv) (log : List AgentCall) : GoString × List AgentCall :=
  let log := log ++ [.userInput commitPrompt]
  match env.userInput log with
  | .error _ => (GoString.ofString "N", log)
  | .ok commitChoice => (toUpper commitChoice, log)

/-- `executeGitCommit`. -/
def executeGitCommit (env : AgentEnv) (directory commitMessage : String)
    (log : List AgentCall) : Option String × List AgentCall :=
  let log := log ++ [.add directory]
  match env.add log with
  | some err => (some err, log)
  | none =>
    let log := log ++ [.commit directory commitMessage]
    match env.commit log with
    | some err => (some err, log)
    | none => (none, log)

/-- `handleCommit`: the returned error, the field `autoCommit` and the log
after the call. -/
def handleCommit (env : AgentEnv) (autoCommit : Bool) (directory commitMessage : String)
    (log : List AgentCall) : Option String × Bool × List AgentCall :=
  if autoCommit then
    match executeGitCommit env directory commitMessage log with
    | (err, log) => (err, autoCommit, log)
  else
    match promptForCommit env log with
    | (choice, log) =>
      if choice = GoString.ofString "Y" then
        match executeGitCommit env directory commitMessage log with
        | (err, log) => (err, autoCommit, log)
      else if choice = GoString.ofString "A" then
        match executeGitCommit env directory commitMessage log with
        | (err, log) => (err, true, log)
      else if choice = GoString.ofString "E" then
        let log := log ++ [.editCommitMessage commitMessage]
        match env.editCommitMessage log with
        | .error err =>
          let log := log ++ [.userInput editRetryPrompt]
          match env.userInput log with
          | .error _ =>
            (some ("failed to edit commit message and user chose not to commit: " ++ err),
              autoCommit, log)
          | .ok retryChoice =>
            if toUpper retryChoice ≠ GoString.ofString "Y" then
              (some ("failed to edit commit message and user chose not to commit: " ++ err),
                autoCommit, log)
            else
              match executeGitCommit env directory commitMessage log with
              | (err, log) => (err, autoCommit, log)
        | .ok editedMessage =>
          match executeGitCommit env directory editedMessage log with
          | (err, log) => (err, autoCommit, log)
      else if choice = GoString.ofString "N" then (none, autoCommit, log)
      else (none, autoCommit, log)

/-- An environment for the examples in which no input can be read and every
other call succeeds. -/
def silentEnv : AgentEnv :=
  { userInput := fun _ => .error "EOF"
    resetToHead := fun _ => none
    add := fun _ => none
    commit := fun _ => none
    editCommitMessage := fun _ => .ok "edited" }

/-- An environment for the examples in which the operator answers "no" to
every question and every other call succeeds. -/
def refusingEnv : AgentEnv :=
  { userInput := fun _ => .ok (GoString.ofString "no")
    resetToHead := fun _ => none
    add := fun _ => none
    commit := fun _ => none
    editCommitMessage := fun _ => .ok "edited" }

end GoAgent


/-! ## Theorems: command protocol -/

namespace GoAgent

theorem asString_of_notString {v : Value} (h : v.NotString) : v.asString = none := by
  cases v <;> first | rfl | exact absurd rfl (h _)

theorem asSlice_of_notList {v : Value} (h : v.NotList) : v.asSlice = none := by
  cases v <;> first | rfl | exact absurd rfl (h _)

theorem readFilePaths_map_str (files : List String) :
    readFilePaths (files.map Value.str) = some files := by
  induction files with
  | nil => rfl
  | cons f rest ih => simp only [List.map_cons, readFilePaths, Value.asString, ih]

theorem readFilePaths_of_notString {xs : List Value} {x : Value} (hx : x ∈ xs)
    (hs : x.NotString) : readFilePaths xs = none := by
  induction xs with
  | nil => cases hx
  | cons y rest ih =>
    rcases List.mem_cons.mp hx with rfl | hmem
    · simp only [readFilePaths, asString_of_notString hs]
    · simp only [readFilePaths, ih hmem]
      cases y.asString <;> rfl

theorem convertLoop_map_str (files acc : List String) :
    convertLoop (files.map Value.str) acc = acc ++ files := by
  induction files generalizing acc with
  | nil => simp only [List.map_nil, convertLoop, List.append_nil]
  | cons f rest ih =>
    simp only [List.map_cons, convertLoop, Value.asString, ih, List.append_assoc,
      List.singleton_append]

theorem convertToStringArray_map_str (files : List String) :
    convertToStringArray (.arr (files.map Value.str)) = files := by
  simp only [convertToStringArray, Value.asSlice, convertLoop_map_str, List.nil_append]

/-- C1, as stated, fails: in this `update_file` mapping the command name is
one of the eight and both required fields are strings, yet `NewCommand` does
not succeed, because the optional `context_files` is present and not a list. -/
theorem C1_required_fields_do_not_suffice :
    CommandMap.get [("command", .str "update_file"), ("file_path", .str "a.go"),
      ("implementation_plan", .str "add a test"), ("context_files", .str "b.go")]
      "command" = some (.str "update_file") ∧
    CommandMap.get [("command", .str "update_file"), ("file_path", .str "a.go"),
      ("implementation_plan", .str "add a test"), ("context_files", .str "b.go")]
      "file_path" = some (.str "a.go") ∧
    CommandMap.get [("command", .str "update_file"), ("file_path", .str "a.go"),
      ("implementation_plan", .str "add a test"), ("context_files", .str "b.go")]
      "implementation_plan" = some (.str "add a test") ∧
    NewCommand (fun _ => "")
      [("command", .str "update_file"), ("file_path", .str "a.go"),
       ("implementation_plan", .str "add a test"), ("context_files", .str "b.go")]
      = .error "invalid 'context_files' parameter type for update_file command" :=
  ⟨rfl, rfl, rfl, rfl⟩

/-- C1, amended: for a mapping that is well formed for the command `cmd` (one
of the eight names, required fields present with the expected type, and
`context_files` of `update_file` a list of strings or absent), `NewCommand`
succeeds with exactly `cmd`: the variant's fields are the mapping's values in
order, and `ContextFiles` is the supplied list, or empty when the key is
absent. -/
theorem C1_newCommand_well_formed (render : Value → String) (m : CommandMap) (cmd : Command)
    (h : WellFormed m cmd) : NewCommand render m = .ok cmd := by
  unfold NewCommand
  cases h with
  | read files hc hf =>
    simp only [hc, hf, Option.getD_some, Value.asString, Value.asSlice, readFilePaths_map_str]
  | checkStructure hc => simp only [hc, Option.getD_some, Value.asString]
  | search query hc hq => simp only [hc, hq, Option.getD_some, Value.asString]
  | updateFile filePath plan contextFiles hc hp hi hx =>
    simp only [hc, hp, hi, hx, Option.getD_some, Value.asString, Value.asSlice,
      convertToStringArray_map_str]
  | updateFileNoContext filePath plan hc hp hi hx =>
    simp only [hc, hp, hi, hx, Option.getD_some, Value.asString]
  | moveFile oldPath newPath hc ho hn =>
    simp only [hc, ho, hn, Option.getD_some, Value.asString]
  | deleteFile filePath hc hp => simp only [hc, hp, Option.getD_some, Value.asString]
  | commit message hc hm => simp only [hc, hm, Option.getD_some, Value.asString]
  | respond message hc hm => simp only [hc, hm, Option.getD_some, Value.asString]

/-- Witness of C1: an `update_file` mapping with two context files. -/
theorem C1_newCommand_well_formed_witness :
    WellFormed
      [("command", .str "update_file"), ("file_path", .str "a.go"),
       ("implementation_plan", .str "add a test"),
       ("context_files", .arr [.str "b.go", .str "c.go"])]
      (.UpdateFileCommand "a.go" "add a test" ["b.go", "c.go"]) ∧
    NewCommand (fun _ => "")
      [("command", .str "update_file"), ("file_path", .str "a.go"),
       ("implementation_plan", .str "add a test"),
       ("context_files", .arr [.str "b.go", .str "c.go"])]
      = .ok (.UpdateFileCommand "a.go" "add a test" ["b.go", "c.go"]) :=
  ⟨WellFormed.updateFile "a.go" "add a test" ["b.go", "c.go"] rfl rfl rfl rfl,
   C1_newCommand_well_formed _ _ _
    (WellFormed.updateFile "a.go" "add a test" ["b.go", "c.go"] rfl rfl rfl rfl)⟩

/-- C2: at the mapping `{"command": "respond"}` the absent required key is
`answer`, yet the error `NewCommand` returns is the one naming `message`: its
text does not contain `answer`, and it is not the missing-field message for
the key `answer`. -/
theorem C2_respond_missing_answer_names_message (render : Value → String) :
    CommandMap.get [("command", .str "respond")] "answer" = none ∧
    NewCommand render [("command", .str "respond")]
      = .error "missing 'message' parameter for respond command" ∧
    ¬ ("answer".data <:+: "missing 'message' parameter for respond command".data) ∧
    NewCommand render [("command", .str "respond")]
      ≠ .error "missing 'answer' parameter for respond command" := by
  refine ⟨rfl, rfl, by decide, ?_⟩
  have h : NewCommand render [("command", .str "respond")]
      = .error "missing 'message' parameter for respond command" := rfl
  rw [h]
  decide

/-- C3: when the `command` value is a string `v` that is none of the eight
command names, `NewCommand` returns no command and the error whose message is
"unknown command: " followed by `v`. -/
theorem C3_unknown_command_error (render : Value → String) (m : CommandMap) (v : String)
    (hcmd : m.get "command" = some (.str v)) (hv : v ∉ commandNames) :
    NewCommand render m = .error ("unknown command: " ++ v) := by
  simp only [commandNames, List.mem_cons, List.mem_singleton, not_or, List.not_mem_nil,
    not_false_eq_true, and_true] at hv
  obtain ⟨h1, h2, h3, h4, h5, h6, h7, h8⟩ := hv
  unfold NewCommand
  simp only [hcmd, Option.getD_some, Value.asString, sprintS]
  split <;> simp_all

/-- Witness of C3: the discriminant "deploy". -/
theorem C3_unknown_command_error_witness :
    "deploy" ∉ commandNames ∧
    NewCommand (fun _ => "") [("command", .str "deploy"), ("files", .arr [])]
      = .error "unknown command: deploy" :=
  ⟨by decide, C3_unknown_command_error _ _ "deploy" rfl (by decide)⟩

theorem asString_str (s : String) : (Value.str s).asString = some s := rfl

theorem asSlice_arr (xs : List Value) : (Value.arr xs).asSlice = some xs := rfl

theorem wrongFieldType_message (render : Value → String) {m : CommandMap}
    (h : WrongFieldType m) :
    ∃ e, NewCommand render m = .error e ∧ "invalid ".data <+: e.data := by
  unfold NewCommand
  cases h with
  | readFilesNotList v hc hf hv =>
    refine ⟨"invalid 'files' parameter type for read command", ?_, by decide⟩
    simp only [hc, hf, Option.getD_some, asString_str, asSlice_of_notList hv]
  | readFilesElement xs x hc hf hx hs =>
    refine ⟨"invalid file path type in 'files' parameter for read command", ?_, by decide⟩
    simp only [hc, hf, Option.getD_some, asString_str, asSlice_arr,
      readFilePaths_of_notString hx hs]
  | searchQuery v hc hf hv =>
    refine ⟨"invalid 'query' parameter type for search command", ?_, by decide⟩
    simp only [hc, hf, Option.getD_some, asString_str, asString_of_notString hv]
  | updateFilePath v hc hf hv =>
    refine ⟨"invalid 'file_path' parameter type for update_file command", ?_, by decide⟩
    simp only [hc, hf, Option.getD_some, asString_str, asString_of_notString hv]
  | updatePlan filePath v hc hp hf hv =>
    refine ⟨"invalid 'implementation_plan' parameter type for update_file command", ?_,
      by decide⟩
    simp only [hc, hp, hf, Option.getD_some, asString_str, asString_of_notString hv]
  | moveOldPath v hc hf hv =>
    refine ⟨"invalid 'old_path' parameter type for move_file command", ?_, by decide⟩
    simp only [hc, hf, Option.getD_some, asString_str, asString_of_notString hv]
  | moveNewPath oldPath v hc hp hf hv =>
    refine ⟨"invalid 'new_path' parameter type for move_file command", ?_, by decide⟩
    simp only [hc, hp, hf, Option.getD_some, asString_str, asString_of_notString hv]
  | deleteFilePath v hc hf hv =>
    refine ⟨"invalid 'file_path' parameter type for delete_file command", ?_, by decide⟩
    simp only [hc, hf, Option.getD_some, asString_str, asString_of_notString hv]
  | commitMessage v hc hf hv =>
    refine ⟨"invalid 'message' parameter type for commit command", ?_, by decide⟩
    simp only [hc, hf, Option.getD_some, asString_str, asString_of_notString hv]
  | respondAnswer v hc hf hv =>
    refine ⟨"invalid 'message' parameter type for respond command", ?_, by decide⟩
    simp only [hc, hf, Option.getD_some, asString_str, asString_of_notString hv]

theorem missingField_message (render : Value → String) {m : CommandMap}
    (h : MissingField m) :
    ∃ e, NewCommand render m = .error e ∧ "missing ".data <+: e.data := by
  unfold NewCommand
  cases h with
  | readFiles hc hf =>
    refine ⟨"missing 'files' parameter for read command", ?_, by decide⟩
    simp only [hc, hf, Option.getD_some, asString_str]
  | searchQuery hc hf =>
    refine ⟨"missing 'query' parameter for search command", ?_, by decide⟩
    simp only [hc, hf, Option.getD_some, asString_str]
  | updateFilePath hc hf =>
    refine ⟨"missing 'file_path' parameter for update_file command", ?_, by decide⟩
    simp only [hc, hf, Option.getD_some, asString_str]
  | updatePlan filePath hc hp hf =>
    refine ⟨"missing 'implementation_plan' parameter for update_file command", ?_, by decide⟩
    simp only [hc, hp, hf, Option.getD_some, asString_str]
  | moveOldPath hc hf =>
    refine ⟨"missing 'old_path' parameter for move_file command", ?_, by decide⟩
    simp only [hc, hf, Option.getD_some, asString_str]
  | moveNewPath oldPath hc hp hf =>
    refine ⟨"missing 'new_path' parameter for move_file command", ?_, by decide⟩
    simp only [hc, hp, hf, Option.getD_some, asString_str]
  | deleteFilePath hc hf =>
    refine ⟨"missing 'file_path' parameter for delete_file command", ?_, by decide⟩
    simp only [hc, hf, Option.getD_some, asString_str]
  | commitMessage hc hf =>
    refine ⟨"missing 'message' parameter for commit command", ?_, by decide⟩
    simp only [hc, hf, Option.getD_some, asString_str]
  | respondAnswer hc hf =>
    refine ⟨"missing 'message' parameter for respond command", ?_, by decide⟩
    simp only [hc, hf, Option.getD_some, asString_str]

theorem unknownCommand_message (render : Value → String) {m : CommandMap}
    (h : UnknownCommand m) :
    ∃ x, NewCommand render m = .error ("unknown command: " ++ x) := by
  refine ⟨sprintS render ((m.get "command").getD Value.null), ?_⟩
  simp only [UnknownCommand, commandNames, List.mem_cons, List.mem_singleton,
    List.not_mem_nil, or_false, forall_eq_or_imp, forall_eq] at h
  obtain ⟨h1, h2, h3, h4, h5, h6, h7, h8⟩ := h
  unfold NewCommand
  cases hc : m.get "command" with
  | none => rfl
  | some v =>
    cases v with
    | str s =>
      simp only [Option.getD_some, asString_str]
      split <;> simp_all
    | _ => rfl

theorem head_of_starts {p l : List Char} (h : p <+: l) (c : Char)
    (hp : p.head? = some c) : l.head? = some c := by
  obtain ⟨t, rfl⟩ := h
  cases p with
  | nil => cases hp
  | cons a rest => simpa using hp

theorem unknown_head (x : String) : ("unknown command: " ++ x).data.head? = some 'u' := by
  rw [String.data_append]
  rfl

/-- C4: when a required field is present with a value of the wrong primitive
type (the fields validated before it being well formed), `NewCommand` returns
no command and an error whose message starts with "invalid "; that message
differs from every message returned for a missing field and from every message
returned for an unrecognised command value, and those two kinds of message
differ from each other as well. -/
theorem C4_wrong_type_error_distinguishable (render : Value → String) (m : CommandMap)
    (h : WrongFieldType m) :
    ∃ e, NewCommand render m = .error e ∧ "invalid ".data <+: e.data ∧
      (∀ m1, MissingField m1 → NewCommand render m1 ≠ .error e) ∧
      (∀ m2, UnknownCommand m2 → NewCommand render m2 ≠ .error e) ∧
      (∀ m1 m2, MissingField m1 → UnknownCommand m2 →
        NewCommand render m1 ≠ NewCommand render m2) := by
  obtain ⟨e, he, hpre⟩ := wrongFieldType_message render h
  have hi : e.data.head? = some 'i' := head_of_starts hpre 'i' rfl
  refine ⟨e, he, hpre, ?_, ?_, ?_⟩
  · intro m1 h1 heq
    obtain ⟨e1, he1, hpre1⟩ := missingField_message render h1
    have hm : e1.data.head? = some 'm' := head_of_starts hpre1 'm' rfl
    rw [he1] at heq
    cases heq
    rw [hi] at hm
    exact absurd hm (by decide)
  · intro m2 h2 heq
    obtain ⟨x, hx⟩ := unknownCommand_message render h2
    rw [hx] at heq
    cases heq
    rw [unknown_head] at hi
    exact absurd hi (by decide)
  · intro m1 m2 h1 h2 heq
    obtain ⟨e1, he1, hpre1⟩ := missingField_message render h1
    obtain ⟨x, hx⟩ := unknownCommand_message render h2
    have hm : e1.data.head? = some 'm' := head_of_starts hpre1 'm' rfl
    rw [he1, hx] at heq
    cases heq
    rw [unknown_head] at hm
    exact absurd hm (by decide)

/-- Witness of C4: a `search` mapping whose `query` is a number. -/
theorem C4_wrong_type_error_distinguishable_witness :
    WrongFieldType [("command", .str "search"), ("query", .num 123)] ∧
    ∃ e, NewCommand (fun _ => "") [("command", .str "search"), ("query", .num 123)] = .error e ∧
      "invalid ".data <+: e.data ∧
      (∀ m1, MissingField m1 → NewCommand (fun _ => "") m1 ≠ .error e) ∧
      (∀ m2, UnknownCommand m2 → NewCommand (fun _ => "") m2 ≠ .error e) ∧
      (∀ m1 m2, MissingField m1 → UnknownCommand m2 →
        NewCommand (fun _ => "") m1 ≠ NewCommand (fun _ => "") m2) :=
  ⟨WrongFieldType.searchQuery (.num 123) rfl rfl (fun _ hv => Value.noConfusion hv),
   C4_wrong_type_error_distinguishable _ _
    (WrongFieldType.searchQuery (.num 123) rfl rfl (fun _ hv => Value.noConfusion hv))⟩

/-- C5: at an `update_file` mapping whose `file_path` and
`implementation_plan` are strings and whose `context_files` is the list
`["b.go", 7]` (one element is not a string), `NewCommand` returns no error: it
returns an `UpdateFileCommand` with empty `ContextFiles`, not the type error
"invalid 'context_files' parameter type for update_file command". A value
that is not a list at all does get that error. -/
theorem C5_context_files_bad_element_accepted (render : Value → String) :
    NewCommand render
      [("command", .str "update_file"), ("file_path", .str "a.go"),
       ("implementation_plan", .str "add a test"),
       ("context_files", .arr [.str "b.go", .num 7])]
      = .ok (.UpdateFileCommand "a.go" "add a test" []) ∧
    NewCommand render
      [("command", .str "update_file"), ("file_path", .str "a.go"),
       ("implementation_plan", .str "add a test"),
       ("context_files", .str "b.go")]
      = .error "invalid 'context_files' parameter type for update_file command" :=
  ⟨rfl, rfl⟩

end GoAgent

/-! ## Theorems: repository context -/

namespace GoAgent

/-- C6: on a disk with the file `a.txt`, after `MoveFile("a.txt", "b.txt")`
succeeded (so `b.txt` is a live alias), `Delete("b.txt")` followed immediately
by `GetFileContent("b.txt")` returns the data of `a.txt` with found = true, not
the text "The file has been deleted." with found = false. -/
theorem C6_delete_of_alias_still_read :
    (MoveFile freshWorld.ctx freshWorld.disk "a.txt" "b.txt").1 = none ∧
    (Delete (freshWorld.run [.moveFile "a.txt" "b.txt"]).ctx "b.txt").1 = none ∧
    "b.txt" ∈ (freshWorld.run [.moveFile "a.txt" "b.txt", .delete "b.txt"]).ctx.deletedFiles ∧
    (GetFileContent (freshWorld.run [.moveFile "a.txt" "b.txt", .delete "b.txt"]).ctx
      oneFileDisk "b.txt").1 = (GoString.ofString "old", true) ∧
    (GetFileContent (freshWorld.run [.moveFile "a.txt" "b.txt", .delete "b.txt"]).ctx
      oneFileDisk "b.txt").1 ≠ (deletedMessage, false) := by
  decide

/-- C7: on a disk with the file `a.txt` holding "old", after
`UpdateFileContent("a.txt", "new")` the read `GetFileContent("a.txt")` returns
("new", true); `MoveFile("a.txt", "b.txt")` then succeeds, and
`GetFileContent("b.txt")` right after the move returns ("old", true): the
staged content is not what the new name reads. -/
theorem C7_move_then_read_new_name_is_stale :
    (GetFileContent (freshWorld.run [.updateFileContent "a.txt" (GoString.ofString "new")]).ctx
      oneFileDisk "a.txt").1 = (GoString.ofString "new", true) ∧
    (MoveFile (freshWorld.run [.updateFileContent "a.txt" (GoString.ofString "new"),
      .getFileContent "a.txt"]).ctx oneFileDisk "a.txt" "b.txt").1 = none ∧
    (GetFileContent (freshWorld.run [.updateFileContent "a.txt" (GoString.ofString "new"),
      .getFileContent "a.txt", .moveFile "a.txt" "b.txt"]).ctx
      oneFileDisk "b.txt").1 = (GoString.ofString "old", true) := by
  decide

/-- C8: on a disk with the file `a.txt`, after four calls of
`UpdateFileContent("a.txt", _)` (the last with "v4"), `MoveFile("a.txt",
"b.txt")` succeeds with no delete staged, and the following `FlushChanges`
(one staged move, so one iteration order) succeeds; yet afterwards a file, an
empty one, exists on disk at `a.txt`, and `GetFileContent("a.txt")` returns
found = true. The file at `b.txt` holds "v4". -/
theorem C8_flush_after_move_recreates_old_path :
    (MoveFile (freshWorld.run fourUpdates).ctx oneFileDisk "a.txt" "b.txt").1 = none ∧
    (freshWorld.run (fourUpdates ++ [.moveFile "a.txt" "b.txt"])).ctx.deletedFiles = [] ∧
    (freshWorld.run (fourUpdates ++ [.moveFile "a.txt" "b.txt"])).ctx.movedFiles
      = [("a.txt", "b.txt")] ∧
    (FlushChanges (freshWorld.run (fourUpdates ++ [.moveFile "a.txt" "b.txt"])).ctx
      oneFileDisk).1 = none ∧
    (freshWorld.run (fourUpdates ++ [.moveFile "a.txt" "b.txt", .flushChanges])).disk "a.txt"
      = some [] ∧
    (freshWorld.run (fourUpdates ++ [.moveFile "a.txt" "b.txt", .flushChanges])).disk "b.txt"
      = some (GoString.ofString "v4") ∧
    (GetFileContent
      (freshWorld.run (fourUpdates ++ [.moveFile "a.txt" "b.txt", .flushChanges])).ctx
      (freshWorld.run (fourUpdates ++ [.moveFile "a.txt" "b.txt", .flushChanges])).disk
      "a.txt").1 = ([], true) := by
  decide

/-- C9: on a disk with the file `a.txt` and no file at `b.txt`, after
`UpdateFileContent("a.txt", "new")`, a successful `MoveFile("a.txt", "b.txt")`
and `Delete("a.txt")`, the read `GetFileContent("b.txt")` returns ("The file
has been deleted.", false) and `FlushChanges` succeeds; yet after the flush a
file exists on disk at `b.txt`, holding "new". No file is left at `a.txt`. -/
theorem C9_move_then_delete_old_leaves_new_path :
    oneFileDisk "b.txt" = none ∧
    (MoveFile (freshWorld.run [.updateFileContent "a.txt" (GoString.ofString "new")]).ctx
      oneFileDisk "a.txt" "b.txt").1 = none ∧
    (GetFileContent (freshWorld.run [.updateFileContent "a.txt" (GoString.ofString "new"),
      .moveFile "a.txt" "b.txt", .delete "a.txt"]).ctx oneFileDisk "b.txt").1
      = (deletedMessage, false) ∧
    (FlushChanges (freshWorld.run [.updateFileContent "a.txt" (GoString.ofString "new"),
      .moveFile "a.txt" "b.txt", .delete "a.txt"]).ctx oneFileDisk).1 = none ∧
    (freshWorld.run [.updateFileContent "a.txt" (GoString.ofString "new"),
      .moveFile "a.txt" "b.txt", .delete "a.txt", .flushChanges]).disk "a.txt" = none ∧
    (freshWorld.run [.updateFileContent "a.txt" (GoString.ofString "new"),
      .moveFile "a.txt" "b.txt", .delete "a.txt", .flushChanges]).disk "b.txt"
      = some (GoString.ofString "new") := by
  decide

/-- C10: on a disk with the file `a.txt`, after a successful
`MoveFile("a.txt", "b.txt")` and `Delete("b.txt")` (the delete staged under the
post-move name), `FlushChanges` succeeds and a file exists on disk at `b.txt`,
holding the data of `a.txt`: the move was carried out and nothing deleted. -/
theorem C10_delete_under_new_name_loses_to_move :
    (MoveFile freshWorld.ctx freshWorld.disk "a.txt" "b.txt").1 = none ∧
    (freshWorld.run [.moveFile "a.txt" "b.txt", .delete "b.txt"]).ctx.deletedFiles
      = ["b.txt"] ∧
    (FlushChanges (freshWorld.run [.moveFile "a.txt" "b.txt", .delete "b.txt"]).ctx
      oneFileDisk).1 = none ∧
    (freshWorld.run [.moveFile "a.txt" "b.txt", .delete "b.txt", .flushChanges]).disk "a.txt"
      = none ∧
    (freshWorld.run [.moveFile "a.txt" "b.txt", .delete "b.txt", .flushChanges]).disk "b.txt"
      = some (GoString.ofString "old") := by
  decide

end GoAgent

/-! ## Theorems: repository context, staging and flushing -/

namespace GoAgent

/-- C13: in the one-file scene no file exists at `a.txt/x` (the name lies
below the regular file `a.txt`), yet `MoveFile("a.txt/x", "b.txt")` returns no
error and stages the move: the pending moves and the aliases get an entry.
The error of `os.Stat` is not `os.ErrNotExist` there, which is the only error
the check refuses. For the absent `c.txt` the move is refused with the
message of the claim and the context is returned as it was. -/
theorem C13_move_below_a_file_is_staged :
    oneFileDisk "a.txt/x" = none ∧
    oneFileDisk.stat (oneFileDisk.fullPath "a.txt/x") = .failed ∧
    (MoveFile freshWorld.ctx oneFileDisk "a.txt/x" "b.txt").1 = none ∧
    (MoveFile freshWorld.ctx oneFileDisk "a.txt/x" "b.txt").2.movedFiles =
      [("a.txt/x", "b.txt")] ∧
    (MoveFile freshWorld.ctx oneFileDisk "a.txt/x" "b.txt").2.fileAliases "b.txt" =
      some "a.txt/x" ∧
    freshWorld.ctx.movedFiles = [] ∧ freshWorld.ctx.fileAliases "b.txt" = none ∧
    MoveFile freshWorld.ctx oneFileDisk "c.txt" "b.txt" =
      (some "file c.txt does not exist", freshWorld.ctx) := by
  refine ⟨by decide, by decide, by decide, by decide, by decide, by decide, by decide, ?_⟩
  rfl

/-- C15: in the context listing `a.txt`, after `UpdateFileContent("a.txt",
"new")` the call `Delete("a.txt")` returns no error, stages `a.txt` in
`deletedFiles` and empties its cache entry, yet `GetRepoStructure()` still
contains `a.txt`: the write had listed the path a second time and the delete
removes one occurrence. -/
theorem C15_delete_leaves_listed_path :
    (freshWorld.run [.updateFileContent "a.txt" (GoString.ofString "new")]).ctx.CurrentRepoStructure
      = ["a.txt", "a.txt"] ∧
    (Delete (freshWorld.run [.updateFileContent "a.txt" (GoString.ofString "new")]).ctx
      "a.txt").1 = none ∧
    "a.txt" ∈ (freshWorld.run [.updateFileContent "a.txt" (GoString.ofString "new"),
      .delete "a.txt"]).ctx.deletedFiles ∧
    (freshWorld.run [.updateFileContent "a.txt" (GoString.ofString "new"),
      .delete "a.txt"]).ctx.currentFileContents "a.txt" = none ∧
    "a.txt" ∈ GetRepoStructure (freshWorld.run
      [.updateFileContent "a.txt" (GoString.ofString "new"), .delete "a.txt"]).ctx := by
  decide

theorem step_disk (w : World) (op : Op) (h : op ≠ .flushChanges) :
    (w.step op).disk = w.disk := by
  cases op <;> first | rfl | exact absurd rfl h

/-- C16: a sequence of calls of `GetFileContent`, `UpdateFileContent`,
`SearchCode`, `GetRepoStructure`, `Delete` and `MoveFile` (any calls but
`FlushChanges`) leaves the disk, the files and their data, as it was. -/
theorem C16_no_disk_mutation_outside_flush (w : World) (ops : List Op)
    (h : Op.flushChanges ∉ ops) : (w.run ops).disk = w.disk := by
  unfold World.run
  induction ops generalizing w with
  | nil => rfl
  | cons op rest ih =>
    rw [List.foldl_cons, ih (w.step op) (fun hm => h (List.mem_cons_of_mem _ hm))]
    exact step_disk w op (fun he => h (he ▸ List.mem_cons_self _ _))

/-- Witness of C16: one call of each kind in the one-file scene. -/
theorem C16_no_disk_mutation_outside_flush_witness :
    Op.flushChanges ∉ [Op.getFileContent "a.txt",
      .updateFileContent "n.txt" (GoString.ofString "new"), .searchCode "old",
      .getRepoStructure, .delete "a.txt", .moveFile "a.txt" "b.txt"] ∧
    (freshWorld.run [.getFileContent "a.txt",
      .updateFileContent "n.txt" (GoString.ofString "new"), .searchCode "old",
      .getRepoStructure, .delete "a.txt", .moveFile "a.txt" "b.txt"]).disk
      = freshWorld.disk :=
  ⟨by decide, C16_no_disk_mutation_outside_flush freshWorld _ (by decide)⟩

/-- C18: on a disk whose file `a.bin` holds bytes that are not UTF-8, the
first `GetFileContent("a.bin")` reports found = true with valid text, and the
second one, served from the cache, reports found = true with the raw data,
which is not valid UTF-8. -/
theorem C18_cached_read_returns_invalid_text :
    (GetFileContent binaryWorld.ctx binaryWorld.disk "a.bin").1
      = ([.rune 'a', .rune ' ', .rune 'b'], true) ∧
    GoString.valid (GetFileContent binaryWorld.ctx binaryWorld.disk "a.bin").1.1 = true ∧
    (GetFileContent (binaryWorld.run [.getFileContent "a.bin"]).ctx binaryWorld.disk
      "a.bin").1 = ([.rune 'a', .invalid 255, .invalid 254, .rune 'b'], true) ∧
    GoString.valid (GetFileContent (binaryWorld.run [.getFileContent "a.bin"]).ctx
      binaryWorld.disk "a.bin").1.1 = false := by
  decide

/-- C20: `Process` of a `CommitCommand` or of a `RespondCommand` carrying the
message `m` returns exactly `m` and no error, and the world after the call,
context and disk, is the world before it. -/
theorem C20_commit_respond_process_pure (json : JsonIndent) (w : World) (m : String) :
    w.process json (.CommitCommand m) = ((GoString.ofString m, none), w) ∧
    w.process json (.RespondCommand m) = ((GoString.ofString m, none), w) :=
  ⟨rfl, rfl⟩

theorem flushChangesIn_success {order : List (String × String)}
    {c : LocalProgrammingAgentContext} {d : Disk}
    (h : (FlushChangesIn order c d).1 = none) :
    ∃ c0 d0 c1 d1 d2 d3,
      flushDeletes c.deletedFiles c d = (none, c0, d0) ∧
      flushMoves order c0 d0 = (none, c1, d1) ∧
      flushCreates c1.currentFileContents c1.newFiles d1 = (none, d2) ∧
      flushUpdates c1.currentFileContents c1.updatedFiles d2 = (none, d3) ∧
      FlushChangesIn order c d =
        (none,
          { c1 with updatedFiles := []
                    newFiles := []
                    deletedFiles := []
                    movedFiles := []
                    fileAliases := GoMap.empty },
          d3) := by
  unfold FlushChangesIn at h ⊢
  cases h0 : flushDeletes c.deletedFiles c d with
  | mk err0 r0 =>
    obtain ⟨c0, d0⟩ := r0
    rw [h0] at h
    cases err0 with
    | some e => cases h
    | none =>
      dsimp only at h ⊢
      cases h1 : flushMoves order c0 d0 with
      | mk err1 r1 =>
        obtain ⟨c1, d1⟩ := r1
        rw [h1] at h
        cases err1 with
        | some e => cases h
        | none =>
          dsimp only at h ⊢
          cases h2 : flushCreates c1.currentFileContents c1.newFiles d1 with
          | mk err2 d2 =>
            rw [h2] at h
            cases err2 with
            | some e => cases h
            | none =>
              dsimp only at h ⊢
              cases h3 : flushUpdates c1.currentFileContents c1.updatedFiles d2 with
              | mk err3 d3 =>
                rw [h3] at h
                cases err3 with
                | some e => cases h
                | none => exact ⟨c0, d0, c1, d1, d2, d3, rfl, h1, h2, h3, rfl⟩

theorem flushChangesIn_idle (c : LocalProgrammingAgentContext) (d : Disk)
    (hu : c.updatedFiles = []) (hn : c.newFiles = []) (hd : c.deletedFiles = [])
    (hm : c.movedFiles = []) (ha : c.fileAliases = GoMap.empty) :
    FlushChangesIn [] c d = (none, c, d) := by
  obtain ⟨cache, listed, request, updated, created, deleted, moved, aliases⟩ := c
  simp only at hu hn hd hm ha
  subst hu hn hd hm ha
  rfl

/-- C17: if `FlushChanges` succeeds (whatever the order in which it visits
the staged moves), then afterwards `newFiles`, `updatedFiles`, `deletedFiles`,
`movedFiles` and the alias map are empty, and a second `FlushChanges` right
after it succeeds and returns the same context and the same disk. -/
theorem C17_flush_clears_and_second_flush_idle (order : List (String × String))
    (c : LocalProgrammingAgentContext) (d : Disk)
    (h : (FlushChangesIn order c d).1 = none) :
    (FlushChangesIn order c d).2.1.newFiles = [] ∧
    (FlushChangesIn order c d).2.1.updatedFiles = [] ∧
    (FlushChangesIn order c d).2.1.deletedFiles = [] ∧
    (FlushChangesIn order c d).2.1.movedFiles = [] ∧
    (FlushChangesIn order c d).2.1.fileAliases = GoMap.empty ∧
    ∀ order2, order2.Perm (FlushChangesIn order c d).2.1.movedFiles →
      FlushChangesIn order2 (FlushChangesIn order c d).2.1 (FlushChangesIn order c d).2.2
        = (none, (FlushChangesIn order c d).2.1, (FlushChangesIn order c d).2.2) := by
  obtain ⟨c0, d0, c1, d1, d2, d3, -, -, -, -, heq⟩ := flushChangesIn_success h
  rw [heq]
  refine ⟨rfl, rfl, rfl, rfl, rfl, ?_⟩
  intro order2 hperm
  have hnil : order2 = [] := List.Perm.eq_nil hperm
  subst hnil
  exact flushChangesIn_idle _ _ rfl rfl rfl rfl rfl

/-- Witness of C17: a flush of one staged write and one staged move. -/
theorem C17_flush_clears_and_second_flush_idle_witness :
    (FlushChangesIn [("a.txt", "b.txt")]
      (freshWorld.run [.updateFileContent "n.txt" (GoString.ofString "new"),
        .moveFile "a.txt" "b.txt"]).ctx oneFileDisk).1 = none ∧
    (FlushChangesIn [("a.txt", "b.txt")]
      (freshWorld.run [.updateFileContent "n.txt" (GoString.ofString "new"),
        .moveFile "a.txt" "b.txt"]).ctx oneFileDisk).2.1.movedFiles = [] :=
  ⟨by decide,
   (C17_flush_clears_and_second_flush_idle [("a.txt", "b.txt")]
    (freshWorld.run [.updateFileContent "n.txt" (GoString.ofString "new"),
      .moveFile "a.txt" "b.txt"]).ctx oneFileDisk (by decide)).2.2.2.1⟩

/-- C12, as stated, fails: in the fresh one-file scene the first
`UpdateFileContent("n.txt", "v1")` leaves `n.txt` out of `updatedFiles`, and
the second write of the same path puts it in. -/
theorem C12_second_write_joins_updatedFiles :
    "n.txt" ∈ (freshWorld.run
      [.updateFileContent "n.txt" (GoString.ofString "v1")]).ctx.newFiles ∧
    "n.txt" ∉ (freshWorld.run
      [.updateFileContent "n.txt" (GoString.ofString "v1")]).ctx.updatedFiles ∧
    "n.txt" ∈ (freshWorld.run
      [.updateFileContent "n.txt" (GoString.ofString "v1"),
       .updateFileContent "n.txt" (GoString.ofString "v2")]).ctx.updatedFiles := by
  decide

theorem updateFileContent_fileAliases (c : LocalProgrammingAgentContext) (p : String)
    (x : GoString) : (UpdateFileContent c p x).fileAliases = c.fileAliases := by
  unfold UpdateFileContent
  dsimp only
  split <;> rfl

theorem resolveAlias_updateFileContent (c : LocalProgrammingAgentContext) (p q : String)
    (x : GoString) : resolveAlias (UpdateFileContent c p x) q = resolveAlias c q := by
  unfold resolveAlias
  rw [updateFileContent_fileAliases]

theorem updateFileContent_cached (c : LocalProgrammingAgentContext) (p : String)
    (x : GoString) :
    (UpdateFileContent c p x).currentFileContents (resolveAlias c p) = some x := by
  unfold UpdateFileContent
  dsimp only
  split <;> simp [GoMap.set]

/-- C12, amended: a second `UpdateFileContent(p, c2)` right after
`UpdateFileContent(p, c1)` leaves `newFiles` (and the structure, the staged
deletes and moves and the aliases) exactly as after the first call, appends
the path that `p` resolves to once more to `updatedFiles`, and changes the
cache only at that path, whose content becomes `c2`. -/
theorem C12_second_write_effect (c : LocalProgrammingAgentContext) (p : String)
    (c1 c2 : GoString) :
    (UpdateFileContent (UpdateFileContent c p c1) p c2).newFiles
      = (UpdateFileContent c p c1).newFiles ∧
    (UpdateFileContent (UpdateFileContent c p c1) p c2).updatedFiles
      = (UpdateFileContent c p c1).updatedFiles ++ [resolveAlias c p] ∧
    (UpdateFileContent (UpdateFileContent c p c1) p c2).currentFileContents
      = (UpdateFileContent c p c1).currentFileContents.set (resolveAlias c p) c2 ∧
    (UpdateFileContent (UpdateFileContent c p c1) p c2).CurrentRepoStructure
      = (UpdateFileContent c p c1).CurrentRepoStructure ∧
    (UpdateFileContent (UpdateFileContent c p c1) p c2).deletedFiles
      = (UpdateFileContent c p c1).deletedFiles ∧
    (UpdateFileContent (UpdateFileContent c p c1) p c2).movedFiles
      = (UpdateFileContent c p c1).movedFiles ∧
    (UpdateFileContent (UpdateFileContent c p c1) p c2).fileAliases
      = (UpdateFileContent c p c1).fileAliases := by
  have hr := resolveAlias_updateFileContent c p p c1
  have hc := updateFileContent_cached c p c1
  generalize UpdateFileContent c p c1 = s at hr hc ⊢
  unfold UpdateFileContent
  rw [hr]
  dsimp only
  rw [hc]
  exact ⟨rfl, rfl, rfl, rfl, rfl, rfl, rfl⟩

/-- C19, as stated, fails: in the scene with the files `z.txt` ("Z") and
`a.txt` ("A"), after the successful moves `z.txt` to `a.txt` and `a.txt` to
`b.txt` and no flush, `GetFileContent("a.txt")` returns ("Z", true) and
`GetFileContent("b.txt")` returns ("A", true). -/
theorem C19_chained_moves_read_differently :
    (MoveFile twoFileWorld.ctx twoFileWorld.disk "z.txt" "a.txt").1 = none ∧
    (MoveFile (twoFileWorld.run [.moveFile "z.txt" "a.txt"]).ctx twoFileWorld.disk
      "a.txt" "b.txt").1 = none ∧
    (GetFileContent (twoFileWorld.run [.moveFile "z.txt" "a.txt", .moveFile "a.txt" "b.txt"]).ctx
      twoFileWorld.disk "a.txt").1 = (GoString.ofString "Z", true) ∧
    (GetFileContent (twoFileWorld.run [.moveFile "z.txt" "a.txt", .moveFile "a.txt" "b.txt"]).ctx
      twoFileWorld.disk "b.txt").1 = (GoString.ofString "A", true) := by
  decide

/-- C19, amended: in every context whose alias map sends `b` to `a` (as
`MoveFile(a, b)` leaves it, until a flush or a later move onto `b`) and in
which `a` is not itself redirected by an alias, `GetFileContent(a)` and
`GetFileContent(b)` return the same (text, found) pair, and leave the same
context. -/
theorem C19_alias_reads_agree (c : LocalProgrammingAgentContext) (d : Disk) (a b : String)
    (hb : c.fileAliases b = some a) (ha : resolveAlias c a = a) :
    GetFileContent c d a = GetFileContent c d b := by
  have hrb : resolveAlias c b = a := by
    unfold resolveAlias
    rw [hb]
  unfold GetFileContent
  rw [ha, hrb]

/-- Witness of C19: right after `MoveFile("a.txt", "b.txt")` in the one-file
scene. -/
theorem C19_alias_reads_agree_witness :
    (freshWorld.run [.moveFile "a.txt" "b.txt"]).ctx.fileAliases "b.txt" = some "a.txt" ∧
    resolveAlias (freshWorld.run [.moveFile "a.txt" "b.txt"]).ctx "a.txt" = "a.txt" ∧
    GetFileContent (freshWorld.run [.moveFile "a.txt" "b.txt"]).ctx oneFileDisk "a.txt"
      = GetFileContent (freshWorld.run [.moveFile "a.txt" "b.txt"]).ctx oneFileDisk "b.txt" :=
  ⟨by decide, by decide,
   C19_alias_reads_agree _ oneFileDisk "a.txt" "b.txt" (by decide) (by decide)⟩

theorem sameStaging_refl (c : LocalProgrammingAgentContext) : SameStaging c c :=
  ⟨rfl, rfl, rfl, rfl, rfl, rfl⟩

theorem sameStaging_trans {c1 c2 c3 : LocalProgrammingAgentContext}
    (h12 : SameStaging c1 c2) (h23 : SameStaging c2 c3) : SameStaging c1 c3 := by
  obtain ⟨a1, a2, a3, a4, a5, a6⟩ := h12
  obtain ⟨b1, b2, b3, b4, b5, b6⟩ := h23
  exact ⟨a1.trans b1, a2.trans b2, a3.trans b3, a4.trans b4, a5.trans b5, a6.trans b6⟩

theorem getFileContent_sameStaging (c : LocalProgrammingAgentContext) (d : Disk)
    (p : String) : SameStaging (GetFileContent c d p).2 c := by
  unfold GetFileContent
  dsimp only
  split
  · exact sameStaging_refl c
  · split
    · exact sameStaging_refl c
    · split
      · exact sameStaging_refl c
      · exact ⟨rfl, rfl, rfl, rfl, rfl, rfl⟩

theorem searchFiles_sameStaging (query : GoString) (files : List String)
    (c : LocalProgrammingAgentContext) (d : Disk) (results : List (String × List Nat)) :
    SameStaging (searchFiles query files c d results).2 c := by
  induction files generalizing c results with
  | nil => exact sameStaging_refl c
  | cons file rest ih =>
    unfold searchFiles
    dsimp only
    have hg := getFileContent_sameStaging c d (resolveAlias c file)
    generalize GetFileContent c d (resolveAlias c file) = r at hg ⊢
    obtain ⟨⟨content, found⟩, c1⟩ := r
    dsimp only at hg ⊢
    cases found
    · exact sameStaging_trans (ih c1 _) hg
    · exact sameStaging_trans (ih c1 _) hg

theorem searchCode_sameStaging (c : LocalProgrammingAgentContext) (d : Disk)
    (query : String) : SameStaging (SearchCode c d query).2 c :=
  searchFiles_sameStaging _ _ c d []

theorem replaceFirst_count (l : List String) (a b : String) (hab : a ≠ b)
    (ha : l.count a = 1) (hb : b ∉ l) :
    (replaceFirst l a b).count b = 1 ∧ a ∉ replaceFirst l a b := by
  induction l with
  | nil => simp at ha
  | cons x rest ih =>
    have hxb : x ≠ b := fun h => hb (h ▸ List.mem_cons_self _ _)
    have hbr : b ∉ rest := fun h => hb (List.mem_cons_of_mem _ h)
    unfold replaceFirst
    by_cases hxa : x = a
    · subst hxa
      have har : rest.count x = 0 := by
        rw [List.count_cons_self] at ha
        omega
      have hnot : x ∉ rest := List.count_eq_zero.mp har
      rw [if_pos rfl]
      refine ⟨?_, ?_⟩
      · rw [List.count_cons_self, List.count_eq_zero.mpr hbr]
      · intro hmem
        rcases List.mem_cons.mp hmem with h | h
        · exact hab h
        · exact hnot h
    · rw [if_neg hxa]
      have har : rest.count a = 1 := by
        rw [List.count_cons_of_ne (Ne.symm hxa)] at ha
        exact ha
      obtain ⟨h1, h2⟩ := ih har hbr
      refine ⟨?_, ?_⟩
      · rw [List.count_cons_of_ne hxb.symm]
        exact h1
      · intro hmem
        rcases List.mem_cons.mp hmem with h | h
        · exact hxa h.symm
        · exact h2 h

theorem lookup_movedSet (l : List (String × String)) (a b : String) :
    (movedSet l a b).lookup a = some b := by
  induction l with
  | nil => simp [movedSet, List.lookup]
  | cons e rest ih =>
    obtain ⟨k, v⟩ := e
    unfold movedSet
    by_cases hk : k = a
    · subst hk
      simp [List.lookup]
    · rw [if_neg hk]
      have hne : (a == k) = false := by
        simpa using fun h => hk h.symm
      simp only [List.lookup, hne]
      exact ih

theorem count_replaceFirst_of_ne (l : List String) (o n b : String) (ho : o ≠ b)
    (hn : n ≠ b) : (replaceFirst l o n).count b = l.count b := by
  induction l with
  | nil => rfl
  | cons x rest ih =>
    unfold replaceFirst
    by_cases hxo : x = o
    · rw [if_pos hxo, List.count_cons_of_ne hn.symm, List.count_cons_of_ne (hxo ▸ ho).symm]
    · rw [if_neg hxo]
      by_cases hxb : x = b
      · subst hxb
        rw [List.count_cons_self, List.count_cons_self, ih]
      · rw [List.count_cons_of_ne (Ne.symm hxb), List.count_cons_of_ne (Ne.symm hxb), ih]

theorem mem_of_mem_replaceFirst (l : List String) (o n x : String)
    (h : x ∈ replaceFirst l o n) : x ∈ l ∨ x = n := by
  induction l with
  | nil => cases h
  | cons y rest ih =>
    unfold replaceFirst at h
    by_cases hyo : y = o
    · rw [if_pos hyo] at h
      rcases List.mem_cons.mp h with h | h
      · exact Or.inr h
      · exact Or.inl (List.mem_cons_of_mem _ h)
    · rw [if_neg hyo] at h
      rcases List.mem_cons.mp h with h | h
      · exact Or.inl (h ▸ List.mem_cons_self _ _)
      · rcases ih h with h | h
        · exact Or.inl (List.mem_cons_of_mem _ h)
        · exact Or.inr h

theorem lookup_movedSet_of_ne (l : List (String × String)) (o n a : String) (ho : o ≠ a) :
    (movedSet l o n).lookup a = l.lookup a := by
  induction l with
  | nil =>
    have hne : (a == o) = false := by simpa using fun h => ho h.symm
    simp [movedSet, List.lookup, hne]
  | cons e rest ih =>
    obtain ⟨k, v⟩ := e
    unfold movedSet
    by_cases hk : k = o
    · subst hk
      have hne : (a == k) = false := by simpa using fun h => ho h.symm
      simp only [if_true, List.lookup, hne]
    · rw [if_neg hk]
      by_cases hak : a = k
      · subst hak
        simp [List.lookup]
      · have hne : (a == k) = false := by simpa using hak
        simp only [List.lookup, hne]
        exact ih

theorem moveFile_staged (c : LocalProgrammingAgentContext) (d : Disk) (o n : String) :
    MoveFile c d o n = (some ("file " ++ o ++ " does not exist"), c) ∨
    ((MoveFile c d o n).1 = none ∧
      (MoveFile c d o n).2.CurrentRepoStructure = replaceFirst c.CurrentRepoStructure o n ∧
      (MoveFile c d o n).2.movedFiles = movedSet c.movedFiles o n) := by
  unfold MoveFile
  cases d.stat (d.fullPath o) with
  | notExist => exact Or.inl rfl
  | found => exact Or.inr ⟨rfl, rfl, rfl⟩
  | failed => exact Or.inr ⟨rfl, rfl, rfl⟩

theorem replaceFirst_of_not_mem (l : List String) (o n : String) (h : o ∉ l) :
    replaceFirst l o n = l := by
  induction l with
  | nil => rfl
  | cons y rest ih =>
    unfold replaceFirst
    have hy : y ≠ o := fun e => h (e ▸ List.mem_cons_self _ _)
    rw [if_neg hy, ih (fun hm => h (List.mem_cons_of_mem _ hm))]

theorem step_keeps_move (a b : String) (w : World) (op : Op)
    (hop : op.leavesMoveAlone w.ctx w.disk a b)
    (hb : w.ctx.CurrentRepoStructure.count b = 1) (ha : a ∉ w.ctx.CurrentRepoStructure)
    (hm : w.ctx.movedFiles.lookup a = some b) :
    (w.step op).ctx.CurrentRepoStructure.count b = 1 ∧
    a ∉ (w.step op).ctx.CurrentRepoStructure ∧
    (w.step op).ctx.movedFiles.lookup a = some b := by
  cases op with
  | getFileContent filePath =>
    obtain ⟨h1, -, -, -, h5, -⟩ := getFileContent_sameStaging w.ctx w.disk filePath
    simp only [World.step, h1, h5]
    exact ⟨hb, ha, hm⟩
  | searchCode query =>
    obtain ⟨h1, -, -, -, h5, -⟩ := searchCode_sameStaging w.ctx w.disk query
    simp only [World.step, h1, h5]
    exact ⟨hb, ha, hm⟩
  | getRepoStructure => exact ⟨hb, ha, hm⟩
  | updateFileContent filePath newContents =>
    have hop2 : w.ctx.currentFileContents (resolveAlias w.ctx filePath) = none →
        resolveAlias w.ctx filePath ≠ a ∧ resolveAlias w.ctx filePath ≠ b := hop
    simp only [World.step, UpdateFileContent]
    cases hc : w.ctx.currentFileContents (resolveAlias w.ctx filePath) with
    | none =>
      obtain ⟨hna, hnb⟩ := hop2 hc
      refine ⟨?_, ?_, hm⟩
      · simp only [List.count_append, hb, List.count_cons_of_ne (Ne.symm hnb),
          List.count_nil]
      · intro hmem
        rcases List.mem_append.mp hmem with h | h
        · exact ha h
        · exact hna (List.mem_singleton.mp h).symm
    | some _ => exact ⟨hb, ha, hm⟩
  | delete filePath =>
    have hne : filePath ≠ b := hop
    simp only [World.step, Delete, removeFileFromContext]
    refine ⟨?_, ?_, hm⟩
    · rw [List.count_erase_of_ne (Ne.symm hne)]
      exact hb
    · exact fun hmem => ha (List.mem_of_mem_erase hmem)
  | moveFile oldPath newPath =>
    have hop2 : (MoveFile w.ctx w.disk oldPath newPath).1 ≠ none ∨
        ((oldPath = a → newPath = b) ∧
          (oldPath ∈ w.ctx.CurrentRepoStructure →
            oldPath ≠ b ∧ newPath ≠ a ∧ newPath ≠ b)) := hop
    simp only [World.step]
    rcases moveFile_staged w.ctx w.disk oldPath newPath with h | ⟨h0, h1, h2⟩
    · rw [h]
      exact ⟨hb, ha, hm⟩
    · rcases hop2 with hop2 | ⟨hto, hlisted⟩
      · exact absurd h0 hop2
      · rw [h1, h2]
        have hmoved : (movedSet w.ctx.movedFiles oldPath newPath).lookup a = some b := by
          by_cases hoa : oldPath = a
          · rw [hoa, hto hoa]
            exact lookup_movedSet _ _ _
          · rw [lookup_movedSet_of_ne _ _ _ _ hoa]
            exact hm
        by_cases hmem : oldPath ∈ w.ctx.CurrentRepoStructure
        · obtain ⟨hob, hna, hnb⟩ := hlisted hmem
          refine ⟨?_, ?_, hmoved⟩
          · rw [count_replaceFirst_of_ne _ _ _ _ hob hnb]
            exact hb
          · intro hmem2
            rcases mem_of_mem_replaceFirst _ _ _ _ hmem2 with h | h
            · exact ha h
            · exact hna h.symm
        · rw [replaceFirst_of_not_mem _ _ _ hmem]
          exact ⟨hb, ha, hmoved⟩
  | flushChanges => exact absurd hop (by simp [Op.leavesMoveAlone])

theorem run_keeps_move (a b : String) (ops : List Op) (w : World)
    (hops : World.leavesMoveAlone a b w ops)
    (hb : w.ctx.CurrentRepoStructure.count b = 1) (ha : a ∉ w.ctx.CurrentRepoStructure)
    (hm : w.ctx.movedFiles.lookup a = some b) :
    (w.run ops).ctx.CurrentRepoStructure.count b = 1 ∧
    a ∉ (w.run ops).ctx.CurrentRepoStructure ∧
    (w.run ops).ctx.movedFiles.lookup a = some b := by
  induction ops generalizing w with
  | nil => exact ⟨hb, ha, hm⟩
  | cons op rest ih =>
    obtain ⟨hop, hrest⟩ := hops
    obtain ⟨h2, h3, h4⟩ := step_keeps_move a b w op hop hb ha hm
    exact ih (w.step op) hrest h2 h3 h4

/-- C14, as stated, fails: in the one-file scene, after the successful
`MoveFile("a.txt", "b.txt")` the further staged call `Delete("b.txt")` leaves
`GetRepoStructure()` without `b.txt`, and a further `MoveFile("a.txt",
"c.txt")` makes the pending moves map `a.txt` to `c.txt`; in the two-file
scene, after the move of `a.txt` to `b.txt` the further move of `z.txt` to
`a.txt` lists `a.txt` again. -/
theorem C14_delete_after_move_unlists_new_name :
    "a.txt" ≠ "b.txt" ∧
    (MoveFile freshWorld.ctx freshWorld.disk "a.txt" "b.txt").1 = none ∧
    GetRepoStructure (freshWorld.run [.moveFile "a.txt" "b.txt"]).ctx = ["b.txt"] ∧
    "b.txt" ∉ GetRepoStructure
      (freshWorld.run [.moveFile "a.txt" "b.txt", .delete "b.txt"]).ctx ∧
    (freshWorld.run [.moveFile "a.txt" "b.txt", .moveFile "a.txt" "c.txt"]).ctx.movedFiles.lookup
      "a.txt" = some "c.txt" ∧
    (MoveFile twoFileWorld.ctx twoFileWorld.disk "a.txt" "b.txt").1 = none ∧
    "a.txt" ∈ GetRepoStructure
      (twoFileWorld.run [.moveFile "a.txt" "b.txt", .moveFile "z.txt" "a.txt"]).ctx := by
  decide

/-- C14, amended: in a context whose structure lists `a` exactly once and
does not list `b` (with `a` and `b` distinct), after a successful
`MoveFile(a, b)` and after any further calls that leave the moved file alone
(reads, searches, listings; writes, except one whose path resolves to `a` or
`b` while that resolved path is not cached; deletes of paths other than `b`;
moves that are refused, and staged moves that give `a` no other target than
`b` and that, when their old name is listed, rename neither `b` nor to `a`
or `b`), `GetRepoStructure()` contains `b` exactly once and does not contain
`a`, and `movedFiles` maps `a` to `b`. -/
theorem C14_move_lists_new_name_once (c : LocalProgrammingAgentContext) (d : Disk)
    (a b : String) (ops : List Op) (hab : a ≠ b)
    (ha : c.CurrentRepoStructure.count a = 1) (hb : b ∉ c.CurrentRepoStructure)
    (hmove : (MoveFile c d a b).1 = none)
    (hops : World.leavesMoveAlone a b { ctx := (MoveFile c d a b).2, disk := d } ops) :
    (GetRepoStructure (World.run { ctx := (MoveFile c d a b).2, disk := d } ops).ctx).count b
      = 1 ∧
    a ∉ GetRepoStructure (World.run { ctx := (MoveFile c d a b).2, disk := d } ops).ctx ∧
    (World.run { ctx := (MoveFile c d a b).2, disk := d } ops).ctx.movedFiles.lookup a
      = some b := by
  have hs : (MoveFile c d a b).2.CurrentRepoStructure = replaceFirst c.CurrentRepoStructure a b ∧
      (MoveFile c d a b).2.movedFiles = movedSet c.movedFiles a b := by
    rcases moveFile_staged c d a b with h | ⟨-, h1, h2⟩
    · rw [h] at hmove
      cases hmove
    · exact ⟨h1, h2⟩
  obtain ⟨h1, h2⟩ := replaceFirst_count c.CurrentRepoStructure a b hab ha hb
  refine run_keeps_move a b ops _ hops ?_ ?_ ?_
  · rw [hs.1]; exact h1
  · rw [hs.1]; exact h2
  · rw [hs.2]; exact lookup_movedSet _ _ _

/-- Witness of C14: the move of `a.txt` to `b.txt` in the two-file scene
followed by a read of the new name, a write of the new name (whose resolved
path the read has cached), a search, the move of the other file `z.txt` to
`y.txt` and a refused move of `b.txt`, which is not on disk. -/
theorem C14_move_lists_new_name_once_witness :
    (MoveFile twoFileWorld.ctx twoFileWorld.disk "z.txt" "y.txt").1 = none ∧
    (GetRepoStructure (World.run
      { ctx := (MoveFile twoFileWorld.ctx twoFileWorld.disk "a.txt" "b.txt").2,
        disk := twoFileWorld.disk }
      [.getFileContent "b.txt", .updateFileContent "b.txt" (GoString.ofString "new"),
       .searchCode "old", .moveFile "z.txt" "y.txt", .moveFile "b.txt" "c.txt"]).ctx).count "b.txt" = 1 ∧
    "a.txt" ∉ GetRepoStructure (World.run
      { ctx := (MoveFile twoFileWorld.ctx twoFileWorld.disk "a.txt" "b.txt").2,
        disk := twoFileWorld.disk }
      [.getFileContent "b.txt", .updateFileContent "b.txt" (GoString.ofString "new"),
       .searchCode "old", .moveFile "z.txt" "y.txt", .moveFile "b.txt" "c.txt"]).ctx ∧
    (World.run
      { ctx := (MoveFile twoFileWorld.ctx twoFileWorld.disk "a.txt" "b.txt").2,
        disk := twoFileWorld.disk }
      [.getFileContent "b.txt", .updateFileContent "b.txt" (GoString.ofString "new"),
       .searchCode "old", .moveFile "z.txt" "y.txt", .moveFile "b.txt" "c.txt"]).ctx.movedFiles.lookup "a.txt"
        = some "b.txt" :=
  ⟨by decide,
   C14_move_lists_new_name_once twoFileWorld.ctx twoFileWorld.disk "a.txt" "b.txt"
    [.getFileContent "b.txt", .updateFileContent "b.txt" (GoString.ofString "new"),
       .searchCode "old", .moveFile "z.txt" "y.txt", .moveFile "b.txt" "c.txt"]
    (by decide) (by decide) (by decide) (by decide)
    ⟨trivial, fun h => absurd h (by decide), trivial,
      Or.inr ⟨by decide, fun _ => ⟨by decide, by decide, by decide⟩⟩,
      Or.inl (by decide), trivial⟩⟩

theorem mem_replaceFirst_of_ne (l : List String) (a b p : String) (hp : p ≠ a)
    (hmem : p ∈ l) : p ∈ replaceFirst l a b := by
  induction l with
  | nil => cases hmem
  | cons x rest ih =>
    unfold replaceFirst
    by_cases hxa : x = a
    · rw [if_pos hxa]
      rcases List.mem_cons.mp hmem with h | h
      · exact absurd (h.trans hxa) hp
      · exact List.mem_cons_of_mem _ h
    · rw [if_neg hxa]
      rcases List.mem_cons.mp hmem with h | h
      · exact h ▸ List.mem_cons_self _ _
      · exact List.mem_cons_of_mem _ (ih h)

theorem lookup_filter_ne (l : List (String × Node)) (k name : String) (h : name ≠ k) :
    (l.filter fun e => e.1 ≠ k).lookup name = l.lookup name := by
  induction l with
  | nil => rfl
  | cons e rest ih =>
    obtain ⟨key, n⟩ := e
    by_cases hk : key = k
    · have hdrop : ((key, n) :: rest).filter (fun e => e.1 ≠ k) =
          rest.filter (fun e => e.1 ≠ k) := by
        rw [List.filter_cons_of_neg]
        simpa using hk
      have hne : (name == key) = false := by simpa [hk] using h
      rw [hdrop, ih]
      simp only [List.lookup, hne]
    · have hkeep : ((key, n) :: rest).filter (fun e => e.1 ≠ k) =
          (key, n) :: rest.filter (fun e => e.1 ≠ k) := by
        rw [List.filter_cons_of_pos]
        simpa using hk
      rw [hkeep]
      by_cases hnk : name = key
      · subst hnk
        simp [List.lookup]
      · have hne : (name == key) = false := by simpa using hnk
        simp only [List.lookup, hne]
        exact ih

theorem entry_put_of_ne (d : Disk) (k name : String) (n : Node) (h : name ≠ k) :
    (d.put k n).entry name = d.entry name := by
  unfold Disk.entry Disk.put
  dsimp only
  have hne : (name == k) = false := by simpa using h
  simp only [List.lookup, hne, lookup_filter_ne _ _ _ h]

theorem entry_put_self (d : Disk) (k : String) (n : Node) (h : isRootLike k = false) :
    (d.put k n).entry k = some n := by
  unfold Disk.entry Disk.put
  dsimp only
  simp [h, List.lookup]

theorem walk_congr (d1 d2 : Disk) (names : List String)
    (h : ∀ a ∈ names, d1.entry a = d2.entry a) : d1.walk names = d2.walk names := by
  induction names with
  | nil => rfl
  | cons a rest ih =>
    unfold Disk.walk
    rw [h a (List.mem_cons_self _ _), ih (fun b hb => h b (List.mem_cons_of_mem _ hb))]

theorem find_congr (d1 d2 : Disk) (name : String)
    (h : ∀ a ∈ ancestors name ++ [name], d1.entry a = d2.entry a) :
    d1.find name = d2.find name := by
  unfold Disk.find
  rw [walk_congr d1 d2 (ancestors name) (fun a ha => h a (List.mem_append_left _ ha)),
    h name (List.mem_append_right _ (List.mem_singleton_self _))]

theorem walk_none (d : Disk) (names : List String) (h : d.walk names = none) :
    ∀ a ∈ names, d.entry a = some .dir := by
  induction names with
  | nil => intro a ha; cases ha
  | cons b rest ih =>
    unfold Disk.walk at h
    intro a ha
    cases hb : d.entry b with
    | none => rw [hb] at h; cases h
    | some n =>
      cases n with
      | file data => rw [hb] at h; cases h
      | dir =>
        rw [hb] at h
        rcases List.mem_cons.mp ha with ha | ha
        · rw [ha]; exact hb
        · exact ih h a ha

theorem find_node (d : Disk) (name : String) (n : Node) (h : d.find name = .node n) :
    name ≠ "" ∧ d.walk (ancestors name) = none ∧ d.entry name = some n := by
  unfold Disk.find at h
  by_cases he : name = ""
  · rw [if_pos he] at h; cases h
  · rw [if_neg he] at h
    cases hw : d.walk (ancestors name) with
    | some f =>
      rw [hw] at h
      dsimp only at h
      subst h
      exfalso
      -- a walk never ends in a node
      have : ∀ names, d.walk names ≠ some (.node n) := by
        intro names
        induction names with
        | nil => simp [Disk.walk]
        | cons b rest ih =>
          unfold Disk.walk
          cases d.entry b with
          | none => simp
          | some m => cases m <;> simp [ih]
      exact this _ hw
    | none =>
      rw [hw] at h
      dsimp only at h
      cases hn : d.entry name with
      | none => rw [hn] at h; cases h
      | some m =>
        rw [hn] at h
        simp only [Found.node.injEq] at h
        exact ⟨he, rfl, by rw [h]⟩

theorem find_absent (d : Disk) (name : String) (h : d.find name = .absent) :
    name ≠ "" ∧ d.walk (ancestors name) = none ∧ d.entry name = none := by
  unfold Disk.find at h
  by_cases he : name = ""
  · rw [if_pos he] at h; cases h
  · rw [if_neg he] at h
    cases hw : d.walk (ancestors name) with
    | some f =>
      rw [hw] at h
      dsimp only at h
      subst h
      exfalso
      have : ∀ names, d.walk names ≠ some .absent := by
        intro names
        induction names with
        | nil => simp [Disk.walk]
        | cons b rest ih =>
          unfold Disk.walk
          cases d.entry b with
          | none => simp
          | some m => cases m <;> simp [ih]
      exact this _ hw
    | none =>
      rw [hw] at h
      dsimp only at h
      cases hn : d.entry name with
      | none => exact ⟨he, rfl, rfl⟩
      | some m => rw [hn] at h; cases h

theorem entry_rootLike (d : Disk) (name : String) (h : isRootLike name = true) :
    d.entry name = some .dir := by
  unfold Disk.entry
  rw [if_pos h]

/-- A successful `writeFile` puts a file under the name. -/
theorem writeFile_eq (d d1 : Disk) (name : String) (data : GoString)
    (h : d.writeFile name data = some d1) :
    d1 = d.put name (.file data) ∧ name ≠ "" ∧ d.walk (ancestors name) = none ∧
      (d.entry name = none ∨ ∃ old, d.entry name = some (.file old)) := by
  unfold Disk.writeFile at h
  cases hf : d.find name with
  | node n =>
    rw [hf] at h
    cases n with
    | file old =>
      simp only [Option.some.injEq] at h
      obtain ⟨h1, h2, h3⟩ := find_node d name _ hf
      exact ⟨h.symm, h1, h2, Or.inr ⟨old, h3⟩⟩
    | dir => cases h
  | absent =>
    rw [hf] at h
    simp only [Option.some.injEq] at h
    obtain ⟨h1, h2, h3⟩ := find_absent d name hf
    exact ⟨h.symm, h1, h2, Or.inl h3⟩
  | missing => rw [hf] at h; cases h
  | notDir => rw [hf] at h; cases h

theorem writeFile_same (d d1 : Disk) (name : String) (data : GoString)
    (h : d.writeFile name data = some d1) : d1.find name = .node (.file data) := by
  obtain ⟨hd, hne, hw, hentry⟩ := writeFile_eq d d1 name data h
  have hroot : isRootLike name = false := by
    cases hr : isRootLike name with
    | false => rfl
    | true =>
      have := entry_rootLike d name hr
      rcases hentry with h | ⟨old, h⟩ <;> rw [this] at h <;> cases h
  have hanc : ∀ a ∈ ancestors name, a ≠ name := by
    intro a ha heq
    have := walk_none d _ hw a ha
    rw [heq] at this
    rcases hentry with h | ⟨old, h⟩ <;> rw [this] at h <;> cases h
  subst hd
  unfold Disk.find
  rw [if_neg hne, walk_congr _ d (ancestors name)
    (fun a ha => entry_put_of_ne d name a _ (hanc a ha)), hw]
  dsimp only
  rw [entry_put_self d name _ hroot]

theorem writeFile_other (d d1 : Disk) (name other : String) (data x : GoString)
    (hfile : d.find name = .node (.file x)) (h : d.writeFile other data = some d1)
    (hne : other ≠ name) : d1.find name = .node (.file x) := by
  obtain ⟨hd, -, -, hentry⟩ := writeFile_eq d d1 other data h
  obtain ⟨-, hw, hn⟩ := find_node d name _ hfile
  subst hd
  rw [← hfile]
  apply find_congr
  intro a ha
  apply entry_put_of_ne
  rcases List.mem_append.mp ha with ha | ha
  · intro heq
    have := walk_none d _ hw a ha
    rw [heq] at this
    rcases hentry with h | ⟨old, h⟩ <;> rw [this] at h <;> cases h
  · rw [List.mem_singleton.mp ha]
    exact hne.symm

theorem writeFile_rootDir (d d1 : Disk) (name : String) (data : GoString)
    (h : d.writeFile name data = some d1) : d1.rootDir = d.rootDir := by
  rw [(writeFile_eq d d1 name data h).1]
  rfl

theorem mkdirs_keeps (names : List String) :
    ∀ (d d1 : Disk), d.mkdirs names = some d1 →
      d1.rootDir = d.rootDir ∧
      ∀ name x, d.find name = .node (.file x) → d1.find name = .node (.file x) := by
  induction names with
  | nil =>
    intro d d1 h
    unfold Disk.mkdirs at h
    cases h
    exact ⟨rfl, fun _ _ hf => hf⟩
  | cons a rest ih =>
    intro d d1 h
    unfold Disk.mkdirs at h
    cases ha : d.entry a with
    | some n =>
      rw [ha] at h
      cases n with
      | file data => cases h
      | dir => exact ih d d1 h
    | none =>
      rw [ha] at h
      dsimp only at h
      by_cases he : a = ""
      · rw [if_pos he] at h; cases h
      · rw [if_neg he] at h
        obtain ⟨h1, h2⟩ := ih _ d1 h
        refine ⟨h1, fun name x hf => h2 name x ?_⟩
        obtain ⟨-, hw, hn⟩ := find_node d name _ hf
        rw [← hf]
        apply find_congr
        intro b hb
        apply entry_put_of_ne
        intro heq
        rcases List.mem_append.mp hb with hb | hb
        · have := walk_none d _ hw b hb
          rw [heq, ha] at this
          cases this
        · rw [List.mem_singleton.mp hb] at heq
          rw [heq, ha] at hn
          cases hn

theorem mkdirAll_keeps (d d1 : Disk) (dir : String) (h : d.mkdirAll dir = some d1) :
    d1.rootDir = d.rootDir ∧
    ∀ name x, d.find name = .node (.file x) → d1.find name = .node (.file x) :=
  mkdirs_keeps _ d d1 h

theorem remove_rootDir (d d1 : Disk) (name : String) (h : d.remove name = .removed d1) :
    d1.rootDir = d.rootDir := by
  unfold Disk.remove at h
  split at h
  · cases h; rfl
  · split at h
    · cases h
    · cases h; rfl
  · cases h
  · cases h
  · cases h

theorem rename_rootDir (d d1 : Disk) (oldName newName : String)
    (h : d.rename oldName newName = some d1) : d1.rootDir = d.rootDir := by
  unfold Disk.rename at h
  split at h
  · cases h
  · split at h
    · split at h
      · simp only [Option.some.injEq] at h
        subst h
        split <;> rfl
      · cases h; rfl
      · cases h
    · split at h
      · cases h
      · split at h
        · split at h
          · cases h
          · cases h; rfl
        · cases h
    · cases h

theorem flushUpdates_at (cache : GoMap GoString) (root K : String) (x : GoString)
    (l : List String) :
    ∀ (d d1 : Disk), d.rootDir = root → flushUpdates cache l d = (none, d1) →
      (∀ q ∈ l, filepathJoin root q = K → (cache q).getD [] = x) →
      d1.rootDir = root ∧
      (((∃ q ∈ l, filepathJoin root q = K) ∨ d.find K = .node (.file x)) →
        d1.find K = .node (.file x)) := by
  induction l with
  | nil =>
    intro d d1 hroot h _
    unfold flushUpdates at h
    cases h
    refine ⟨hroot, fun hk => ?_⟩
    rcases hk with ⟨q, hq, -⟩ | hk
    · cases hq
    · exact hk
  | cons q rest ih =>
    intro d d1 hroot h hall
    unfold flushUpdates at h
    cases hw : d.writeFile (d.fullPath q) ((cache q).getD []) with
    | none => rw [hw] at h; cases h
    | some d2 =>
      rw [hw] at h
      dsimp only at h
      have hroot2 : d2.rootDir = root := (writeFile_rootDir _ _ _ _ hw).trans hroot
      obtain ⟨h1, h2⟩ := ih d2 d1 hroot2 h
        (fun q2 hq2 => hall q2 (List.mem_cons_of_mem _ hq2))
      refine ⟨h1, fun hk => h2 ?_⟩
      have hfull : d.fullPath q = filepathJoin root q := by
        unfold Disk.fullPath
        rw [hroot]
      by_cases hq : filepathJoin root q = K
      · right
        have hx := hall q (List.mem_cons_self _ _) hq
        rw [hfull, hq, hx] at hw
        exact writeFile_same _ _ _ _ hw
      · rcases hk with ⟨q2, hq2, hK⟩ | hk
        · rcases List.mem_cons.mp hq2 with heq | hmem
          · rw [heq] at hK
            exact absurd hK hq
          · exact Or.inl ⟨q2, hmem, hK⟩
        · right
          rw [hfull] at hw
          exact writeFile_other _ _ _ _ _ _ hk hw hq

theorem flushCreates_at (cache : GoMap GoString) (root K : String) (x : GoString)
    (l : List String) :
    ∀ (d d1 : Disk), d.rootDir = root → flushCreates cache l d = (none, d1) →
      (∀ q ∈ l, filepathJoin root q = K → (cache q).getD [] = x) →
      d1.rootDir = root ∧
      (((∃ q ∈ l, filepathJoin root q = K) ∨ d.find K = .node (.file x)) →
        d1.find K = .node (.file x)) := by
  induction l with
  | nil =>
    intro d d1 hroot h _
    unfold flushCreates at h
    cases h
    refine ⟨hroot, fun hk => ?_⟩
    rcases hk with ⟨q, hq, -⟩ | hk
    · cases hq
    · exact hk
  | cons q rest ih =>
    intro d d1 hroot h hall
    unfold flushCreates at h
    cases hm : d.mkdirAll (filepathDir (d.fullPath q)) with
    | none => rw [hm] at h; cases h
    | some d0 =>
      rw [hm] at h
      dsimp only at h
      obtain ⟨hroot0, hkeep⟩ := mkdirAll_keeps _ _ _ hm
      have hroot0' : d0.rootDir = root := hroot0.trans hroot
      cases hw : d0.writeFile (d0.fullPath q) ((cache q).getD []) with
      | none => rw [hw] at h; cases h
      | some d2 =>
        rw [hw] at h
        dsimp only at h
        have hroot2 : d2.rootDir = root := (writeFile_rootDir _ _ _ _ hw).trans hroot0'
        obtain ⟨h1, h2⟩ := ih d2 d1 hroot2 h
          (fun q2 hq2 => hall q2 (List.mem_cons_of_mem _ hq2))
        refine ⟨h1, fun hk => h2 ?_⟩
        have hfull : d0.fullPath q = filepathJoin root q := by
          unfold Disk.fullPath
          rw [hroot0']
        by_cases hq : filepathJoin root q = K
        · right
          have hx := hall q (List.mem_cons_self _ _) hq
          rw [hfull, hq, hx] at hw
          exact writeFile_same _ _ _ _ hw
        · rcases hk with ⟨q2, hq2, hK⟩ | hk
          · rcases List.mem_cons.mp hq2 with heq | hmem
            · rw [heq] at hK
              exact absurd hK hq
            · exact Or.inl ⟨q2, hmem, hK⟩
          · right
            rw [hfull] at hw
            exact writeFile_other _ _ _ _ _ _ (hkeep K x hk) hw hq

theorem flushDeletes_state (l : List String) :
    ∀ (c c0 : LocalProgrammingAgentContext) (d d0 : Disk),
      flushDeletes l c d = (none, c0, d0) →
      d0.rootDir = d.rootDir ∧ c0.newFiles = c.newFiles ∧ c0.updatedFiles = c.updatedFiles ∧
      c0.deletedFiles = c.deletedFiles ∧
      ∀ k, k ∉ l → c0.currentFileContents k = c.currentFileContents k := by
  induction l with
  | nil =>
    intro c c0 d d0 h
    unfold flushDeletes at h
    cases h
    exact ⟨rfl, rfl, rfl, rfl, fun _ _ => rfl⟩
  | cons f rest ih =>
    intro c c0 d d0 h
    unfold flushDeletes at h
    cases hr : d.remove (d.fullPath f) with
    | notExist =>
      rw [hr] at h
      obtain ⟨h1, h2, h3, h4, h5⟩ := ih c c0 d d0 h
      exact ⟨h1, h2, h3, h4, fun k hk => h5 k (fun hm => hk (List.mem_cons_of_mem _ hm))⟩
    | failed => rw [hr] at h; cases h
    | removed d2 =>
      rw [hr] at h
      dsimp only at h
      obtain ⟨h1, h2, h3, h4, h5⟩ := ih _ c0 d2 d0 h
      refine ⟨h1.trans (remove_rootDir _ _ _ hr), h2, h3, h4, fun k hk => ?_⟩
      rw [h5 k (fun hm => hk (List.mem_cons_of_mem _ hm))]
      have hkf : k ≠ f := fun he => hk (he ▸ List.mem_cons_self _ _)
      simp [removeFileFromContext, GoMap.delete, hkf]

theorem mem_replaceFirst_self (l : List String) (o n : String) (h : o ∈ l) :
    n ∈ replaceFirst l o n := by
  induction l with
  | nil => cases h
  | cons y rest ih =>
    unfold replaceFirst
    by_cases hyo : y = o
    · rw [if_pos hyo]
      exact List.mem_cons_self _ _
    · rw [if_neg hyo]
      rcases List.mem_cons.mp h with h | h
      · exact absurd h.symm hyo
      · exact List.mem_cons_of_mem _ (ih h)

theorem mem_lists_keep (l1 l2 : List String) (o n k : String) (hk : k ≠ o)
    (h : k ∈ l1 ++ l2) : k ∈ replaceFirst l1 o n ++ replaceFirst l2 o n := by
  rcases List.mem_append.mp h with h | h
  · exact List.mem_append_left _ (mem_replaceFirst_of_ne _ _ _ _ hk h)
  · exact List.mem_append_right _ (mem_replaceFirst_of_ne _ _ _ _ hk h)

theorem mem_lists_self (l1 l2 : List String) (o n : String) (h : o ∈ l1 ++ l2) :
    n ∈ replaceFirst l1 o n ++ replaceFirst l2 o n := by
  rcases List.mem_append.mp h with h | h
  · exact List.mem_append_left _ (mem_replaceFirst_self _ _ _ h)
  · exact List.mem_append_right _ (mem_replaceFirst_self _ _ _ h)

theorem mem_lists_of (l1 l2 : List String) (o n q : String)
    (h : q ∈ replaceFirst l1 o n ++ replaceFirst l2 o n) : q ∈ l1 ++ l2 ∨ q = n := by
  rcases List.mem_append.mp h with h | h
  · rcases mem_of_mem_replaceFirst _ _ _ _ h with h | h
    · exact Or.inl (List.mem_append_left _ h)
    · exact Or.inr h
  · rcases mem_of_mem_replaceFirst _ _ _ _ h with h | h
    · exact Or.inl (List.mem_append_right _ h)
    · exact Or.inr h

theorem updateFilePaths_cache_other (c : LocalProgrammingAgentContext) (o n k : String)
    (hko : k ≠ o) (hkn : k ≠ n) :
    (updateFilePathsInContext c o n).currentFileContents k = c.currentFileContents k := by
  unfold updateFilePathsInContext
  dsimp only
  cases c.currentFileContents o with
  | none => rfl
  | some content => simp [GoMap.delete, GoMap.set, hko, hkn]

theorem updateFilePaths_cache_moved (c : LocalProgrammingAgentContext) (o n : String)
    (x : GoString) (hne : o ≠ n) (h : c.currentFileContents o = some x) :
    (updateFilePathsInContext c o n).currentFileContents n = some x ∧
    (updateFilePathsInContext c o n).currentFileContents o = none := by
  unfold updateFilePathsInContext
  dsimp only
  rw [h]
  simp [GoMap.delete, GoMap.set, hne, Ne.symm hne]

theorem updateFilePaths_cache_idle (c : LocalProgrammingAgentContext) (o n : String)
    (h : c.currentFileContents o = none) :
    (updateFilePathsInContext c o n).currentFileContents = c.currentFileContents := by
  unfold updateFilePathsInContext
  dsimp only
  rw [h]

/-- The second loop of the flush keeps track of the content `x` staged for the
path `p`: it stays in the cache under `p`, or, while the move of `r` to `p` has
not been visited, under `r`. -/
theorem flushMoves_track (r p root K : String) (x : GoString)
    (order : List (String × String)) :
    ∀ (c c1 : LocalProgrammingAgentContext) (d d1 : Disk),
      flushMoves order c d = (none, c1, d1) → d.rootDir = root → r ∉ c.deletedFiles →
      (∀ e ∈ order, (e = (r, p) ∧ r ≠ p) ∨
        (e.1 ≠ r ∧ e.1 ≠ p ∧ e.2 ≠ r ∧ e.2 ≠ p ∧ filepathJoin root e.2 ≠ K)) →
      (∀ q ∈ c.newFiles ++ c.updatedFiles, filepathJoin root q = K → q = p) →
      d1.rootDir = root ∧
      (∀ q ∈ c1.newFiles ++ c1.updatedFiles, filepathJoin root q = K → q = p) ∧
      ((c.currentFileContents p = some x ∧ p ∈ c.newFiles ++ c.updatedFiles ∧
          (r ≠ p → c.currentFileContents r = none)) →
        c1.currentFileContents p = some x ∧ p ∈ c1.newFiles ++ c1.updatedFiles) ∧
      ((r ≠ p ∧ c.currentFileContents r = some x ∧ r ∈ c.newFiles ++ c.updatedFiles) →
        (r, p) ∈ order →
        c1.currentFileContents p = some x ∧ p ∈ c1.newFiles ++ c1.updatedFiles) := by
  induction order with
  | nil =>
    intro c c1 d d1 h hroot _ _ hS
    unfold flushMoves at h
    cases h
    exact ⟨hroot, hS, fun hB => ⟨hB.1, hB.2.1⟩, fun _ hmem => by cases hmem⟩
  | cons e rest ih =>
    intro c c1 d d1 h hroot hdel hall hS
    obtain ⟨o, n⟩ := e
    have hrest : ∀ e ∈ rest, (e = (r, p) ∧ r ≠ p) ∨
        (e.1 ≠ r ∧ e.1 ≠ p ∧ e.2 ≠ r ∧ e.2 ≠ p ∧ filepathJoin root e.2 ≠ K) :=
      fun e he => hall e (List.mem_cons_of_mem _ he)
    unfold flushMoves at h
    by_cases hskip : o ∈ c.deletedFiles
    · rw [if_pos hskip] at h
      obtain ⟨h1, h2, h3, h4⟩ := ih c c1 d d1 h hroot hdel hrest hS
      refine ⟨h1, h2, h3, fun hA hmem => h4 hA ?_⟩
      rcases List.mem_cons.mp hmem with heq | hmem
      · simp only [Prod.mk.injEq] at heq
        rw [← heq.1] at hskip
        exact absurd hskip hdel
      · exact hmem
    · rw [if_neg hskip] at h
      cases hm : d.mkdirAll (filepathDir (d.fullPath n)) with
      | none => rw [hm] at h; cases h
      | some d2 =>
        rw [hm] at h
        dsimp only at h
        cases hr : d2.rename (d2.fullPath o) (d2.fullPath n) with
        | none => rw [hr] at h; cases h
        | some d3 =>
          rw [hr] at h
          dsimp only at h
          have hroot3 : d3.rootDir = root :=
            ((rename_rootDir _ _ _ _ hr).trans (mkdirAll_keeps _ _ _ hm).1).trans hroot
          have hS2 : ∀ q ∈ (updateFilePathsInContext c o n).newFiles ++
              (updateFilePathsInContext c o n).updatedFiles,
              filepathJoin root q = K → q = p := by
            intro q hq hK
            rcases mem_lists_of _ _ _ _ _ hq with hq | hq
            · exact hS q hq hK
            · rcases hall (o, n) (List.mem_cons_self _ _) with ⟨heq, -⟩ | ⟨-, -, -, -, hne⟩
              · simp only [Prod.mk.injEq] at heq
                rw [hq, heq.2]
              · rw [hq] at hK
                exact absurd hK hne
          obtain ⟨h1, h2, h3, h4⟩ := ih (updateFilePathsInContext c o n) c1 d3 d1 h hroot3
            hdel hrest hS2
          refine ⟨h1, h2, ?_, ?_⟩
          · rintro ⟨hcp, hmp, hcr⟩
            apply h3
            rcases hall (o, n) (List.mem_cons_self _ _) with ⟨heq, hne⟩ | ⟨hor, hop, hnr, hnp, -⟩
            · simp only [Prod.mk.injEq] at heq
              obtain ⟨ho, hn⟩ := heq
              subst ho hn
              rw [updateFilePaths_cache_idle c o n (hcr hne)]
              exact ⟨hcp, mem_lists_keep _ _ _ _ _ (Ne.symm hne) hmp, hcr⟩
            · dsimp only at hor hop hnr hnp
              refine ⟨?_, mem_lists_keep _ _ _ _ _ (Ne.symm hop) hmp, fun hne => ?_⟩
              · rw [updateFilePaths_cache_other c o n p (Ne.symm hop) (Ne.symm hnp)]
                exact hcp
              · rw [updateFilePaths_cache_other c o n r (Ne.symm hor) (Ne.symm hnr)]
                exact hcr hne
          · rintro ⟨hne, hcr, hmr⟩ hmem
            rcases hall (o, n) (List.mem_cons_self _ _) with ⟨heq, -⟩ | ⟨hor, hop, hnr, hnp, -⟩
            · simp only [Prod.mk.injEq] at heq
              obtain ⟨ho, hn⟩ := heq
              subst ho hn
              obtain ⟨hc1, hc2⟩ := updateFilePaths_cache_moved c o n x hne hcr
              exact h3 ⟨hc1, mem_lists_self _ _ _ _ hmr, fun _ => hc2⟩
            · dsimp only at hor hop hnr hnp
              apply h4
              · refine ⟨hne, ?_, mem_lists_keep _ _ _ _ _ (Ne.symm hor) hmr⟩
                rw [updateFilePaths_cache_other c o n r (Ne.symm hor) (Ne.symm hnr)]
                exact hcr
              · rcases List.mem_cons.mp hmem with heq | hmem
                · simp only [Prod.mk.injEq] at heq
                  exact absurd heq.1.symm hor
                · exact hmem

theorem updateFileContent_facts (c : LocalProgrammingAgentContext) (p : String)
    (x : GoString) :
    (UpdateFileContent c p x).deletedFiles = c.deletedFiles ∧
    (UpdateFileContent c p x).fileAliases = c.fileAliases ∧
    (UpdateFileContent c p x).currentFileContents (resolveAlias c p) = some x ∧
    resolveAlias c p ∈ (UpdateFileContent c p x).newFiles ++
      (UpdateFileContent c p x).updatedFiles ∧
    (∀ q ∈ (UpdateFileContent c p x).newFiles ++ (UpdateFileContent c p x).updatedFiles,
      q ∈ c.newFiles ∨ q ∈ c.updatedFiles ∨ q = resolveAlias c p) ∧
    (∀ q ∈ c.CurrentRepoStructure, q ∈ (UpdateFileContent c p x).CurrentRepoStructure) ∧
    (c.currentFileContents (resolveAlias c p) = none →
      resolveAlias c p ∈ (UpdateFileContent c p x).CurrentRepoStructure) := by
  unfold UpdateFileContent
  dsimp only
  cases c.currentFileContents (resolveAlias c p) with
  | none =>
    dsimp only
    refine ⟨rfl, rfl, by simp [GoMap.set], by simp, ?_, ?_, ?_⟩
    · intro q hq
      simp only [List.append_assoc, List.mem_append, List.mem_singleton] at hq
      rcases hq with hq | hq | hq
      · exact Or.inl hq
      · exact Or.inr (Or.inr hq)
      · exact Or.inr (Or.inl hq)
    · intro q hq
      exact List.mem_append_left _ hq
    · intro _
      simp
  | some old =>
    dsimp only
    refine ⟨rfl, rfl, by simp [GoMap.set], by simp, ?_, fun q hq => hq, ?_⟩
    · intro q hq
      simp only [List.mem_append, List.mem_singleton] at hq
      rcases hq with hq | hq | hq
      · exact Or.inl hq
      · exact Or.inr (Or.inl hq)
      · exact Or.inr (Or.inr hq)
    · intro h
      cases h

/-- C11, as stated, fails. In the one-file scene, after the move of `a.txt`
to `b.txt` and `Delete("a.txt")`, the path `b.txt` is not staged for deletion,
not on disk and not in the cache, yet after `UpdateFileContent("b.txt",
"hello")` the read of `b.txt` returns ("The file has been deleted.", false).
After two writes of the new file `x.txt`, its other spelling `./x.txt` meets
the conditions, and after `UpdateFileContent("./x.txt", "hello")` the
successful flush leaves the file with the content "two". With `a.txt` on disk
but not listed, after its move to `b.txt` the write of `b.txt` lists `a.txt`,
not `b.txt`. And after the moves of `a.txt` to `b.txt` and then to `c.txt`,
the write of `b.txt` is flushed to `c.txt`: no file is at `b.txt`. Last, in
the two-file scene, after the move of `z.txt` to `p.txt`, a read of `z.txt`
and the move of `a.txt` to `p.txt`, the write of `p.txt` is followed by a
successful flush that, visiting the move of `a.txt` first, leaves `p.txt` with
the content of `z.txt`. -/
theorem C11_write_to_alias_of_deleted_reads_deleted :
    ("b.txt" ∉ (freshWorld.run [.moveFile "a.txt" "b.txt", .delete "a.txt"]).ctx.deletedFiles ∧
      oneFileDisk "b.txt" = none ∧
      (freshWorld.run [.moveFile "a.txt" "b.txt", .delete "a.txt"]).ctx.currentFileContents
        "b.txt" = none ∧
      (GetFileContent (freshWorld.run [.moveFile "a.txt" "b.txt", .delete "a.txt",
        .updateFileContent "b.txt" (GoString.ofString "hello")]).ctx oneFileDisk "b.txt").1
        = (deletedMessage, false)) ∧
    ("./x.txt" ∉ (freshWorld.run [.updateFileContent "x.txt" (GoString.ofString "one"),
        .updateFileContent "x.txt" (GoString.ofString "two")]).ctx.deletedFiles ∧
      oneFileDisk "./x.txt" = none ∧
      (freshWorld.run [.updateFileContent "x.txt" (GoString.ofString "one"),
        .updateFileContent "x.txt" (GoString.ofString "two")]).ctx.currentFileContents
        "./x.txt" = none ∧
      (FlushChanges (freshWorld.run [.updateFileContent "x.txt" (GoString.ofString "one"),
        .updateFileContent "x.txt" (GoString.ofString "two"),
        .updateFileContent "./x.txt" (GoString.ofString "hello")]).ctx oneFileDisk).1 = none ∧
      (FlushChanges (freshWorld.run [.updateFileContent "x.txt" (GoString.ofString "one"),
        .updateFileContent "x.txt" (GoString.ofString "two"),
        .updateFileContent "./x.txt" (GoString.ofString "hello")]).ctx oneFileDisk).2.2
        "./x.txt" = some (GoString.ofString "two")) ∧
    ("b.txt" ∉ (untrackedWorld.run [.moveFile "a.txt" "b.txt"]).ctx.deletedFiles ∧
      "a.txt" ∉ (untrackedWorld.run [.moveFile "a.txt" "b.txt"]).ctx.deletedFiles ∧
      (untrackedWorld.run [.moveFile "a.txt" "b.txt"]).ctx.currentFileContents "b.txt"
        = none ∧
      "b.txt" ∉ GetRepoStructure (untrackedWorld.run [.moveFile "a.txt" "b.txt",
        .updateFileContent "b.txt" (GoString.ofString "hello")]).ctx) ∧
    ("b.txt" ∉ (freshWorld.run [.moveFile "a.txt" "b.txt",
        .moveFile "a.txt" "c.txt"]).ctx.deletedFiles ∧
      "a.txt" ∉ (freshWorld.run [.moveFile "a.txt" "b.txt",
        .moveFile "a.txt" "c.txt"]).ctx.deletedFiles ∧
      (freshWorld.run [.moveFile "a.txt" "b.txt",
        .moveFile "a.txt" "c.txt"]).ctx.currentFileContents "b.txt" = none ∧
      (FlushChanges (freshWorld.run [.moveFile "a.txt" "b.txt", .moveFile "a.txt" "c.txt",
        .updateFileContent "b.txt" (GoString.ofString "hello")]).ctx oneFileDisk).1 = none ∧
      (FlushChanges (freshWorld.run [.moveFile "a.txt" "b.txt", .moveFile "a.txt" "c.txt",
        .updateFileContent "b.txt" (GoString.ofString "hello")]).ctx oneFileDisk).2.2
        "b.txt" = none) ∧
    ("p.txt" ∉ (twoFileWorld.run [.moveFile "z.txt" "p.txt", .getFileContent "z.txt",
        .moveFile "a.txt" "p.txt"]).ctx.deletedFiles ∧
      "a.txt" ∉ (twoFileWorld.run [.moveFile "z.txt" "p.txt", .getFileContent "z.txt",
        .moveFile "a.txt" "p.txt"]).ctx.deletedFiles ∧
      resolveAlias (twoFileWorld.run [.moveFile "z.txt" "p.txt", .getFileContent "z.txt",
        .moveFile "a.txt" "p.txt"]).ctx "p.txt" = "a.txt" ∧
      twoFileWorld.disk "p.txt" = none ∧
      (twoFileWorld.run [.moveFile "z.txt" "p.txt", .getFileContent "z.txt",
        .moveFile "a.txt" "p.txt"]).ctx.currentFileContents "p.txt" = none ∧
      "p.txt" ∈ (twoFileWorld.run [.moveFile "z.txt" "p.txt", .getFileContent "z.txt",
        .moveFile "a.txt" "p.txt"]).ctx.CurrentRepoStructure ∧
      (twoFileWorld.run [.moveFile "z.txt" "p.txt", .getFileContent "z.txt",
        .moveFile "a.txt" "p.txt",
        .updateFileContent "p.txt" (GoString.ofString "hello")]).ctx.movedFiles = [("z.txt", "p.txt"), ("a.txt", "p.txt")] ∧
      (FlushChangesIn [("a.txt", "p.txt"), ("z.txt", "p.txt")] (twoFileWorld.run [.moveFile "z.txt" "p.txt", .getFileContent "z.txt",
        .moveFile "a.txt" "p.txt",
        .updateFileContent "p.txt" (GoString.ofString "hello")]).ctx twoFileWorld.disk).1
        = none ∧
      (FlushChangesIn [("a.txt", "p.txt"), ("z.txt", "p.txt")] (twoFileWorld.run [.moveFile "z.txt" "p.txt", .getFileContent "z.txt",
        .moveFile "a.txt" "p.txt",
        .updateFileContent "p.txt" (GoString.ofString "hello")]).ctx twoFileWorld.disk).2.2
        "p.txt" = twoFileWorld.disk "z.txt" ∧
      twoFileWorld.disk "z.txt" ≠ some (GoString.ofString "hello")) := by
  refine ⟨by decide, ⟨by decide, by decide, by decide, by decide, by decide⟩,
    by decide, ⟨by decide, by decide, by decide, by decide, by decide⟩,
    ⟨by decide, by decide, by decide, by decide, by decide, by decide, by decide,
      by decide, by decide, by decide⟩⟩

/-- C11, amended: let neither `p` nor the path `p` resolves to through the
alias map be staged for deletion, let `p` be neither on disk nor in the
cache, and, if `p` is an alias, let the structure list `p`. After
`UpdateFileContent(p, x)`, `GetRepoStructure()` contains `p` and
`GetFileContent(p)` returns `(x, true)`. If moreover the only staged move
that involves `p` or the path it resolves to is the move of that path to `p`
(staged when `p` is an alias), and no other name staged for a write or as the
new name of a move is another spelling of the file of `p`, then after a
successful `FlushChanges`, in whatever order it visits the staged moves, the
file at `p` exists on disk with content exactly `x`. -/
theorem C11_new_file_write_then_flush (c : LocalProgrammingAgentContext) (d : Disk)
    (p : String) (x : GoString)
    (hdel : p ∉ c.deletedFiles ∧ resolveAlias c p ∉ c.deletedFiles)
    (hnew : d p = none ∧ c.currentFileContents p = none)
    (hlisted : resolveAlias c p ≠ p → p ∈ c.CurrentRepoStructure) :
    p ∈ GetRepoStructure (UpdateFileContent c p x) ∧
    (GetFileContent (UpdateFileContent c p x) d p).1 = (x, true) ∧
    ∀ order, order.Perm c.movedFiles →
      (resolveAlias c p ≠ p → (resolveAlias c p, p) ∈ c.movedFiles) →
      (∀ e ∈ c.movedFiles, (e = (resolveAlias c p, p) ∧ resolveAlias c p ≠ p) ∨
        (e.1 ≠ resolveAlias c p ∧ e.1 ≠ p ∧ e.2 ≠ resolveAlias c p ∧ e.2 ≠ p)) →
      (∀ q, (q ∈ c.newFiles ∨ q ∈ c.updatedFiles ∨ q = resolveAlias c p ∨
          ∃ o, (o, q) ∈ c.movedFiles) → q ≠ p → d.fullPath q ≠ d.fullPath p) →
      (FlushChangesIn order (UpdateFileContent c p x) d).1 = none →
      (FlushChangesIn order (UpdateFileContent c p x) d).2.2 p = some x := by
  obtain ⟨hd1, ha1, hc1, hm1, hl1, hs1, hs2⟩ := updateFileContent_facts c p x
  have hres : resolveAlias (UpdateFileContent c p x) p = resolveAlias c p := by
    unfold resolveAlias
    rw [ha1]
  refine ⟨?_, ?_, ?_⟩
  · unfold GetRepoStructure
    by_cases hr : resolveAlias c p = p
    · have := hs2 (by rw [hr]; exact hnew.2)
      rw [hr] at this
      exact this
    · exact hs1 p (hlisted hr)
  · unfold GetFileContent
    dsimp only
    rw [hres, hd1, if_neg hdel.2, hc1]
  · intro order hperm halias hmoves hspell hsucc
    obtain ⟨c0, d0, c2, d1, d2, d3, hdels, hmvs, hcr, hup, heq⟩ := flushChangesIn_success hsucc
    rw [heq]
    dsimp only
    obtain ⟨hroot0, hn0, hu0, hdl0, hcache0⟩ := flushDeletes_state _ _ _ _ _ hdels
    rw [hd1] at hcache0 hdl0
    have hS0 : ∀ q ∈ c0.newFiles ++ c0.updatedFiles,
        filepathJoin d.rootDir q = filepathJoin d.rootDir p → q = p := by
      intro q hq hK
      rw [hn0, hu0] at hq
      by_contra hne
      have hq2 : q ∈ c.newFiles ∨ q ∈ c.updatedFiles ∨ q = resolveAlias c p ∨
          ∃ o, (o, q) ∈ c.movedFiles := by
        rcases hl1 q hq with h | h | h
        · exact Or.inl h
        · exact Or.inr (Or.inl h)
        · exact Or.inr (Or.inr (Or.inl h))
      exact hspell q hq2 hne hK
    have hall : ∀ e ∈ order, (e = (resolveAlias c p, p) ∧ resolveAlias c p ≠ p) ∨
        (e.1 ≠ resolveAlias c p ∧ e.1 ≠ p ∧ e.2 ≠ resolveAlias c p ∧ e.2 ≠ p ∧
          filepathJoin d.rootDir e.2 ≠ filepathJoin d.rootDir p) := by
      intro e he
      have hmem : e ∈ c.movedFiles := hperm.mem_iff.mp he
      rcases hmoves e hmem with h | ⟨h1, h2, h3, h4⟩
      · exact Or.inl h
      · exact Or.inr ⟨h1, h2, h3, h4,
          hspell e.2 (Or.inr (Or.inr (Or.inr ⟨e.1, hmem⟩))) h4⟩
    have hc0r : c0.currentFileContents (resolveAlias c p) = some x := by
      rw [hcache0 _ hdel.2]
      exact hc1
    have hm0r : resolveAlias c p ∈ c0.newFiles ++ c0.updatedFiles := by
      rw [hn0, hu0]
      exact hm1
    obtain ⟨hroot1, hS1, hB, hA⟩ := flushMoves_track (resolveAlias c p) p d.rootDir
      (filepathJoin d.rootDir p) x order c0 c2 d0 d1 hmvs hroot0
      (by rw [hdl0]; exact hdel.2) hall hS0
    have hfinal : c2.currentFileContents p = some x ∧ p ∈ c2.newFiles ++ c2.updatedFiles := by
      by_cases hr : resolveAlias c p = p
      · rw [hr] at hc0r hm0r
        exact hB ⟨hc0r, hm0r, fun hne => absurd hr hne⟩
      · exact hA ⟨hr, hc0r, hm0r⟩ (hperm.mem_iff.mpr (halias hr))
    obtain ⟨hcp, hmp⟩ := hfinal
    have hcontent : ∀ l : List String, (∀ q ∈ l, q ∈ c2.newFiles ++ c2.updatedFiles) →
        ∀ q ∈ l, filepathJoin d.rootDir q = filepathJoin d.rootDir p →
          (c2.currentFileContents q).getD [] = x := by
      intro l hl q hq hK
      rw [hS1 q (hl q hq) hK, hcp]
      rfl
    obtain ⟨hroot2, hkeep2⟩ := flushCreates_at c2.currentFileContents d.rootDir
      (filepathJoin d.rootDir p) x c2.newFiles d1 d2 hroot1 hcr
      (hcontent _ (fun q hq => List.mem_append_left _ hq))
    obtain ⟨hroot3, hkeep3⟩ := flushUpdates_at c2.currentFileContents d.rootDir
      (filepathJoin d.rootDir p) x c2.updatedFiles d2 d3 hroot2 hup
      (hcontent _ (fun q hq => List.mem_append_right _ hq))
    have hfound : d3.find (filepathJoin d.rootDir p) = .node (.file x) := by
      apply hkeep3
      rcases List.mem_append.mp hmp with h | h
      · exact Or.inr (hkeep2 (Or.inl ⟨p, h, rfl⟩))
      · exact Or.inl ⟨p, h, rfl⟩
    show d3.readFile (d3.fullPath p) = some x
    unfold Disk.readFile Disk.fullPath
    rw [hroot3, hfound]

/-- Witness of C11: the new file `x.txt` with content "hello" in the one-file
scene, flushed with no staged move; and, after the move of `a.txt` to
`b.txt`, the write of the alias `b.txt`, flushed with that move. -/
theorem C11_new_file_write_then_flush_witness :
    ("x.txt" ∉ freshWorld.ctx.deletedFiles ∧ oneFileDisk "x.txt" = none ∧
      freshWorld.ctx.currentFileContents "x.txt" = none ∧
      (FlushChangesIn []
        (UpdateFileContent freshWorld.ctx "x.txt" (GoString.ofString "hello")) oneFileDisk).1
        = none ∧
      (FlushChangesIn []
        (UpdateFileContent freshWorld.ctx "x.txt" (GoString.ofString "hello")) oneFileDisk).2.2
        "x.txt" = some (GoString.ofString "hello")) ∧
    (resolveAlias (freshWorld.run [.moveFile "a.txt" "b.txt"]).ctx "b.txt" = "a.txt" ∧
      (FlushChangesIn [("a.txt", "b.txt")]
        (UpdateFileContent (freshWorld.run [.moveFile "a.txt" "b.txt"]).ctx "b.txt"
          (GoString.ofString "hello")) oneFileDisk).2.2 "b.txt"
        = some (GoString.ofString "hello")) :=
  ⟨⟨by decide, by decide, by decide, by decide,
    (C11_new_file_write_then_flush freshWorld.ctx oneFileDisk "x.txt"
      (GoString.ofString "hello") (by decide) (by decide) (by decide)).2.2 []
      (List.Perm.refl _) (by decide) (by decide)
      (by
        intro q hq
        rcases hq with hq | hq | hq | ⟨o, hq⟩
        · cases hq
        · cases hq
        · exact fun hne => absurd hq hne
        · cases hq)
      (by decide)⟩,
   ⟨by decide,
    (C11_new_file_write_then_flush (freshWorld.run [.moveFile "a.txt" "b.txt"]).ctx
      oneFileDisk "b.txt" (GoString.ofString "hello") (by decide) (by decide)
      (by decide)).2.2 [("a.txt", "b.txt")] (List.Perm.refl _) (by decide) (by decide)
      (by
        intro q hq hne
        rcases hq with hq | hq | hq | ⟨o, hq⟩
        · cases hq
        · cases hq
        · subst hq
          decide
        · have hq2 : (o, q) ∈ [("a.txt", "b.txt")] := hq
          simp only [List.mem_singleton, Prod.mk.injEq] at hq2
          exact absurd hq2.2 hne)
      (by decide)⟩⟩

end GoAgent

/-! ## Theorems: moves, reads and searches before a flush -/

namespace GoAgent

/-- C28: in the one-file scene, after four writes of `a.txt` the successful
`MoveFile("a.txt", "b.txt")` rewrites one occurrence in `updatedFiles`: the
path `a.txt` still occurs there twice (the cache entry did move to `b.txt`),
and the following successful flush writes a file at `a.txt`. -/
theorem C28_move_rewrites_first_occurrence_only :
    (freshWorld.run fourUpdates).ctx.updatedFiles = ["a.txt", "a.txt", "a.txt"] ∧
    (MoveFile (freshWorld.run fourUpdates).ctx oneFileDisk "a.txt" "b.txt").1 = none ∧
    (freshWorld.run (fourUpdates ++ [.moveFile "a.txt" "b.txt"])).ctx.updatedFiles
      = ["b.txt", "a.txt", "a.txt"] ∧
    (freshWorld.run (fourUpdates ++ [.moveFile "a.txt" "b.txt"])).ctx.newFiles = ["b.txt"] ∧
    (freshWorld.run (fourUpdates ++ [.moveFile "a.txt" "b.txt"])).ctx.currentFileContents
      "a.txt" = none ∧
    (freshWorld.run (fourUpdates ++ [.moveFile "a.txt" "b.txt"])).ctx.currentFileContents
      "b.txt" = some (GoString.ofString "v4") ∧
    (FlushChanges (freshWorld.run (fourUpdates ++ [.moveFile "a.txt" "b.txt"])).ctx
      oneFileDisk).1 = none ∧
    (FlushChanges (freshWorld.run (fourUpdates ++ [.moveFile "a.txt" "b.txt"])).ctx
      oneFileDisk).2.2 "a.txt" = some [] := by
  decide

/-- C29: in the one-file scene (`a.txt` holds "old"), after
`UpdateFileContent("a.txt", "new")` and `MoveFile("a.txt", "b.txt")` the flush
succeeds and writes "new" to `b.txt`; with one `GetFileContent("b.txt")`
inserted between the move and the flush, the flush succeeds and leaves "old"
at `b.txt`: the staged content is lost because of the read. -/
theorem C29_read_between_move_and_flush_loses_update :
    (FlushChanges (freshWorld.run [.updateFileContent "a.txt" (GoString.ofString "new"),
      .moveFile "a.txt" "b.txt"]).ctx oneFileDisk).1 = none ∧
    (FlushChanges (freshWorld.run [.updateFileContent "a.txt" (GoString.ofString "new"),
      .moveFile "a.txt" "b.txt"]).ctx oneFileDisk).2.2 "b.txt"
      = some (GoString.ofString "new") ∧
    (FlushChanges (freshWorld.run [.updateFileContent "a.txt" (GoString.ofString "new"),
      .moveFile "a.txt" "b.txt", .getFileContent "b.txt"]).ctx oneFileDisk).1 = none ∧
    (FlushChanges (freshWorld.run [.updateFileContent "a.txt" (GoString.ofString "new"),
      .moveFile "a.txt" "b.txt", .getFileContent "b.txt"]).ctx oneFileDisk).2.2 "b.txt"
      = some (GoString.ofString "old") := by
  decide

end GoAgent

/-! ## Theorems: `ExtractCodeBlock` -/

namespace GoAgent

theorem starts_append_space (pat t R : GoString) (hp : ∀ x ∈ pat, x.isSpace = false)
    (hR : ∀ x ∈ R, x.isSpace = true) : pat <+: t ++ R ↔ pat <+: t := by
  induction pat generalizing t with
  | nil => simp
  | cons p ps ih =>
    have hps : ∀ x ∈ ps, x.isSpace = false := fun x hx => hp x (List.mem_cons_of_mem _ hx)
    have hpp : p.isSpace = false := hp p (List.mem_cons_self _ _)
    cases t with
    | nil =>
      cases R with
      | nil => simp
      | cons r R1 =>
        have hr : r.isSpace = true := hR r (List.mem_cons_self _ _)
        simp only [List.nil_append, List.cons_prefix_cons, List.prefix_nil]
        constructor
        · rintro ⟨h, -⟩
          rw [h, hr] at hpp
          cases hpp
        · intro h
          cases h
    | cons c t1 =>
      simp only [List.cons_append, List.cons_prefix_cons]
      rw [ih t1 hps]

theorem index_leading (L s : GoString) (p : GoChar) (ps : GoString)
    (hL : ∀ x ∈ L, x.isSpace = true) (hp : p.isSpace = false) :
    index (L ++ s) (p :: ps) = (index s (p :: ps)).map (· + L.length) := by
  induction L with
  | nil => simp
  | cons c L1 ih =>
    have hc : c.isSpace = true := hL c (List.mem_cons_self _ _)
    have hne : ¬ (p :: ps <+: c :: (L1 ++ s)) := by
      rw [List.cons_prefix_cons]
      rintro ⟨h, -⟩
      rw [h, hc] at hp
      cases hp
    show index (c :: (L1 ++ s)) (p :: ps) = _
    rw [index, if_neg hne, ih (fun x hx => hL x (List.mem_cons_of_mem _ hx))]
    cases index s (p :: ps) with
    | none => rfl
    | some i => simp only [Option.map_some', List.length_cons, Nat.add_assoc]

theorem lastIndex_leading (L s : GoString) (p : GoChar) (ps : GoString)
    (hL : ∀ x ∈ L, x.isSpace = true) (hp : p.isSpace = false) :
    lastIndex (L ++ s) (p :: ps) = (lastIndex s (p :: ps)).map (· + L.length) := by
  induction L with
  | nil => simp
  | cons c L1 ih =>
    have hc : c.isSpace = true := hL c (List.mem_cons_self _ _)
    have hne : ¬ (p :: ps <+: c :: (L1 ++ s)) := by
      rw [List.cons_prefix_cons]
      rintro ⟨h, -⟩
      rw [h, hc] at hp
      cases hp
    show lastIndex (c :: (L1 ++ s)) (p :: ps) = _
    rw [lastIndex, ih (fun x hx => hL x (List.mem_cons_of_mem _ hx))]
    cases lastIndex s (p :: ps) with
    | none => simp only [Option.map_none', if_neg hne]
    | some i => simp only [Option.map_some', List.length_cons, Nat.add_assoc]

theorem index_trailing (s R : GoString) (p : GoChar) (ps : GoString)
    (hp : ∀ x ∈ p :: ps, x.isSpace = false) (hR : ∀ x ∈ R, x.isSpace = true) :
    index (s ++ R) (p :: ps) = index s (p :: ps) := by
  induction s with
  | nil =>
    have h := index_leading R [] p ps hR (hp p (List.mem_cons_self _ _))
    simp only [List.append_nil] at h
    rw [List.nil_append, h]
    simp [index]
  | cons c s1 ih =>
    have h := starts_append_space (p :: ps) (c :: s1) R hp hR
    rw [List.cons_append] at h
    show index (c :: (s1 ++ R)) (p :: ps) = index (c :: s1) (p :: ps)
    rw [index, index, ih]
    by_cases hpre : p :: ps <+: c :: s1
    · rw [if_pos hpre, if_pos (h.mpr hpre)]
    · rw [if_neg hpre, if_neg (fun hh => hpre (h.mp hh))]

theorem lastIndex_trailing (s R : GoString) (p : GoChar) (ps : GoString)
    (hp : ∀ x ∈ p :: ps, x.isSpace = false) (hR : ∀ x ∈ R, x.isSpace = true) :
    lastIndex (s ++ R) (p :: ps) = lastIndex s (p :: ps) := by
  induction s with
  | nil =>
    have h := lastIndex_leading R [] p ps hR (hp p (List.mem_cons_self _ _))
    simp only [List.append_nil] at h
    rw [List.nil_append, h]
    simp [lastIndex]
  | cons c s1 ih =>
    have h := starts_append_space (p :: ps) (c :: s1) R hp hR
    rw [List.cons_append] at h
    show lastIndex (c :: (s1 ++ R)) (p :: ps) = lastIndex (c :: s1) (p :: ps)
    rw [lastIndex, lastIndex, ih]
    by_cases hpre : p :: ps <+: c :: s1
    · rw [if_pos hpre, if_pos (h.mpr hpre)]
    · rw [if_neg hpre, if_neg (fun hh => hpre (h.mp hh))]

theorem index_bound (s pat : GoString) (i : Nat) (h : index s pat = some i) :
    i + pat.length ≤ s.length := by
  induction s generalizing i with
  | nil =>
    simp only [index] at h
    split at h
    · cases h
      simp_all
    · cases h
  | cons c s1 ih =>
    simp only [index] at h
    split at h
    · cases h
      rename_i hpre
      simpa using hpre.length_le
    · cases hi : index s1 pat with
      | none => rw [hi] at h; cases h
      | some j =>
        rw [hi] at h
        cases h
        have := ih j hi
        simp only [List.length_cons]
        omega

theorem lastIndex_bound (s pat : GoString) (i : Nat) (h : lastIndex s pat = some i) :
    i + pat.length ≤ s.length := by
  induction s generalizing i with
  | nil =>
    simp only [lastIndex] at h
    split at h
    · cases h
      simp_all
    · cases h
  | cons c s1 ih =>
    simp only [lastIndex] at h
    cases hi : lastIndex s1 pat with
    | some j =>
      rw [hi] at h
      cases h
      have := ih j hi
      simp only [List.length_cons]
      omega
    | none =>
      rw [hi] at h
      dsimp only at h
      split at h
      · cases h
        rename_i hpre
        simpa using hpre.length_le
      · cases h

theorem index_append_some (t R pat : GoString) (k : Nat) (h : index t pat = some k) :
    index (t ++ R) pat = some k := by
  induction t generalizing k with
  | nil =>
    simp only [index] at h
    split at h
    · cases h
      rename_i hpat
      subst hpat
      cases R with
      | nil => simp [index]
      | cons r R1 => simp [index]
    · cases h
  | cons c t1 ih =>
    show index (c :: (t1 ++ R)) pat = some k
    rw [index] at h ⊢
    by_cases hpre : pat <+: c :: t1
    · rw [if_pos hpre] at h
      have hpre2 : pat <+: c :: (t1 ++ R) :=
        hpre.trans (by rw [← List.cons_append]; exact List.prefix_append _ _)
      rw [if_pos hpre2]
      exact h
    · rw [if_neg hpre] at h
      cases hi : index t1 pat with
      | none => rw [hi] at h; cases h
      | some i =>
        rw [hi] at h
        have hb := index_bound t1 pat i hi
        have hnot : ¬ pat <+: c :: (t1 ++ R) := by
          intro hp2
          apply hpre
          refine List.prefix_of_prefix_length_le hp2
            (by rw [← List.cons_append]; exact List.prefix_append _ _) ?_
          simp only [List.length_cons]
          omega
        rw [if_neg hnot, ih i hi]
        exact h

theorem index_append_none (t R pat : GoString) (j : Nat) (h : index t pat = none)
    (hj : index (t ++ R) pat = some j) : t.length < j + pat.length := by
  induction t generalizing j with
  | nil =>
    simp only [index] at h
    split at h
    · cases h
    · rename_i hpat
      have : 0 < pat.length := List.length_pos.mpr hpat
      simp only [List.length_nil]
      omega
  | cons c t1 ih =>
    rw [index] at h
    by_cases hpre : pat <+: c :: t1
    · rw [if_pos hpre] at h
      cases h
    · rw [if_neg hpre] at h
      have hnone : index t1 pat = none := by
        cases hi : index t1 pat with
        | none => rfl
        | some i => rw [hi] at h; cases h
      change index (c :: (t1 ++ R)) pat = some j at hj
      rw [index] at hj
      by_cases hp2 : pat <+: c :: (t1 ++ R)
      · rw [if_pos hp2] at hj
        cases hj
        by_contra hlen
        apply hpre
        refine List.prefix_of_prefix_length_le hp2
          (by rw [← List.cons_append]; exact List.prefix_append _ _) ?_
        omega
      · rw [if_neg hp2] at hj
        cases hi : index (t1 ++ R) pat with
        | none => rw [hi] at hj; cases hj
        | some i =>
          rw [hi] at hj
          cases hj
          have := ih i hnone hi
          simp only [List.length_cons]
          omega

theorem trimSpace_decompose (text : GoString) :
    ∃ L R, text = L ++ (trimSpace text ++ R) ∧ (∀ x ∈ L, x.isSpace = true) ∧
      (∀ x ∈ R, x.isSpace = true) := by
  refine ⟨text.takeWhile GoChar.isSpace,
    ((text.dropWhile GoChar.isSpace).reverse.takeWhile GoChar.isSpace).reverse, ?_, ?_, ?_⟩
  · unfold trimSpace
    rw [← List.reverse_append, List.takeWhile_append_dropWhile, List.reverse_reverse,
      List.takeWhile_append_dropWhile]
  · intro x hx
    exact List.mem_takeWhile_imp hx
  · intro x hx
    exact List.mem_takeWhile_imp (List.mem_reverse.mp hx)

theorem fence_no_space : ∀ x ∈ fence, x.isSpace = false := by decide

theorem fencedInner_trim_invariant (L M R : GoString) (hL : ∀ x ∈ L, x.isSpace = true)
    (hR : ∀ x ∈ R, x.isSpace = true) : fencedInner (L ++ (M ++ R)) = fencedInner M := by
  have hfp : (GoChar.rune (Char.ofNat 96)).isSpace = false := by decide
  have hi : index (L ++ (M ++ R)) fence = (index M fence).map (· + L.length) := by
    unfold fence
    rw [index_leading L _ _ _ hL hfp, index_trailing M R _ _ fence_no_space hR]
  have hl : lastIndex (L ++ (M ++ R)) fence = (lastIndex M fence).map (· + L.length) := by
    unfold fence
    rw [lastIndex_leading L _ _ _ hL hfp, lastIndex_trailing M R _ _ fence_no_space hR]
  unfold fencedInner
  rw [hi, hl]
  cases hiM : index M fence with
  | none => rfl
  | some i =>
    have hib := index_bound M fence i hiM
    have hdrop : (L ++ (M ++ R)).drop (i + L.length) = M.drop i ++ R := by
      rw [Nat.add_comm, ← List.drop_drop, List.drop_left,
        List.drop_append_of_le_length (by omega)]
    simp only [Option.map_some', hdrop]
    cases hn : index (M.drop i) newline with
    | some k =>
      rw [index_append_some _ R _ k hn]
      cases hlM : lastIndex M fence with
      | none => rfl
      | some l =>
        have hlb := lastIndex_bound M fence l hlM
        have hkb := index_bound (M.drop i) newline k hn
        simp only [Option.map_some', List.length_drop] at hkb ⊢
        by_cases hlt : i + k < l
        · have hlt2 : i + L.length + k < l + L.length := by omega
          rw [if_pos hlt, if_pos hlt2]
          have hd2 : (L ++ (M ++ R)).drop (i + L.length + k) = M.drop (i + k) ++ R := by
            have : i + L.length + k = L.length + (i + k) := by omega
            rw [this, ← List.drop_drop, List.drop_left,
              List.drop_append_of_le_length (by omega)]
          have hlen : l + L.length - (i + L.length + k) = l - (i + k) := by omega
          rw [hd2, hlen, List.take_append_of_le_length (by
            simp only [List.length_drop]
            omega)]
        · have hlt2 : ¬ (i + L.length + k < l + L.length) := by omega
          rw [if_neg hlt, if_neg hlt2]
    | none =>
      cases hn2 : index (M.drop i ++ R) newline with
      | none => rfl
      | some j =>
        have hjb := index_append_none _ R _ j hn hn2
        cases hlM : lastIndex M fence with
        | none => rfl
        | some l =>
          have hlb := lastIndex_bound M fence l hlM
          have hfl : fence.length = 3 := rfl
          have hnl : newline.length = 1 := rfl
          simp only [Option.map_some', List.length_drop] at hjb ⊢
          have hlt2 : ¬ (i + L.length + j < l + L.length) := by omega
          rw [if_neg hlt2]

theorem extractCodeBlock_eq (text : GoString) :
    ExtractCodeBlock text =
      match fencedInner (trimSpace text) with
      | some inner => (trimSpace inner ++ newline, none)
      | none => (trimSpace text, none) := by
  unfold ExtractCodeBlock fencedInner
  dsimp only
  cases index (trimSpace text) fence with
  | none => rfl
  | some i =>
    dsimp only
    cases index ((trimSpace text).drop i) newline with
    | none => rfl
    | some k =>
      dsimp only
      cases lastIndex (trimSpace text) fence with
      | none => rfl
      | some l =>
        dsimp only
        by_cases hlt : i + k < l
        · rw [if_pos hlt, if_neg (by omega)]
        · rw [if_neg hlt, if_pos (by omega)]

/-- C26, as stated, fails: the text " x" contains no fence, and
`ExtractCodeBlock` returns "x", not the text verbatim. -/
theorem C26_unfenced_text_is_trimmed :
    index (GoString.ofString " x") fence = none ∧
    (ExtractCodeBlock (GoString.ofString " x")).1 = GoString.ofString "x" ∧
    extractReference (GoString.ofString " x") = GoString.ofString " x" ∧
    (ExtractCodeBlock (GoString.ofString " x")).1 ≠ extractReference (GoString.ofString " x") := by
  decide

/-- C26, amended: `ExtractCodeBlock` never returns an error, and its result
is the reference with the other case returning the trimmed text: for a text
wrapped in a fenced code block (an opening fence whose line ends, and a later
last fence) the inner content between the end of the opening fence line and
the last fence, trimmed and with one trailing newline; otherwise the input
text with its leading and trailing white space removed. -/
theorem C26_extractCodeBlock_refines_trimmed_reference (text : GoString) :
    ExtractCodeBlock text = (extractReferenceTrimmed text, none) := by
  obtain ⟨L, R, htext, hL, hR⟩ := trimSpace_decompose text
  have hinv : fencedInner text = fencedInner (trimSpace text) := by
    conv_lhs => rw [htext]
    exact fencedInner_trim_invariant L (trimSpace text) R hL hR
  rw [extractCodeBlock_eq, extractReferenceTrimmed, hinv]
  cases fencedInner (trimSpace text) <;> rfl

end GoAgent

/-! ## Theorems: Instruct -/

namespace GoAgent

theorem instructAttempt_fails (session : LLMSession)
    (unmarshal : String → Except String CommandMap) (message : String) (st : InstructState)
    (h : (session st.calls message).2 ≠ none ∨
      ∃ e, unmarshal (session st.calls message).1 = .error e) :
    ∃ err, instructAttempt session unmarshal message st =
      (some err, ⟨st.calls + 1, (session st.calls message).1, st.commandMap⟩) := by
  unfold instructAttempt
  dsimp only
  cases hs : (session st.calls message).2 with
  | some e => exact ⟨.send e, rfl⟩
  | none =>
    rcases h with h | ⟨e, he⟩
    · exact absurd hs h
    · exact ⟨.decode e, by simp only [he]⟩

theorem instructAttempt_succeeds (session : LLMSession)
    (unmarshal : String → Except String CommandMap) (message : String) (st : InstructState)
    (m : CommandMap) (hs : (session st.calls message).2 = none)
    (hm : unmarshal (session st.calls message).1 = .ok m) :
    instructAttempt session unmarshal message st =
      (none, ⟨st.calls + 1, (session st.calls message).1, m⟩) := by
  unfold instructAttempt
  simp only [hs, hm]

theorem retryDo_first_success (session : LLMSession)
    (unmarshal : String → Except String CommandMap) (message : String) (m : CommandMap) :
    ∀ (k attempts : Nat) (st : InstructState) (log : List AttemptError), k < attempts →
      (∀ j < k, (session (st.calls + j) message).2 ≠ none ∨
        ∃ e, unmarshal (session (st.calls + j) message).1 = .error e) →
      (session (st.calls + k) message).2 = none →
      unmarshal (session (st.calls + k) message).1 = .ok m →
      retryDo (instructAttempt session unmarshal message) attempts st log =
        (none, ⟨st.calls + k + 1, (session (st.calls + k) message).1, m⟩) := by
  intro k
  induction k with
  | zero =>
    intro attempts st log hlt _ hs hm
    obtain ⟨n, rfl⟩ : ∃ n, attempts = n + 1 := ⟨attempts - 1, by omega⟩
    rw [retryDo, instructAttempt_succeeds session unmarshal message st m hs hm]
    rfl
  | succ k ih =>
    intro attempts st log hlt hfail hs hm
    obtain ⟨n, rfl⟩ : ∃ n, attempts = n + 1 := ⟨attempts - 1, by omega⟩
    obtain ⟨err, herr⟩ := instructAttempt_fails session unmarshal message st (hfail 0 (by omega))
    rw [retryDo, herr]
    dsimp only
    have hcalls : st.calls + 1 + k = st.calls + (k + 1) := by omega
    rw [ih n ⟨st.calls + 1, (session st.calls message).1, st.commandMap⟩ (log ++ [err])
      (by omega)
      (fun j hj => by
        have := hfail (j + 1) (by omega)
        have hj2 : st.calls + 1 + j = st.calls + (j + 1) := by omega
        simpa only [hj2] using this)
      (by simpa only [hcalls] using hs) (by simpa only [hcalls] using hm)]
    simp only [hcalls]

theorem retryDo_three_failures (session : LLMSession)
    (unmarshal : String → Except String CommandMap) (message : String)
    (err0 err1 err2 : AttemptError)
    (h0 : instructAttempt session unmarshal message ⟨0, "", []⟩ =
      (some err0, ⟨1, (session 0 message).1, []⟩))
    (h1 : instructAttempt session unmarshal message ⟨1, (session 0 message).1, []⟩ =
      (some err1, ⟨2, (session 1 message).1, []⟩))
    (h2 : instructAttempt session unmarshal message ⟨2, (session 1 message).1, []⟩ =
      (some err2, ⟨3, (session 2 message).1, []⟩)) :
    retryDo (instructAttempt session unmarshal message) 3 ⟨0, "", []⟩ [] =
      (some [err0, err1, err2], ⟨3, (session 2 message).1, []⟩) := by
  rw [retryDo, h0]
  dsimp only
  rw [retryDo, h1]
  dsimp only
  rw [retryDo, h2]
  rfl

theorem instructAttempt_decode_error (session : LLMSession)
    (unmarshal : String → Except String CommandMap) (message : String) (st : InstructState)
    (e : String) (hs : (session st.calls message).2 = none)
    (he : unmarshal (session st.calls message).1 = .error e) :
    instructAttempt session unmarshal message st =
      (some (.decode e), ⟨st.calls + 1, (session st.calls message).1, st.commandMap⟩) := by
  unfold instructAttempt
  simp only [hs, he]

theorem instructAttempt_send_error (session : LLMSession)
    (unmarshal : String → Except String CommandMap) (message : String) (st : InstructState)
    (e : String) (hs : (session st.calls message).2 = some e) :
    instructAttempt session unmarshal message st =
      (some (.send e), ⟨st.calls + 1, (session st.calls message).1, st.commandMap⟩) := by
  unfold instructAttempt
  simp only [hs]

theorem instruct_of_first_success (errorsAs : List AttemptError → Bool)
    (render : Value → String) (session : LLMSession)
    (unmarshal : String → Except String CommandMap) (message : String)
    (k : Nat) (hk : k < 3) (m : CommandMap)
    (hfail : ∀ j < k, (session j message).2 ≠ none ∨
      ∃ e, unmarshal (session j message).1 = .error e)
    (hs : (session k message).2 = none) (hm : unmarshal (session k message).1 = .ok m) :
    (Instruct errorsAs render session unmarshal message).2.calls = k + 1 ∧
    (Instruct errorsAs render session unmarshal message).1 =
      (match NewCommand render m with
       | .error err => .error (.createCommand err)
       | .ok cmd => .ok cmd) := by
  have h := retryDo_first_success session unmarshal message m k 3 ⟨0, "", []⟩ [] hk
    (fun j hj => by simpa only [Nat.zero_add] using hfail j hj)
    (by simpa only [Nat.zero_add] using hs) (by simpa only [Nat.zero_add] using hm)
  simp only [Nat.zero_add] at h
  unfold Instruct
  rw [h]
  dsimp only
  cases NewCommand render m <;> exact ⟨rfl, rfl⟩

/-- C24: with a session whose three responses do not decode, `Instruct` calls
`SendMessage` exactly 3 times and returns no command, but the error it returns
is the one with the message "failed to get valid command response from LLM
after multiple retries", the same kind a session whose calls fail gives, not
the one with "failed to unmarshal command response into JSON after multiple
retries": the test for a decode error looks at the value `retry.Do` returned
and does not find the decode errors inside it. When the second attempt is the
first to decode, `SendMessage` is called exactly 2 times. -/
theorem C24_decode_failures_return_generic_error :
    (Instruct retryErrorAs (fun _ => "") garbledSession exampleUnmarshal "go").2.calls = 3 ∧
    (Instruct retryErrorAs (fun _ => "") garbledSession exampleUnmarshal "go").1 =
      .error (.noValidResponse [.decode "invalid character", .decode "invalid character",
        .decode "invalid character"]) ∧
    (Instruct retryErrorAs (fun _ => "") garbledSession exampleUnmarshal "go").1 ≠
      .error (.unmarshalFailed "not json" [.decode "invalid character",
        .decode "invalid character", .decode "invalid character"]) ∧
    (Instruct retryErrorAs (fun _ => "") failingSession exampleUnmarshal "go").1 =
      .error (.noValidResponse [.send "connection refused", .send "connection refused",
        .send "connection refused"]) ∧
    (Instruct retryErrorAs (fun _ => "") recoveringSession exampleUnmarshal "go").2.calls =
      2 := by
  decide

/-- C25, as stated, fails: with a session whose every call fails, `Instruct`
calls `SendMessage` three times, not once, whatever the error test after the
loop answers; the result is an error carrying the three call errors. -/
theorem C25_failed_call_is_retried :
    (failingSession 0 "go").2 = some "connection refused" ∧
    (Instruct (fun _ => false) (fun _ => "") failingSession exampleUnmarshal "go").2.calls = 3 ∧
    (Instruct (fun _ => true) (fun _ => "") failingSession exampleUnmarshal "go").2.calls = 3 ∧
    (Instruct (fun _ => false) (fun _ => "") failingSession exampleUnmarshal "go").1 =
      .error (.noValidResponse [.send "connection refused", .send "connection refused",
        .send "connection refused"]) := by
  decide

/-- C25, amended: a failed `SendMessage` call is retried like a decoding
failure. If all three calls fail, `SendMessage` is invoked exactly 3 times and
`Instruct` returns no command and an error made of the three call errors; if
the calls before attempt `k + 1` (with `k < 3`) fail and attempt `k + 1`
returns a response that decodes, `SendMessage` is invoked exactly `k + 1`
times and the result is that of `NewCommand` on the decoded map. -/
theorem C25_instruct_retries_failed_calls (errorsAs : List AttemptError → Bool)
    (render : Value → String) (session : LLMSession)
    (unmarshal : String → Except String CommandMap) (message : String) :
    ((∀ k < 3, (session k message).2 ≠ none) →
      (Instruct errorsAs render session unmarshal message).2.calls = 3 ∧
      ∃ e0 e1 e2,
        (session 0 message).2 = some e0 ∧
        (session 1 message).2 = some e1 ∧
        (session 2 message).2 = some e2 ∧
        (Instruct errorsAs render session unmarshal message).1 =
          .error (if errorsAs [.send e0, .send e1, .send e2]
            then .unmarshalFailed (session 2 message).1 [.send e0, .send e1, .send e2]
            else .noValidResponse [.send e0, .send e1, .send e2])) ∧
    (∀ k < 3, ∀ m,
      (∀ j < k, (session j message).2 ≠ none) →
      (session k message).2 = none → unmarshal (session k message).1 = .ok m →
      (Instruct errorsAs render session unmarshal message).2.calls = k + 1 ∧
      (Instruct errorsAs render session unmarshal message).1 =
        (match NewCommand render m with
         | .error err => .error (.createCommand err)
         | .ok cmd => .ok cmd)) := by
  refine ⟨fun h => ?_, fun k hk m hfail hs hm =>
    instruct_of_first_success errorsAs render session unmarshal message k hk m
      (fun j hj => Or.inl (hfail j hj)) hs hm⟩
  obtain ⟨e0, he0⟩ := Option.ne_none_iff_exists'.mp (h 0 (by decide))
  obtain ⟨e1, he1⟩ := Option.ne_none_iff_exists'.mp (h 1 (by decide))
  obtain ⟨e2, he2⟩ := Option.ne_none_iff_exists'.mp (h 2 (by decide))
  have hr := retryDo_three_failures session unmarshal message _ _ _
    (instructAttempt_send_error session unmarshal message ⟨0, "", []⟩ e0 he0)
    (instructAttempt_send_error session unmarshal message ⟨1, _, []⟩ e1 he1)
    (instructAttempt_send_error session unmarshal message ⟨2, _, []⟩ e2 he2)
  unfold Instruct
  rw [hr]
  dsimp only
  refine ⟨?_, e0, e1, e2, he0, he1, he2, ?_⟩
  · split <;> rfl
  · split <;> rfl

theorem C25_instruct_retries_failed_calls_witness :
    (Instruct (fun _ => false) (fun _ => "") failingSession exampleUnmarshal "go").2.calls = 3 ∧
    (Instruct (fun _ => false) (fun _ => "") recoveringSession exampleUnmarshal "go").1 =
      .ok .CheckStructureCommand :=
  ⟨((C25_instruct_retries_failed_calls (fun _ => false) (fun _ => "") failingSession
      exampleUnmarshal "go").1 (fun _ _ => Option.some_ne_none _)).1,
   ((C25_instruct_retries_failed_calls (fun _ => false) (fun _ => "") recoveringSession
      exampleUnmarshal "go").2 1 (by decide) [("command", .str "check_structure")]
      (fun j hj => by
        have hj0 : j = 0 := by omega
        subst hj0
        decide)
      rfl rfl).2⟩

end GoAgent

/-! ## Theorems: the results of SearchCode -/
namespace GoAgent

theorem matchingLines_mem (query : GoString) (lines : List GoString) (start n : Nat) :
    n ∈ matchingLines query lines start ↔
      start ≤ n ∧ ∃ line, lines[n - start]? = some line ∧ query <:+: line := by
  induction lines generalizing start with
  | nil => simp [matchingLines]
  | cons l rest ih =>
    rw [matchingLines, List.mem_append, ih]
    constructor
    · rintro (h | ⟨hle, line, hget, hq⟩)
      · by_cases hq : query <:+: l
        · rw [if_pos hq, List.mem_singleton] at h
          subst h
          exact ⟨Nat.le_refl _, l, by simp, hq⟩
        · rw [if_neg hq] at h
          exact absurd h (List.not_mem_nil _)
      · refine ⟨by omega, line, ?_, hq⟩
        have : n - start = (n - (start + 1)) + 1 := by omega
        rw [this, List.getElem?_cons_succ]
        exact hget
    · rintro ⟨hle, line, hget, hq⟩
      by_cases hn : n = start
      · subst hn
        left
        simp only [Nat.sub_self, List.getElem?_cons_zero, Option.some.injEq] at hget
        subst hget
        rw [if_pos hq]
        exact List.mem_singleton_self _
      · right
        refine ⟨by omega, line, ?_, hq⟩
        have : n - start = (n - (start + 1)) + 1 := by omega
        rw [this, List.getElem?_cons_succ] at hget
        exact hget

theorem matchingLines_lower (query : GoString) (lines : List GoString) (start n : Nat)
    (h : n ∈ matchingLines query lines start) : start ≤ n :=
  ((matchingLines_mem query lines start n).mp h).1

theorem matchingLines_increasing (query : GoString) (lines : List GoString) (start : Nat) :
    (matchingLines query lines start).Pairwise (· < ·) := by
  induction lines generalizing start with
  | nil => exact List.Pairwise.nil
  | cons l rest ih =>
    rw [matchingLines]
    by_cases hq : query <:+: l
    · rw [if_pos hq]
      refine List.Pairwise.cons (fun m hm => ?_) (ih (start + 1))
      have := matchingLines_lower query rest (start + 1) m hm
      omega
    · rw [if_neg hq]
      exact ih (start + 1)

theorem appendResults_fresh (results : List (String × List Nat)) (file : String)
    (numbers : List Nat) (h : file ∉ results.map Prod.fst) :
    appendResults results file numbers =
      if numbers = [] then results else results ++ [(file, numbers)] := by
  cases numbers with
  | nil => rw [if_pos rfl, appendResults]
  | cons x xs =>
    rw [if_neg (List.cons_ne_nil _ _)]
    induction results with
    | nil => rfl
    | cons kv rest ih =>
      obtain ⟨k, v⟩ := kv
      have hk : k ≠ file := fun hk => h (by simp [hk])
      rw [appendResults, if_neg hk, ih (fun hm => h (List.mem_cons_of_mem _ hm))]
      · rfl
      · intro hnil
        cases hnil

theorem getFileContent_result_congr (c1 c0 : LocalProgrammingAgentContext) (d : Disk)
    (p : String) (hs : SameStaging c1 c0)
    (hc : c1.currentFileContents (resolveAlias c0 p) =
      c0.currentFileContents (resolveAlias c0 p)) :
    (GetFileContent c1 d p).1 = (GetFileContent c0 d p).1 := by
  obtain ⟨_, _, _, hd, _, ha⟩ := hs
  have hr : resolveAlias c1 p = resolveAlias c0 p := by
    unfold resolveAlias
    rw [ha]
  unfold GetFileContent
  dsimp only
  rw [hr, hd, hc]
  split
  · rfl
  · split
    · rfl
    · split <;> rfl

theorem getFileContent_cache_elsewhere (c : LocalProgrammingAgentContext) (d : Disk)
    (p x : String) (hx : x ≠ resolveAlias c p) :
    (GetFileContent c d p).2.currentFileContents x = c.currentFileContents x := by
  unfold GetFileContent
  dsimp only
  split
  · rfl
  · split
    · rfl
    · split
      · rfl
      · dsimp only [GoMap.set]
        rw [if_neg hx]


theorem appendResults_keys (results : List (String × List Nat)) (file : String)
    (numbers : List Nat) (k : String) (v : List Nat)
    (h : (k, v) ∈ appendResults results file numbers) :
    k ∈ results.map Prod.fst ∨ k = file := by
  cases numbers with
  | nil =>
    rw [appendResults] at h
    exact Or.inl (List.mem_map.mpr ⟨(k, v), h, rfl⟩)
  | cons x xs =>
    induction results with
    | nil =>
      rw [appendResults] at h
      · simp only [List.mem_singleton, Prod.mk.injEq] at h
        exact Or.inr h.1
      · intro hnil
        cases hnil
    | cons kv rest ih =>
      obtain ⟨k1, v1⟩ := kv
      rw [appendResults] at h
      · by_cases hk : k1 = file
        · rw [if_pos hk] at h
          rcases List.mem_cons.mp h with h | h
          · simp only [Prod.mk.injEq] at h
            exact Or.inl (by simp [h.1])
          · exact Or.inl (List.mem_map.mpr ⟨(k, v), List.mem_cons_of_mem _ h, rfl⟩)
        · rw [if_neg hk] at h
          rcases List.mem_cons.mp h with h | h
          · simp only [Prod.mk.injEq] at h
            exact Or.inl (by simp [h.1])
          · rcases ih h with h | h
            · exact Or.inl (by simp only [List.map_cons, List.mem_cons]; exact Or.inr h)
            · exact Or.inr h
      · intro hnil
        cases hnil

theorem searchFiles_keys (query : GoString) (c0 : LocalProgrammingAgentContext) (d : Disk)
    (files : List String) :
    ∀ (c : LocalProgrammingAgentContext) (results : List (String × List Nat)),
      SameStaging c c0 → ∀ k v, (k, v) ∈ (searchFiles query files c d results).1 →
        k ∈ results.map Prod.fst ∨ ∃ f ∈ files, k = resolveAlias c0 f := by
  induction files with
  | nil =>
    intro c results _ k v h
    exact Or.inl (List.mem_map.mpr ⟨(k, v), h, rfl⟩)
  | cons file rest ih =>
    intro c results hs k v h
    have hr : resolveAlias c file = resolveAlias c0 file := by
      unfold resolveAlias
      rw [hs.2.2.2.2.2]
    unfold searchFiles at h
    dsimp only at h
    have hg := getFileContent_sameStaging c d (resolveAlias c file)
    generalize GetFileContent c d (resolveAlias c file) = r at hg h
    obtain ⟨⟨content, found⟩, c1⟩ := r
    dsimp only at hg h
    have hs1 : SameStaging c1 c0 := sameStaging_trans hg hs
    cases found
    · rcases ih c1 _ hs1 k v h with h | ⟨f, hf, hk⟩
      · exact Or.inl h
      · exact Or.inr ⟨f, List.mem_cons_of_mem _ hf, hk⟩
    · rcases ih c1 _ hs1 k v h with h | ⟨f, hf, hk⟩
      · obtain ⟨⟨k2, v2⟩, hmem, hk2⟩ := List.mem_map.mp h
        dsimp only at hk2
        subst hk2
        rcases appendResults_keys _ _ _ _ _ hmem with h | h
        · exact Or.inl h
        · exact Or.inr ⟨file, List.mem_cons_self _ _, h.trans hr⟩
      · exact Or.inr ⟨f, List.mem_cons_of_mem _ hf, hk⟩

theorem searchFiles_values (query : GoString) (c0 : LocalProgrammingAgentContext) (d : Disk)
    (files : List String) :
    ∀ (c : LocalProgrammingAgentContext) (results : List (String × List Nat)),
      SameStaging c c0 →
      (∀ f ∈ files, c.currentFileContents (resolveAlias c0 (resolveAlias c0 f)) =
        c0.currentFileContents (resolveAlias c0 (resolveAlias c0 f))) →
      (files.map (fun f => resolveAlias c0 (resolveAlias c0 f))).Nodup →
      (∀ f ∈ files, resolveAlias c0 f ∉ results.map Prod.fst) →
      (∀ k v, (k, v) ∈ results →
        v = matchingLines query (scanLines (GetFileContent c0 d k).1.1) 1) →
      ∀ k v, (k, v) ∈ (searchFiles query files c d results).1 →
        v = matchingLines query (scanLines (GetFileContent c0 d k).1.1) 1 := by
  induction files with
  | nil =>
    intro c results _ _ _ _ hacc k v h
    exact hacc k v h
  | cons file rest ih =>
    intro c results hs hcache hnd hfresh hacc k v h
    have hr : ∀ p, resolveAlias c p = resolveAlias c0 p := by
      intro p
      unfold resolveAlias
      rw [hs.2.2.2.2.2]
    rw [List.map_cons, List.nodup_cons] at hnd
    obtain ⟨hnotin, hnd⟩ := hnd
    have hne : ∀ g ∈ rest, resolveAlias c0 (resolveAlias c0 g) ≠
        resolveAlias c0 (resolveAlias c0 file) := by
      intro g hg heq
      exact hnotin (List.mem_map.mpr ⟨g, hg, heq⟩)
    unfold searchFiles at h
    dsimp only at h
    rw [hr file] at h
    have hg := getFileContent_sameStaging c d (resolveAlias c0 file)
    have hres := getFileContent_result_congr c c0 d (resolveAlias c0 file) hs
      (hcache file (List.mem_cons_self _ _))
    have hcache1 : ∀ g ∈ rest,
        (GetFileContent c d (resolveAlias c0 file)).2.currentFileContents
            (resolveAlias c0 (resolveAlias c0 g)) =
          c0.currentFileContents (resolveAlias c0 (resolveAlias c0 g)) := by
      intro g hg
      rw [getFileContent_cache_elsewhere c d _ _ (by rw [hr]; exact hne g hg)]
      exact hcache g (List.mem_cons_of_mem _ hg)
    generalize GetFileContent c d (resolveAlias c0 file) = r at hg h hres hcache1
    obtain ⟨⟨content, found⟩, c1⟩ := r
    dsimp only at hg h hres hcache1
    have hs1 : SameStaging c1 c0 := sameStaging_trans hg hs
    have hfresh1 : ∀ g ∈ rest, resolveAlias c0 g ∉ results.map Prod.fst :=
      fun g hg => hfresh g (List.mem_cons_of_mem _ hg)
    cases found
    · exact ih c1 results hs1 hcache1 hnd hfresh1 hacc k v h
    · rw [if_pos rfl, appendResults_fresh _ _ _ (hfresh file (List.mem_cons_self _ _))] at h
      by_cases hn : matchingLines query (scanLines content) 1 = []
      · rw [if_pos hn] at h
        exact ih c1 results hs1 hcache1 hnd hfresh1 hacc k v h
      · rw [if_neg hn] at h
        refine ih c1 _ hs1 hcache1 hnd ?_ ?_ k v h
        · intro g hg hmem
          rw [List.map_append, List.mem_append] at hmem
          rcases hmem with hmem | hmem
          · exact hfresh1 g hg hmem
          · simp only [List.map_cons, List.map_nil, List.mem_singleton] at hmem
            exact hne g hg (by rw [hmem])
        · intro k2 v2 hmem
          rcases List.mem_append.mp hmem with hmem | hmem
          · exact hacc k2 v2 hmem
          · simp only [List.mem_singleton, Prod.mk.injEq] at hmem
            obtain ⟨hk2, hv2⟩ := hmem
            subst hk2 hv2
            rw [← hres]

/-- C30, as stated, fails: in the one-file scene, after the staged move of
`a.txt` to `b.txt` the structure lists `b.txt` only, and the search for "old"
returns one entry whose key is `a.txt`, a path the structure does not list. -/
theorem C30_search_key_is_unlisted_old_name :
    GetRepoStructure (freshWorld.run [.moveFile "a.txt" "b.txt"]).ctx = ["b.txt"] ∧
    (SearchCode (freshWorld.run [.moveFile "a.txt" "b.txt"]).ctx
      (freshWorld.run [.moveFile "a.txt" "b.txt"]).disk "old").1 = [("a.txt", [1])] ∧
    "a.txt" ∉ GetRepoStructure (freshWorld.run [.moveFile "a.txt" "b.txt"]).ctx := by
  decide

/-- C30, amended: for every context, disk and query, every key of the map
`SearchCode` returns is the alias-resolved name `resolveAlias(f)` of a path
`f` listed by `GetRepoStructure()`; and when the listed paths resolve, through
two alias steps, to pairwise distinct names, the value of a key is strictly
increasing and holds exactly the 1-based numbers of those lines, as the
scanner delivers them, of the content `GetFileContent` returns for the key
that contain the query. -/
theorem C30_search_keys_resolved_values_line_numbers (c : LocalProgrammingAgentContext)
    (d : Disk) (query : String) :
    (∀ k v, (k, v) ∈ (SearchCode c d query).1 →
      ∃ f ∈ GetRepoStructure c, k = resolveAlias c f) ∧
    (((GetRepoStructure c).map (fun f => resolveAlias c (resolveAlias c f))).Nodup →
      ∀ k v, (k, v) ∈ (SearchCode c d query).1 →
        v.Pairwise (· < ·) ∧
        ∀ n, n ∈ v ↔ 1 ≤ n ∧ ∃ line,
          (scanLines (GetFileContent c d k).1.1)[n - 1]? = some line ∧
          GoString.ofString query <:+: line) := by
  constructor
  · intro k v h
    rcases searchFiles_keys (GoString.ofString query) c d c.CurrentRepoStructure c []
      (sameStaging_refl c) k v h with h | h
    · exact absurd h (List.not_mem_nil _)
    · exact h
  · intro hnd k v h
    have hv := searchFiles_values (GoString.ofString query) c d c.CurrentRepoStructure c []
      (sameStaging_refl c) (fun _ _ => rfl) hnd (fun _ _ => List.not_mem_nil _)
      (fun _ _ hmem => absurd hmem (List.not_mem_nil _)) k v h
    subst hv
    exact ⟨matchingLines_increasing _ _ _, fun n => matchingLines_mem _ _ 1 n⟩

theorem C30_search_keys_resolved_values_line_numbers_witness :
    ("a.txt", [1]) ∈ (SearchCode (freshWorld.run [.moveFile "a.txt" "b.txt"]).ctx
      (freshWorld.run [.moveFile "a.txt" "b.txt"]).disk "old").1 ∧
    "a.txt" = resolveAlias (freshWorld.run [.moveFile "a.txt" "b.txt"]).ctx "b.txt" ∧
    ∀ n, n ∈ [1] ↔ 1 ≤ n ∧ ∃ line,
      (scanLines (GetFileContent (freshWorld.run [.moveFile "a.txt" "b.txt"]).ctx
        (freshWorld.run [.moveFile "a.txt" "b.txt"]).disk "a.txt").1.1)[n - 1]? = some line ∧
      GoString.ofString "old" <:+: line :=
  ⟨by decide, by decide,
   ((C30_search_keys_resolved_values_line_numbers
      (freshWorld.run [.moveFile "a.txt" "b.txt"]).ctx
      (freshWorld.run [.moveFile "a.txt" "b.txt"]).disk "old").2 (by decide)
      "a.txt" [1] (by decide)).2⟩

end GoAgent

/-! ## Theorems: the orchestration loop -/

namespace GoAgent

theorem sendMessage_ok (a : Assistants) (message : GoString) (implement : Bool)
    (log log1 : List Call) (cmd : Command)
    (h : sendMessage a message implement log = (.ok cmd, log1)) :
    ∃ analysis, log1 = log ++ [.execute implement message, .instruct implement analysis] ∧
      a.instruct log1 = .ok cmd := by
  unfold sendMessage at h
  dsimp only at h
  split at h
  · simp only [Prod.mk.injEq, reduceCtorEq, false_and] at h
  · rename_i analysis _
    split at h
    · simp only [Prod.mk.injEq, reduceCtorEq, false_and] at h
    · rename_i cmd1 hins
      simp only [Prod.mk.injEq, Except.ok.injEq] at h
      obtain ⟨hc, hl⟩ := h
      subst hc hl
      refine ⟨analysis, by simp only [List.append_assoc, List.singleton_append], hins⟩

theorem applyPatch_log (a : Assistants) (existing code : GoString) (file : String)
    (st : ServiceState) :
    ∃ ext, (applyPatch a existing code file st).2.log = st.log ++ ext ∧
      ∀ c ∈ ext, c.isUserInput = false := by
  unfold applyPatch
  split
  · exact ⟨[], by simp, by simp⟩
  · split
    · exact ⟨[], by simp, by simp⟩
    · dsimp only
      split
      · exact ⟨[_], rfl, by simp [Call.isUserInput]⟩
      · exact ⟨[_], rfl, by simp [Call.isUserInput]⟩

theorem generationRequest_log (d : Disk) (plan file : String) (contextFiles : List String)
    (st : ServiceState) :
    ∃ prompt, (generationRequest d plan file contextFiles st).2.log =
      st.log ++ [.generateCode prompt] := by
  unfold generationRequest
  generalize buildContextFilePromptComponent d file contextFiles st.ctx [] = r
  obtain ⟨component, c⟩ := r
  dsimp only
  generalize GetFileContent c d file = r
  obtain ⟨⟨existing, found⟩, c1⟩ := r
  exact ⟨_, rfl⟩

theorem generateFileContent_log (a : Assistants) (d : Disk) (plan file : String)
    (contextFiles : List String) (st : ServiceState) :
    ∃ ext, (generateFileContent a d plan file contextFiles st).2.log = st.log ++ ext ∧
      ∀ c ∈ ext, c.isUserInput = false := by
  unfold generateFileContent
  obtain ⟨prompt, hp⟩ := generationRequest_log d plan file contextFiles st
  generalize generationRequest d plan file contextFiles st = r at hp
  obtain ⟨existing, st1⟩ := r
  dsimp only at hp ⊢
  cases a.generateCode st1.log with
  | error err => exact ⟨[_], hp, by simp [Call.isUserInput]⟩
  | ok code =>
    dsimp only
    obtain ⟨ext, he, hn⟩ := applyPatch_log a existing code file st1
    generalize applyPatch a existing code file st1 = r at he
    obtain ⟨⟨applied, perr⟩, st2⟩ := r
    dsimp only at he
    have hext : st2.log = st.log ++ ([.generateCode prompt] ++ ext) := by
      rw [he, hp, List.append_assoc]
    have hno : ∀ c ∈ [Call.generateCode prompt] ++ ext, c.isUserInput = false := by
      intro c hc
      rcases List.mem_append.mp hc with hc | hc
      · rw [List.mem_singleton.mp hc]
        rfl
      · exact hn c hc
    cases applied
    · exact ⟨_, hext, hno⟩
    · exact ⟨_, hext, hno⟩


theorem handleFileUpdate_log (a : Assistants) (d : Disk) (filePath plan : String)
    (st : ServiceState) :
    ∃ ext, (handleFileUpdate a d filePath plan st).2.log = st.log ++ ext ∧
      ∀ c ∈ ext, c.isUserInput = false := by
  unfold handleFileUpdate
  dsimp only
  split
  · exact ⟨[_], rfl, by simp [Call.isUserInput]⟩
  · rename_i analysis _
    split
    · exact ⟨[.execute true (promptAnalysis filePath),
        .instruct true (promptInstruction filePath plan analysis)], by simp,
        by simp [Call.isUserInput]⟩
    · rename_i fp pl cf _
      obtain ⟨ext, he, hn⟩ := generateFileContent_log a d pl fp cf
        { st with log := st.log ++ [.execute true (promptAnalysis filePath)] ++
            [.instruct true (promptInstruction filePath plan analysis)] }
      generalize generateFileContent a d pl fp cf
        { st with log := st.log ++ [.execute true (promptAnalysis filePath)] ++
            [.instruct true (promptInstruction filePath plan analysis)] } = r at he
      obtain ⟨err, st1⟩ := r
      dsimp only at he
      have hext : st1.log = st.log ++ ([.execute true (promptAnalysis filePath),
          .instruct true (promptInstruction filePath plan analysis)] ++ ext) := by
        rw [he]
        simp only [List.append_assoc, List.singleton_append, List.cons_append, List.nil_append]
      have hno : ∀ c ∈ [Call.execute true (promptAnalysis filePath),
          Call.instruct true (promptInstruction filePath plan analysis)] ++ ext,
          c.isUserInput = false := by
        intro c hc
        rcases List.mem_append.mp hc with hc | hc
        · simp only [List.mem_cons, List.mem_singleton, List.not_mem_nil, or_false] at hc
          rcases hc with hc | hc <;> rw [hc] <;> rfl
        · exact hn c hc
      cases err
      · exact ⟨_, hext, hno⟩
      · exact ⟨_, hext, hno⟩
    · exact ⟨[.execute true (promptAnalysis filePath),
        .instruct true (promptInstruction filePath plan analysis)], by simp,
        by simp [Call.isUserInput]⟩

theorem executeCommand_log (a : Assistants) (json : JsonIndent)
    (renderCommand : Command → String) (d : Disk) (command : Command) (st : ServiceState) :
    ∃ ext, (executeCommand a json renderCommand d command st).2.log = st.log ++ ext ∧
      ∀ c ∈ ext, c.isUserInput = false := by
  have key : ∀ (handled : Except String Command × ServiceState),
      (∃ ext, handled.2.log = st.log ++ ext ∧ ∀ c ∈ ext, c.isUserInput = false) →
      ∃ ext, (match handled with
        | (.error err, st) =>
          ((GoString.ofString "File update failed, please retry.",
            some ("error handling file update in executeCommand: " ++ err)), st)
        | (.ok command, st) =>
          match command.Process json st.ctx d with
          | ((_, some err), c) =>
            ((GoString.ofString ("commandError processing command " ++
                renderCommand command ++ ": " ++ err),
              some ("commandError processing command " ++ renderCommand command ++ ": " ++
                err)), { st with ctx := c })
          | ((processedResponse, none), c) =>
            ((processedResponse, none), { st with ctx := c })).2.log = st.log ++ ext ∧
        ∀ c ∈ ext, c.isUserInput = false := by
    intro handled h
    obtain ⟨r, st1⟩ := handled
    cases r with
    | error err => exact h
    | ok cmd =>
      dsimp only at h ⊢
      generalize cmd.Process json st1.ctx d = p
      obtain ⟨⟨text, err⟩, c⟩ := p
      cases err <;> exact h
  unfold executeCommand
  dsimp only
  apply key
  cases command with
  | UpdateFileCommand fp pl cf => exact handleFileUpdate_log a d fp pl st
  | _ => exact ⟨[], by simp, by simp⟩

theorem rounds_log (a : Assistants) (json : JsonIndent) (renderCommand : Command → String)
    (implement : Bool) (d : Disk) (steps : Nat) (resp last : Command)
    (st stLast : ServiceState) (outs : List GoString)
    (h : Rounds a json renderCommand implement d steps resp st outs last stLast) :
    ∃ ext, stLast.log = st.log ++ ext ∧ (∀ c ∈ ext, c.isUserInput = false) ∧
      ∀ out ∈ outs, Call.execute implement out ∈ ext := by
  induction h with
  | done resp st => exact ⟨[], by simp, by simp, by simp⟩
  | round steps resp next last st stLast outs log hfinal hsend _ ih =>
    obtain ⟨ext1, he1, hn1⟩ := executeCommand_log a json renderCommand d resp st
    obtain ⟨analysis, hlog, _⟩ := sendMessage_ok a _ implement _ log next hsend
    obtain ⟨ext2, he2, hn2, hout2⟩ := ih
    dsimp only at he2
    refine ⟨ext1 ++ [.execute implement (executeCommand a json renderCommand d resp st).1.1,
      .instruct implement analysis] ++ ext2, ?_, ?_, ?_⟩
    · rw [he2, hlog, he1]
      simp only [List.append_assoc]
    · intro c hc
      simp only [List.append_assoc, List.mem_append, List.mem_cons, List.mem_singleton,
        List.not_mem_nil, or_false] at hc
      rcases hc with hc | ⟨hc | hc⟩ | hc
      · exact hn1 c hc
      · rw [hc]; rfl
      · rw [hc]; rfl
      · exact hn2 c hc
    · intro out hout
      rcases List.mem_cons.mp hout with hout | hout
      · subst hout
        simp
      · exact List.mem_append_right _ (hout2 out hout)

theorem rounds_last (a : Assistants) (json : JsonIndent) (renderCommand : Command → String)
    (implement : Bool) (d : Disk) (steps : Nat) (resp last : Command)
    (st stLast : ServiceState) (outs : List GoString)
    (h : Rounds a json renderCommand implement d steps resp st outs last stLast)
    (hst : a.instruct st.log = .ok resp ∧
      ∃ analysis, st.log.getLast? = some (.instruct implement analysis)) :
    a.instruct stLast.log = .ok last ∧
      ∃ analysis, stLast.log.getLast? = some (.instruct implement analysis) := by
  induction h with
  | done resp st => exact hst
  | round steps resp next last st stLast outs log hfinal hsend _ ih =>
    obtain ⟨analysis, hlog, hins⟩ := sendMessage_ok a _ implement _ log next hsend
    apply ih
    dsimp only
    refine ⟨hins, analysis, ?_⟩
    rw [hlog]
    simp

theorem processCommand_not_final (a : Assistants) (json : JsonIndent)
    (renderCommand : Command → String) (d : Disk) (resp : Command) (st : ServiceState)
    (hfinal : resp.isFinal = false) :
    ∃ err, processCommand a json renderCommand d resp st =
      (((executeCommand a json renderCommand d resp st).1.1, true, false, err),
        (executeCommand a json renderCommand d resp st).2) := by
  unfold processCommand
  generalize executeCommand a json renderCommand d resp st = r
  obtain ⟨⟨text, err⟩, st1⟩ := r
  dsimp only
  rw [hfinal]
  cases err with
  | none => exact ⟨none, rfl⟩
  | some e => exact ⟨_, rfl⟩

theorem processLoop_rounds (a : Assistants) (json : JsonIndent)
    (renderCommand : Command → String) (maxLoops : Int) (implement : Bool) (d : Disk)
    (steps : Nat) (resp last : Command) (st stLast : ServiceState) (outs : List GoString)
    (h : Rounds a json renderCommand implement d steps resp st outs last stLast) :
    ∀ (loopCounter : Int) (fuel : Nat), loopCounter + steps ≤ maxLoops →
      processLoop a json renderCommand maxLoops implement d (steps + fuel) loopCounter resp st =
        processLoop a json renderCommand maxLoops implement d fuel (loopCounter + steps)
          last stLast := by
  induction h with
  | done resp st =>
    intro loopCounter fuel _
    simp only [Nat.zero_add, Nat.cast_zero, Int.add_zero]
  | round steps resp next last st stLast outs log hfinal hsend _ ih =>
    intro loopCounter fuel hbound
    have hfuel : steps + 1 + fuel = (steps + fuel) + 1 := by omega
    rw [hfuel, processLoop]
    dsimp only
    have hle : ¬ (loopCounter + 1 > maxLoops) := by
      push_cast at hbound
      omega
    rw [if_neg hle]
    obtain ⟨err, hpc⟩ := processCommand_not_final a json renderCommand d resp st hfinal
    rw [hpc]
    dsimp only
    rw [hsend]
    dsimp only
    simp only [Bool.false_eq_true, if_false, if_true]
    rw [ih (loopCounter + 1) fuel (by push_cast at hbound ⊢; omega)]
    congr 1
    push_cast
    omega

theorem processLoop_final (a : Assistants) (json : JsonIndent)
    (renderCommand : Command → String) (maxLoops : Int) (implement : Bool) (d : Disk)
    (fuel : Nat) (loopCounter : Int) (last : Command) (st : ServiceState) (m : String)
    (hlast : last = .CommitCommand m ∨ last = .RespondCommand m)
    (hbound : loopCounter + 1 ≤ maxLoops) :
    processLoop a json renderCommand maxLoops implement d (fuel + 1) loopCounter last st =
      some ((GoString.ofString m, none), st) := by
  rw [processLoop]
  dsimp only
  have hle : ¬ (loopCounter + 1 > maxLoops) := by omega
  rw [if_neg hle]
  rcases hlast with h | h <;> subst h <;> rfl


theorem applyPatch_marked (a : Assistants) (existing code : GoString) (file : String)
    (st : ServiceState) (hmark : patchMarker <+: code) :
    (existing ≠ [] →
      (∀ err, a.patchCode (st.log ++ [.patchCode (patchPrompt existing code)]) = .error err →
        applyPatch a existing code file st =
          ((false, some err),
            { ctx := st.ctx, log := st.log ++ [.patchCode (patchPrompt existing code)] })) ∧
      (∀ patched,
        a.patchCode (st.log ++ [.patchCode (patchPrompt existing code)]) = .ok patched →
        applyPatch a existing code file st =
          ((true, none),
            { ctx := UpdateFileContent st.ctx file patched,
              log := st.log ++ [.patchCode (patchPrompt existing code)] }))) ∧
    (existing = [] → applyPatch a existing code file st = ((false, none), st)) := by
  refine ⟨fun hne => ⟨fun err herr => ?_, fun patched hp => ?_⟩, fun he => ?_⟩
  · unfold applyPatch
    rw [if_neg (not_not.mpr hmark), if_neg hne]
    dsimp only
    rw [herr]
  · unfold applyPatch
    rw [if_neg (not_not.mpr hmark), if_neg hne]
    dsimp only
    rw [hp]
  · unfold applyPatch
    rw [if_neg (not_not.mpr hmark), if_pos he]

/-- C23, amended: when the generation assistant's text begins with "--- a/",
the patch assistant is invoked exactly when the text `GetFileContent` returned
for the target is not empty. Then `generateFileContent` returns no error; if
the patch assistant fails the generated text is written as the file content
by `UpdateFileContent`, and if it succeeds its answer is written. When the
returned text is empty the patch assistant is not invoked and the generated
text is written as it is, again without an error. -/
theorem C23_patch_resolution_needs_existing_text (a : Assistants) (d : Disk)
    (implementationPlan file : String) (contextFiles : List String) (st : ServiceState)
    (code : GoString)
    (hcode : a.generateCode (generationRequest d implementationPlan file contextFiles st).2.log =
      .ok code)
    (hmark : patchMarker <+: code) :
    ((generationRequest d implementationPlan file contextFiles st).1 ≠ [] →
      (generateFileContent a d implementationPlan file contextFiles st).1 = none ∧
      (generateFileContent a d implementationPlan file contextFiles st).2.log =
        (generationRequest d implementationPlan file contextFiles st).2.log ++
          [.patchCode (patchPrompt
            (generationRequest d implementationPlan file contextFiles st).1 code)] ∧
      (∀ err,
        a.patchCode ((generationRequest d implementationPlan file contextFiles st).2.log ++
          [.patchCode (patchPrompt
            (generationRequest d implementationPlan file contextFiles st).1 code)]) =
          .error err →
        (generateFileContent a d implementationPlan file contextFiles st).2.ctx =
          UpdateFileContent (generationRequest d implementationPlan file contextFiles st).2.ctx
            file code) ∧
      (∀ patched,
        a.patchCode ((generationRequest d implementationPlan file contextFiles st).2.log ++
          [.patchCode (patchPrompt
            (generationRequest d implementationPlan file contextFiles st).1 code)]) =
          .ok patched →
        (generateFileContent a d implementationPlan file contextFiles st).2.ctx =
          UpdateFileContent (generationRequest d implementationPlan file contextFiles st).2.ctx
            file patched)) ∧
    ((generationRequest d implementationPlan file contextFiles st).1 = [] →
      (generateFileContent a d implementationPlan file contextFiles st).1 = none ∧
      (generateFileContent a d implementationPlan file contextFiles st).2.log =
        (generationRequest d implementationPlan file contextFiles st).2.log ∧
      (generateFileContent a d implementationPlan file contextFiles st).2.ctx =
        UpdateFileContent (generationRequest d implementationPlan file contextFiles st).2.ctx
          file code) := by
  unfold generateFileContent
  generalize generationRequest d implementationPlan file contextFiles st = r at hcode ⊢
  obtain ⟨existing, st1⟩ := r
  dsimp only at hcode ⊢
  rw [hcode]
  dsimp only
  obtain ⟨hne, hem⟩ := applyPatch_marked a existing code file st1 hmark
  constructor
  · intro h
    obtain ⟨herr, hok⟩ := hne h
    cases hp : a.patchCode (st1.log ++ [.patchCode (patchPrompt existing code)]) with
    | error err =>
      rw [herr err hp]
      exact ⟨rfl, rfl, fun _ _ => rfl, fun _ hc => by cases hc⟩
    | ok patched =>
      rw [hok patched hp]
      refine ⟨rfl, rfl, fun _ hc => (by cases hc), fun p hc => ?_⟩
      cases hc
      rfl
  · intro h
    rw [hem h]
    exact ⟨rfl, rfl, rfl⟩


/-- C21: a run of `processRequest` whose first round trip succeeds and which
then makes `steps` rounds (each command not final, executed, its output
submitted by a successful `sendMessage`) up to a pending `CommitCommand` or
`RespondCommand`, with `steps + 1` within the loop bound and enough fuel,
returns exactly that command's message with a nil error; the output of every
earlier command was submitted to the analysis assistant as a prompt; the
operator was not asked anything; and the state returned is the one in which
the terminal command arrived, its log ending with the `Instruct` call that
returned the terminal command, so no call follows it. -/
theorem C21_loop_ends_at_first_terminal_command (a : Assistants) (json : JsonIndent)
    (renderCommand : Command → String) (maxLoops : Int) (implement : Bool) (d : Disk)
    (initialPrompt : GoString) (st stLast : ServiceState) (first last : Command)
    (log : List Call) (steps fuel : Nat) (outs : List GoString) (m : String)
    (hfirst : sendMessage a initialPrompt implement st.log = (.ok first, log))
    (hrounds : Rounds a json renderCommand implement d steps first
      { ctx := st.ctx, log := log } outs last stLast)
    (hlast : last = .CommitCommand m ∨ last = .RespondCommand m)
    (hbound : (steps : Int) + 1 ≤ maxLoops) (hfuel : steps < fuel) :
    processRequest a json renderCommand maxLoops d fuel initialPrompt st implement =
      some ((GoString.ofString m, none), stLast) ∧
    (∀ out ∈ outs, Call.execute implement out ∈ stLast.log) ∧
    (∀ c ∈ stLast.log, c.isUserInput = true → c ∈ st.log) ∧
    a.instruct stLast.log = .ok last ∧
    ∃ analysis, stLast.log.getLast? = some (.instruct implement analysis) := by
  obtain ⟨analysis0, hlog0, hins0⟩ := sendMessage_ok a initialPrompt implement st.log log first
    hfirst
  obtain ⟨ext, hext, hno, houts⟩ := rounds_log a json renderCommand implement d steps first
    last _ stLast outs hrounds
  dsimp only at hext
  have hlast2 := rounds_last a json renderCommand implement d steps first last _ stLast outs
    hrounds ⟨hins0, analysis0, by rw [hlog0]; simp⟩
  refine ⟨?_, ?_, ?_, hlast2.1, hlast2.2⟩
  · unfold processRequest
    rw [hfirst]
    dsimp only
    obtain ⟨rest, rfl⟩ : ∃ rest, fuel = steps + (rest + 1) := ⟨fuel - steps - 1, by omega⟩
    rw [processLoop_rounds a json renderCommand maxLoops implement d steps first last _ stLast
      outs hrounds 0 (rest + 1) (by omega)]
    exact processLoop_final a json renderCommand maxLoops implement d rest _ last stLast m
      hlast (by omega)
  · intro out hout
    rw [hext]
    exact List.mem_append_right _ (houts out hout)
  · intro c hc hu
    rw [hext, hlog0] at hc
    simp only [List.append_assoc, List.mem_append, List.mem_cons, List.mem_singleton,
      List.not_mem_nil, or_false] at hc
    rcases hc with hc | ⟨hc | hc⟩ | hc
    · exact hc
    · rw [hc] at hu
      cases hu
    · rw [hc] at hu
      cases hu
    · rw [hno c hc] at hu
      cases hu

theorem C21_loop_ends_at_first_terminal_command_witness :
    processRequest scriptedAssistants exampleJson (fun _ => "") 10 oneFileDisk 5
        (GoString.ofString "go") freshService true =
      some ((GoString.ofString "done", none),
        { ctx := freshService.ctx
          log := [.execute true (GoString.ofString "go"),
            .instruct true (GoString.ofString "analysis"),
            .execute true (GoString.ofString
              "The current project structure is as follows:\na.txt"),
            .instruct true (GoString.ofString "analysis")] }) :=
  (C21_loop_ends_at_first_terminal_command scriptedAssistants exampleJson (fun _ => "") 10
    true oneFileDisk (GoString.ofString "go") freshService _ .CheckStructureCommand
    (.CommitCommand "done")
    [.execute true (GoString.ofString "go"), .instruct true (GoString.ofString "analysis")]
    1 5 _ "done" rfl
    (Rounds.round 0 .CheckStructureCommand (.CommitCommand "done") (.CommitCommand "done") _ _
      [] _ rfl rfl (Rounds.done _ _))
    (Or.inl rfl) (by decide) (by decide)).1

/-- C22, as stated, fails: with the bound 1 and an operator who answers "y"
(not "yes") to the first question and "no" to the second, the loop does not
end at the first answer: it goes on, executes a further command and asks a
second time; in all eight calls are made, two of them questions. -/
theorem C22_answer_y_continues :
    loopingAssistants.userInput [.userInput (loopLimitPrompt 1)] =
      .ok (GoString.ofString "y") ∧
    (processRequest loopingAssistants exampleJson (fun _ => "") 1 oneFileDisk 10
      (GoString.ofString "go") freshService true).map
        (fun r => (r.1, r.2.log.length, userInputCalls r.2.log)) =
      some ((stoppedMessage, none), 8, 2) :=
  ⟨rfl, rfl⟩

/-- C22, amended: after `maxLoops` rounds made from the counter zero (the
start, or the last continuation) without a terminal command, during which the
operator is not asked, the next pass of the loop asks the operator. If the
answer, trimmed and lowered, is "yes" or "y", the counter is reset and the
loop proceeds with the pending command; any other answer, and a failure of
the input, ends the loop with the result "Process stopped by user after loop
limit." and a nil error, the context being the one reached before the
question: no further command is executed. -/
theorem C22_loop_bound_question (a : Assistants) (json : JsonIndent)
    (renderCommand : Command → String) (maxLoops : Nat) (implement : Bool) (d : Disk)
    (resp last : Command) (st stLast : ServiceState) (outs : List GoString) (fuel : Nat)
    (hrounds : Rounds a json renderCommand implement d maxLoops resp st outs last stLast) :
    (∀ c ∈ stLast.log, c.isUserInput = true → c ∈ st.log) ∧
    (∀ answer,
      a.userInput (stLast.log ++ [.userInput (loopLimitPrompt maxLoops)]) = .ok answer →
      (toLower (trimSpace answer) = GoString.ofString "yes" ∨
        toLower (trimSpace answer) = GoString.ofString "y") →
      processLoop a json renderCommand maxLoops implement d (maxLoops + (fuel + 1)) 0 resp st =
        processLoop a json renderCommand maxLoops implement d fuel 0 last
          { ctx := stLast.ctx
            log := stLast.log ++ [.userInput (loopLimitPrompt maxLoops)] }) ∧
    (∀ answer,
      a.userInput (stLast.log ++ [.userInput (loopLimitPrompt maxLoops)]) = .ok answer →
      ¬ (toLower (trimSpace answer) = GoString.ofString "yes" ∨
        toLower (trimSpace answer) = GoString.ofString "y") →
      processLoop a json renderCommand maxLoops implement d (maxLoops + (fuel + 1)) 0 resp st =
        some ((stoppedMessage, none),
          { ctx := stLast.ctx
            log := stLast.log ++ [.userInput (loopLimitPrompt maxLoops)] })) ∧
    (∀ err,
      a.userInput (stLast.log ++ [.userInput (loopLimitPrompt maxLoops)]) = .error err →
      processLoop a json renderCommand maxLoops implement d (maxLoops + (fuel + 1)) 0 resp st =
        some ((stoppedMessage, none),
          { ctx := stLast.ctx
            log := stLast.log ++ [.userInput (loopLimitPrompt maxLoops)] })) := by
  obtain ⟨ext, hext, hno, _⟩ := rounds_log a json renderCommand implement d maxLoops resp
    last st stLast outs hrounds
  have hrun := processLoop_rounds a json renderCommand maxLoops implement d maxLoops resp last
    st stLast outs hrounds 0 (fuel + 1) (by omega)
  have hgt : (0 : Int) + (maxLoops : Int) + 1 > (maxLoops : Int) := by omega
  refine ⟨?_, ?_, ?_, ?_⟩
  · intro c hc hu
    rw [hext] at hc
    rcases List.mem_append.mp hc with hc | hc
    · exact hc
    · rw [hno c hc] at hu
      cases hu
  · intro answer hans hyes
    rw [hrun, processLoop]
    dsimp only
    rw [if_pos hgt, hans]
    dsimp only
    rw [if_pos hyes]
  · intro answer hans hyes
    rw [hrun, processLoop]
    dsimp only
    rw [if_pos hgt, hans]
    dsimp only
    rw [if_neg hyes]
    split <;> rfl
  · intro err herr
    rw [hrun, processLoop]
    dsimp only
    rw [if_pos hgt, herr]

theorem C22_loop_bound_question_witness :
    processLoop loopingAssistants exampleJson (fun _ => "") 1 true oneFileDisk (1 + (3 + 1)) 0
        .CheckStructureCommand freshService =
      processLoop loopingAssistants exampleJson (fun _ => "") 1 true oneFileDisk 3 0
        .CheckStructureCommand
        { ctx := freshService.ctx
          log := [.execute true (GoString.ofString
              "The current project structure is as follows:\na.txt"),
            .instruct true (GoString.ofString "analysis"),
            .userInput (loopLimitPrompt 1)] } :=
  (C22_loop_bound_question loopingAssistants exampleJson (fun _ => "") 1 true oneFileDisk
    .CheckStructureCommand .CheckStructureCommand freshService _ _ 3
    (Rounds.round 0 .CheckStructureCommand .CheckStructureCommand .CheckStructureCommand
      freshService _ [] _ rfl rfl (Rounds.done _ _))).2.1 (GoString.ofString "y") rfl
    (Or.inr rfl)

/-- C23, as stated, fails: the target `empty.txt` exists and is empty, the
generated text begins with the marker, and the only call made is the one of
the generation assistant: the patch assistant is not invoked. -/
theorem C23_empty_target_skips_patch_assistant :
    patchMarker <+: GoString.ofString "--- a/f.txt\n+++ b/f.txt\n" ∧
    (GetFileContent emptyFileWorld.ctx emptyFileWorld.disk "empty.txt").1 = ([], true) ∧
    (generateFileContent patchingAssistants emptyFileWorld.disk "plan" "empty.txt" []
      { ctx := emptyFileWorld.ctx, log := [] }).2.log =
        [.generateCode (promptGenerateFileContentExisting [] "plan" "change request" [])] ∧
    (generateFileContent patchingAssistants emptyFileWorld.disk "plan" "empty.txt" []
      { ctx := emptyFileWorld.ctx, log := [] }).1 = none :=
  ⟨by decide, rfl, rfl, rfl⟩

theorem C23_patch_resolution_needs_existing_text_witness :
    (generateFileContent patchingAssistants oneFileDisk "plan" "a.txt" [] freshService).1 =
      none ∧
    (generateFileContent patchingAssistants oneFileDisk "plan" "a.txt" [] freshService).2.ctx =
      UpdateFileContent (generationRequest oneFileDisk "plan" "a.txt" [] freshService).2.ctx
        "a.txt" (GoString.ofString "--- a/f.txt\n+++ b/f.txt\n") :=
  ⟨((C23_patch_resolution_needs_existing_text patchingAssistants oneFileDisk "plan" "a.txt" []
      freshService (GoString.ofString "--- a/f.txt\n+++ b/f.txt\n") rfl (by decide)).1
      (by decide)).1,
   ((C23_patch_resolution_needs_existing_text patchingAssistants oneFileDisk "plan" "a.txt" []
      freshService (GoString.ofString "--- a/f.txt\n+++ b/f.txt\n") rfl (by decide)).1
      (by decide)).2.2.1 "no patch" rfl⟩

end GoAgent

/-! ## Theorems: the questions put to the operator -/

namespace GoAgent

/-- C27, as stated, fails for two of the four questions. After an
implementation error a failed input makes `resetAndWrapError` return the
input error, so the run ends without a flush, while the answer "no" makes it
return nil and the run goes on to flush; after a flush error a failed input
resets the repository as the answer "yes" does, while "no" resets nothing. -/
theorem C27_failed_input_is_not_no :
    resetAndWrapError silentEnv "dir" "base" false [] =
      (some "EOF", [.userInput skipFlushPrompt]) ∧
    resetAndWrapError refusingEnv "dir" "base" false [] =
      (none, [.userInput skipFlushPrompt]) ∧
    resetAndWrapError silentEnv "dir" "base" true [] =
      (some "error occurred during flushing changes, user chose to reset repository: base",
        [.userInput resetPrompt, .resetToHead "dir"]) ∧
    resetAndWrapError refusingEnv "dir" "base" true [] = (none, [.userInput resetPrompt]) := by
  decide

/-- C27, amended: in the question after the loop bound and in the commit
confirmation, a failure of the input has exactly the effect of the answer
"no": the loop stops with the fixed result, and nothing is committed. In the
question after an implementation error a failure returns the input error (the
run ends without a flush) where "no" returns nil; in the question after a
flush error a failure has exactly the effect of the answer "yes" (the
repository is reset) where "no" returns nil without a reset. -/
theorem C27_input_failure_by_question (a a2 : Assistants) (env env2 : AgentEnv)
    (json : JsonIndent) (renderCommand : Command → String) (maxLoops loopCounter : Int)
    (implement : Bool) (d : Disk) (fuel : Nat) (resp : Command) (st : ServiceState)
    (dir baseError commitMessage : String) (log : List AgentCall)
    (err : String) :
    (maxLoops < loopCounter + 1 →
      a.userInput (st.log ++ [.userInput (loopLimitPrompt maxLoops)]) = .error err →
      a2.userInput (st.log ++ [.userInput (loopLimitPrompt maxLoops)]) =
        .ok (GoString.ofString "no") →
      processLoop a json renderCommand maxLoops implement d (fuel + 1) loopCounter resp st =
        some ((stoppedMessage, none),
          { ctx := st.ctx, log := st.log ++ [.userInput (loopLimitPrompt maxLoops)] }) ∧
      processLoop a2 json renderCommand maxLoops implement d (fuel + 1) loopCounter resp st =
        processLoop a json renderCommand maxLoops implement d (fuel + 1) loopCounter resp st) ∧
    (env.userInput (log ++ [.userInput commitPrompt]) = .error err →
      env2.userInput (log ++ [.userInput commitPrompt]) = .ok (GoString.ofString "no") →
      handleCommit env false dir commitMessage log =
        (none, false, log ++ [.userInput commitPrompt]) ∧
      handleCommit env2 false dir commitMessage log =
        handleCommit env false dir commitMessage log) ∧
    (env.userInput (log ++ [.userInput skipFlushPrompt]) = .error err →
      env2.userInput (log ++ [.userInput skipFlushPrompt]) = .ok (GoString.ofString "no") →
      resetAndWrapError env dir baseError false log =
        (some err, log ++ [.userInput skipFlushPrompt]) ∧
      resetAndWrapError env2 dir baseError false log =
        (none, log ++ [.userInput skipFlushPrompt])) ∧
    (env.userInput (log ++ [.userInput resetPrompt]) = .error err →
      env.resetToHead = env2.resetToHead →
      (env2.userInput (log ++ [.userInput resetPrompt]) = .ok (GoString.ofString "yes") →
        resetAndWrapError env2 dir baseError true log =
          resetAndWrapError env dir baseError true log) ∧
      (env2.userInput (log ++ [.userInput resetPrompt]) = .ok (GoString.ofString "no") →
        resetAndWrapError env2 dir baseError true log =
          (none, log ++ [.userInput resetPrompt])) ∧
      (resetAndWrapError env dir baseError true log).2 =
        log ++ [.userInput resetPrompt, .resetToHead dir]) := by
  have hno : ¬ (toLower (trimSpace (GoString.ofString "no")) = GoString.ofString "yes" ∨
      toLower (trimSpace (GoString.ofString "no")) = GoString.ofString "y") := by decide
  have hno2 : ¬ (toLower (GoString.ofString "no") = GoString.ofString "yes" ∨
      toLower (GoString.ofString "no") = GoString.ofString "y") := by decide
  have hyes : toLower (GoString.ofString "yes") = GoString.ofString "yes" ∨
      toLower (GoString.ofString "yes") = GoString.ofString "y" := by decide
  refine ⟨fun hgt herr hans => ?_, fun herr hans => ?_, fun herr hans => ?_,
    fun herr hreset => ⟨fun hans => ?_, fun hans => ?_, ?_⟩⟩
  · have h1 : processLoop a json renderCommand maxLoops implement d (fuel + 1) loopCounter
        resp st = some ((stoppedMessage, none),
          { ctx := st.ctx, log := st.log ++ [.userInput (loopLimitPrompt maxLoops)] }) := by
      rw [processLoop]
      dsimp only
      rw [if_pos (by omega), herr]
    refine ⟨h1, ?_⟩
    rw [h1, processLoop]
    dsimp only
    rw [if_pos (by omega), hans]
    dsimp only
    rw [if_neg hno]
    split <;> rfl
  · have h1 : handleCommit env false dir commitMessage log =
        (none, false, log ++ [.userInput commitPrompt]) := by
      unfold handleCommit promptForCommit
      simp only [Bool.false_eq_true, if_false]
      rw [herr]
      rfl
    refine ⟨h1, ?_⟩
    rw [h1]
    unfold handleCommit promptForCommit
    simp only [Bool.false_eq_true, if_false]
    rw [hans]
    rfl
  · constructor
    · unfold resetAndWrapError
      simp only [Bool.false_eq_true, not_false_eq_true, if_true]
      rw [herr]
    · unfold resetAndWrapError
      simp only [Bool.false_eq_true, not_false_eq_true, if_true]
      rw [hans]
      dsimp only
      rw [if_neg hno2]
  · unfold resetAndWrapError
    simp only [not_true_eq_false, if_false]
    rw [hans, herr, hreset]
  · unfold resetAndWrapError
    simp only [not_true_eq_false, if_false]
    rw [hans]
    dsimp only
    rw [if_neg hno2]
  · unfold resetAndWrapError
    simp only [not_true_eq_false, if_false]
    rw [herr]
    dsimp only
    rw [if_pos hyes]
    split <;> simp only [List.append_assoc, List.singleton_append]

theorem C27_input_failure_by_question_witness :
    handleCommit refusingEnv false "dir" "message" [] =
      handleCommit silentEnv false "dir" "message" [] ∧
    resetAndWrapError silentEnv "dir" "base" false [] =
      (some "EOF", [] ++ [.userInput skipFlushPrompt]) :=
  ⟨((C27_input_failure_by_question scriptedAssistants loopingAssistants silentEnv refusingEnv
      exampleJson (fun _ => "") 1 1 true oneFileDisk 0 .CheckStructureCommand freshService
      "dir" "base" "message" [] "EOF").2.1 rfl rfl).2,
   ((C27_input_failure_by_question scriptedAssistants loopingAssistants silentEnv refusingEnv
      exampleJson (fun _ => "") 1 1 true oneFileDisk 0 .CheckStructureCommand freshService
      "dir" "base" "message" [] "EOF").2.2.1 rfl rfl).1⟩

end GoAgent
